import Mathlib

/-!
# tabix.c, bgzip.c and fastpos_table.c: a shallow embedding

The C functions `file_type`, `parse_regions`, `query_regions`, `query_chroms`
and `reheader_file` of `tabix.c` and `confirm_filename` of `bgzip.c` are written
as Lean functions over explicit descriptions of what the htslib calls they make
answer; the table `lzma_fastpos` of `fastpos_table.c` is a list.  Text is a list
of characters, one per byte.  Where the source compares a byte it reads as a
`char` with the `int` `meta_char`, the byte enters with its value as a signed
`char` (`plain_char`).  A call of `error` or `error_errno` ends the program with
`EXIT_FAILURE`; it is the `Status.exited` result.  Standard output is a sink
that takes every write: the
calls that open it, write to it, flush it and close it succeed, and so does
memory allocation; the branches the source takes when one of them fails are not
part of the embedding.
-/

namespace Tabix

/-! ## Definitions -/

/-- How a run ends: the function returns a code to its caller, or `error` /
`error_errno` print a message and call `exit(EXIT_FAILURE)`. -/
inductive Status where
  | returned (code : Int)
  | exited (message : String)
  deriving DecidableEq, Repr

/-- The values of `enum htsExactFormat` that `tabix.c` names; every other value
of the enumeration (the header `htslib/hts.h` is not among the sources) is
`other`. -/
inductive htsExactFormat where
  | unknown_format
  | text_format
  | sam
  | bam
  | cram
  | vcf
  | bcf
  | bed
  | other (value : Nat)
  deriving DecidableEq, Repr

def IS_GFF : Int := 1
def IS_BED : Int := 2
def IS_SAM : Int := 4
def IS_VCF : Int := 8
def IS_BCF : Int := 16
def IS_BAM : Int := 32
def IS_CRAM : Int := 64
def IS_TXT : Int := 15

/-- What `hts_open(fname,"r")` answers in `file_type`: the file opens and its
format is detected, or the call fails with `errno == ENOEXEC`, or it fails with
another `errno`. -/
inductive Probe where
  | opened (format : htsExactFormat)
  | enoexec
  | failed
  deriving DecidableEq, Repr

/-- The result of `file_type`: how it ends, and whether it called `hts_open` on
the file. -/
structure FileType where
  status : Status
  probed : Bool
  deriving DecidableEq, Repr

/-- The test `strcasecmp(a, b) == 0` on two C strings: equal after `tolower`
on every character. -/
def strcasecmp_eq (a b : List Char) : Bool :=
  a.map Char.toLower == b.map Char.toLower

/-- The C string that starts at `fname + l - k`, for `l = strlen(fname)`.  When
`k ≤ l` it is the last `k` characters of the name.  When `k = l + 1` the pointer
is one byte in front of the name: the string is then the byte `before` that lies
there followed by the name, or empty when that byte is NUL. -/
def tail_from (before : Char) (fname : List Char) (k : Nat) : List Char :=
  if k ≤ fname.length then fname.drop (fname.length - k)
  else if before = Char.ofNat 0 then [] else before :: fname

/-- The function `file_type` of `tabix.c`.  `before` is the byte in memory just
in front of the name, which the `.cram` comparison reads when the name has
exactly four characters; `probe` is the answer of `hts_open` and
`hts_get_format`, consulted only when no suffix matches. -/
def file_type (before : Char) (fname : List Char) (probe : Probe) : FileType :=
  let l := fname.length
  if l ≥ 7 && strcasecmp_eq (tail_from before fname 7) ".gff.gz".toList then ⟨.returned IS_GFF, false⟩
  else if l ≥ 7 && strcasecmp_eq (tail_from before fname 7) ".bed.gz".toList then ⟨.returned IS_BED, false⟩
  else if l ≥ 7 && strcasecmp_eq (tail_from before fname 7) ".sam.gz".toList then ⟨.returned IS_SAM, false⟩
  else if l ≥ 7 && strcasecmp_eq (tail_from before fname 7) ".vcf.gz".toList then ⟨.returned IS_VCF, false⟩
  else if l ≥ 4 && strcasecmp_eq (tail_from before fname 4) ".bcf".toList then ⟨.returned IS_BCF, false⟩
  else if l ≥ 4 && strcasecmp_eq (tail_from before fname 4) ".bam".toList then ⟨.returned IS_BAM, false⟩
  else if l ≥ 4 && strcasecmp_eq (tail_from before fname 5) ".cram".toList then ⟨.returned IS_CRAM, false⟩
  else
    match probe with
    | .enoexec => ⟨.exited "Couldn't understand format", true⟩
    | .failed => ⟨.exited "Couldn't open", true⟩
    | .opened format =>
      if format = .bcf then ⟨.returned IS_BCF, true⟩
      else if format = .bam then ⟨.returned IS_BAM, true⟩
      else if format = .cram then ⟨.returned IS_CRAM, true⟩
      else if format = .vcf then ⟨.returned IS_VCF, true⟩
      else ⟨.returned 0, true⟩

/-- A name ends in `suffix` when letter case is ignored. -/
def ends_with_nocase (fname : List Char) (suffix : String) : Prop :=
  ∃ pre suf, fname = pre ++ suf ∧ suf.map Char.toLower = suffix.toList

/-! ### `query_regions` -/

/-- The structure `args_t` of `tabix.c`; the two file names are absent when the
pointer is NULL. -/
structure args_t where
  regions_fname : Option String
  targets_fname : Option String
  print_header : Int
  header_only : Int
  cache_megs : Int

/-- One interval of a region index: a sequence name and a closed, 0-based
range `beg..fin`. -/
structure reg_t where
  seq : String
  beg : Int
  fin : Int
  deriving DecidableEq, Repr

/-- The intervals a `regidx_t` holds (here: the target filter). -/
abbrev regidx_t := List reg_t

/-- Modelled from the spec: `regidx_overlap(idx, chr, from, to, NULL)` of
`regidx.c`, which is not among the sources.  It is the overlap test of the
target filter: non-zero exactly when some interval of the index on sequence
`chr` meets the closed range `from..to`. -/
def regidx_overlap (idx : regidx_t) (chr : String) (from_pos to_pos : Int) : Bool :=
  idx.any fun r => r.seq == chr && decide (r.beg ≤ to_pos) && decide (from_pos ≤ r.fin)

/-- A parsed region: sequence name and half-open 0-based interval. -/
structure Region where
  seq : String
  beg : Int
  fin : Int
  deriving DecidableEq, Repr

/-- What a call of `tbx_itr_next` that returns a code `≥ 0` leaves behind: the
fields `curr_tid`, `curr_beg`, `curr_end` of the iterator and the line `str.s`. -/
structure tbx_rec where
  curr_tid : Nat
  curr_beg : Int
  curr_end : Int
  s : String
  deriving DecidableEq, Repr

/-- The fields of a `bcf1_t` that `query_regions` reads. -/
structure bcf1_t where
  rid : Int
  pos : Int
  rlen : Int
  deriving DecidableEq, Repr

/-- A `bcf_hdr_t`: the contig names, indexed by contig id. -/
structure bcf_hdr_t where
  contigs : List String
  deriving DecidableEq, Repr

/-- An iterator over one region (`hts_itr_t`), seen through its `next`
function: the calls return a code `≥ 0` once for each record of `recs`, in this
order, and then the negative code `last`: `-1` at the end of the region, a code
below `-1` when reading fails. -/
structure hts_itr_t (R : Type) where
  recs : List R
  last : Int
  deriving DecidableEq, Repr

/-- The value of the byte `c` read through an lvalue of type `char`, as
`buffer[skip_until]` (lines 375-389) and `str.s[0]` (line 279) are: plain `char`
is signed on the platforms of this port (MSVC, gcc on x86), so the bytes from
0x80 on are negative.  `tabix.c` compares this value with `conf->meta_char`. -/
def plain_char (c : Char) : Int :=
  if c.toNat < 128 then (c.toNat : Int) else (c.toNat : Int) - 256

/-- The configuration `tbx_conf_t`, of which `tabix.c` reads `meta_char`, an
`int` field (the structure is declared in `htslib/tbx.h`, which is not among the
sources): the meta character as an `int`, `'#'` being 35. -/
structure tbx_conf_t where
  meta_char : Int
  deriving DecidableEq, Repr

/-- A loaded text index (`tbx_t`): its configuration, the answer of
`tbx_seqnames` (absent when it returns NULL), and the iterator the index builds
for a parsed region (absent when it builds none, as for a sequence the index
does not hold). -/
structure tbx_t where
  conf : tbx_conf_t
  seqnames : Option (List String)
  itr_query : Region → Option (hts_itr_t tbx_rec)

/-- A loaded binary-variant index (`hts_idx_t`): the iterator it builds for a
parsed region. -/
structure hts_idx_t where
  itr_query : Region → Option (hts_itr_t bcf1_t)

/-- What the htslib calls of `query_regions` answer for the file at hand.
`hts_open` is the detected format, absent when the file cannot be opened;
`regidx_init` the target filter built from a file name; `parseRegionSpecifier`
the region parser (absent result: the text is malformed); the two index loaders
take the flags argument; `getline` is the lines `hts_getline` returns from the
start of the file followed by the negative code that ends them; `hts_close` is
the code returned when the input is closed. -/
structure World where
  hts_open : Option htsExactFormat
  regidx_init : String → Option regidx_t
  parseRegionSpecifier : String → Option Region
  bcf_index_load3 : Int → Option hts_idx_t
  bcf_hdr_read : Option bcf_hdr_t
  tbx_index_load3 : Int → Option tbx_t
  getline : List (List Char) × Int
  hts_close : Int

def HTS_IDX_SAVE_REMOTE : Int := 1

/-- One write to standard output. -/
inductive Emitted where
  | header_line (s : List Char)
  | line (s : String)
  | bcf_header (hdr : bcf_hdr_t)
  | bcf_record (r : bcf1_t)
  deriving DecidableEq, Repr

/-- What a run leaves: the writes to standard output, in order, and how it ended. -/
structure Outcome where
  stdout : List Emitted
  status : Status
  deriving DecidableEq, Repr

/-- The inline function `bcf_seqname` of `htslib/vcf.h`: the contig name of the
record, NULL when its contig id is not one of the header. -/
def bcf_seqname (hdr : bcf_hdr_t) (rec : bcf1_t) : Option String :=
  if rec.rid < 0 then none else hdr.contigs.get? rec.rid.toNat

/-- Modelled from the spec: `tbx_itr_querys(tbx, reg)` of htslib, which is not
among the sources.  The specifier is parsed (`parseRegionSpecifier`) and the
index builds the iterator of the parsed region; a specifier that does not parse
gives NULL. -/
def tbx_itr_querys (w : World) (tbx : tbx_t) (reg : String) : Option (hts_itr_t tbx_rec) :=
  match w.parseRegionSpecifier reg with
  | none => none
  | some r => tbx.itr_query r

/-- Modelled from the spec: `bcf_itr_querys(idx, hdr, reg)` of htslib, which is
not among the sources; see `tbx_itr_querys`. -/
def bcf_itr_querys (w : World) (idx : hts_idx_t) (reg : String) : Option (hts_itr_t bcf1_t) :=
  match w.parseRegionSpecifier reg with
  | none => none
  | some r => idx.itr_query r

/-- Lines 277-282: the loop that prints the header lines.  It yields the lines
written and the last value of `ret`.  The test of line 279 compares `str.s[0]`,
a `char`, with the `int` `tbx->conf.meta_char`. -/
def header_loop (meta_char : Int) (last : Int) : List (List Char) → List Emitted × Int
  | [] => ([], last)
  | l :: ls =>
    if l.length = 0 ∨ l.head?.map plain_char ≠ some meta_char then ([], l.length)
    else
      let rest := header_loop meta_char last ls
      (.header_line l :: rest.1, rest.2)

/-- Lines 298-303: the loop over the records of one iterator, text branch. -/
def tbx_itr_loop (reg_idx : Option regidx_t) (seq : List String) : List tbx_rec → List Emitted
  | [] => []
  | r :: rs =>
    let dropped := match reg_idx with
      | some idx => !regidx_overlap idx (seq.getD r.curr_tid "") r.curr_beg (r.curr_end - 1)
      | none => false
    if dropped then tbx_itr_loop reg_idx seq rs
    else .line r.s :: tbx_itr_loop reg_idx seq rs

/-- Lines 293-306: the loop over the regions, text branch.  It yields the writes
made and the message of the `error_errno` call that ended it, if one did. -/
def tbx_regions_loop (w : World) (tbx : tbx_t) (reg_idx : Option regidx_t) (seq : List String) :
    List String → List Emitted × Option String
  | [] => ([], none)
  | reg :: regs =>
    match tbx_itr_querys w tbx reg with
    | none => tbx_regions_loop w tbx reg_idx seq regs
    | some itr =>
      let out := tbx_itr_loop reg_idx seq itr.recs
      if itr.last < -1 then (out, some "Reading failed")
      else
        let rest := tbx_regions_loop w tbx reg_idx seq regs
        (out ++ rest.1, rest.2)

/-- Lines 240-255: the loop over the records of one iterator, binary-variant
branch.  It yields the writes made and the message of the `error` call that
ended it, if one did. -/
def bcf_itr_loop (hdr : bcf_hdr_t) (reg_idx : Option regidx_t) :
    List bcf1_t → List Emitted × Option String
  | [] => ([], none)
  | rec :: recs =>
    match reg_idx with
    | some idx =>
      match bcf_seqname hdr rec with
      | none => ([], some "Bad BCF record: Invalid CONTIG id")
      | some chr =>
        if !regidx_overlap idx chr rec.pos (rec.pos + rec.rlen - 1) then
          bcf_itr_loop hdr reg_idx recs
        else
          let rest := bcf_itr_loop hdr reg_idx recs
          (.bcf_record rec :: rest.1, rest.2)
    | none =>
      let rest := bcf_itr_loop hdr reg_idx recs
      (.bcf_record rec :: rest.1, rest.2)

/-- Lines 235-260: the loop over the regions, binary-variant branch. -/
def bcf_regions_loop (w : World) (idx : hts_idx_t) (hdr : bcf_hdr_t) (reg_idx : Option regidx_t) :
    List String → List Emitted × Option String
  | [] => ([], none)
  | reg :: regs =>
    match bcf_itr_querys w idx reg with
    | none => bcf_regions_loop w idx hdr reg_idx regs
    | some itr =>
      let scan := bcf_itr_loop hdr reg_idx itr.recs
      match scan.2 with
      | some msg => (scan.1, some msg)
      | none =>
        if itr.last < -1 then (scan.1, some "Reading failed")
        else
          let rest := bcf_regions_loop w idx hdr reg_idx regs
          (scan.1 ++ rest.1, rest.2)

/-- Lines 315-321: the end of `query_regions`, after the branch on the format. -/
def query_finish (w : World) (out : List Emitted) : Outcome :=
  if w.hts_close ≠ 0 then ⟨out, .exited "hts_close returned non-zero status"⟩
  else ⟨out, .returned 0⟩

/-- The formats of the text branch (line 269). -/
def is_text_branch (format : htsExactFormat) : Bool :=
  format = .vcf || format = .sam || format = .bed || format = .text_format
    || format = .unknown_format

/-- Lines 207-214: the target filter.  The outer result is absent when
`regidx_init` fails; the inner one is absent (`reg_idx` stays NULL) when no
targets file is configured. -/
def load_targets (w : World) (args : args_t) : Option (Option regidx_t) :=
  match args.targets_fname with
  | none => some none
  | some name => (w.regidx_init name).map some

/-- The flags argument of the two index loaders: `download ? HTS_IDX_SAVE_REMOTE : 0`. -/
def index_flags (download : Int) : Int :=
  if download ≠ 0 then HTS_IDX_SAVE_REMOTE else 0

/-- Lines 274-284: the header lines written in the text branch and the last
value of `ret` (nothing is read when `print_header` is clear). -/
def print_header_lines (w : World) (args : args_t) (tbx : tbx_t) : List Emitted × Int :=
  if args.print_header ≠ 0 then header_loop tbx.conf.meta_char w.getline.2 w.getline.1 else ([], 0)

/-- Lines 287-292: the sequence names, fetched only when a target filter is
configured; absent when `tbx_seqnames` returns NULL. -/
def filter_seqnames (tbx : tbx_t) (reg_idx : Option regidx_t) : Option (List String) :=
  match reg_idx with
  | some _ => tbx.seqnames
  | none => some []

/-- The function `query_regions` of `tabix.c`.  `regs` is the array of `nregs`
region specifiers.  The call `hts_set_cache_size` changes nothing that is
written and is left out. -/
def query_regions (w : World) (args : args_t) (regs : List String) (download : Int) : Outcome :=
  match w.hts_open with
  | none => ⟨[], .exited "Could not open"⟩
  | some format =>
    match load_targets w args with
    | none => ⟨[], .exited "Could not build region list"⟩
    | some reg_idx =>
      if format = .bcf then
        match w.bcf_index_load3 (index_flags download) with
        | none => ⟨[], .exited "Could not load .csi index"⟩
        | some idx =>
          match w.bcf_hdr_read with
          | none => ⟨[], .exited "Could not read the header"⟩
          | some hdr =>
            let out1 := if args.print_header ≠ 0 then [Emitted.bcf_header hdr] else []
            if args.header_only = 0 then
              let scan := bcf_regions_loop w idx hdr reg_idx regs
              match scan.2 with
              | some msg => ⟨out1 ++ scan.1, .exited msg⟩
              | none => query_finish w (out1 ++ scan.1)
            else query_finish w out1
      else if is_text_branch format then
        match w.tbx_index_load3 (index_flags download) with
        | none => ⟨[], .exited "Could not load .tbi/.csi index"⟩
        | some tbx =>
          let head := print_header_lines w args tbx
          if head.2 < -1 then ⟨head.1, .exited "Reading failed"⟩
          else if args.header_only = 0 then
            match filter_seqnames tbx reg_idx with
            | none => ⟨head.1, .exited "Failed to get sequence names list"⟩
            | some seq =>
              let scan := tbx_regions_loop w tbx reg_idx seq regs
              match scan.2 with
              | some msg => ⟨head.1 ++ scan.1, .exited msg⟩
              | none => query_finish w (head.1 ++ scan.1)
          else query_finish w head.1
      else if format = .bam then
        ⟨[], .exited "Please use \"samtools view\" for querying BAM files."⟩
      else query_finish w []

/-- The records among the writes: the lines of the region loops, without the
header lines. -/
def records (out : List Emitted) : List Emitted :=
  out.filter fun e => match e with
    | .line _ => true
    | .bcf_record _ => true
    | _ => false

/-- Reading fails on the iterator of a region: the iterator exists and ends with
a code below `-1`. -/
def read_fails {R : Type} (itr : Option (hts_itr_t R)) : Bool :=
  match itr with
  | some i => decide (i.last < -1)
  | none => false

/-- The regions of a list that get scanned when `fails` tells the regions on
which reading fails: all up to and including the first such region. -/
def regions_scanned (fails : String → Bool) : List String → List String
  | [] => []
  | reg :: regs => if fails reg then [reg] else reg :: regions_scanned fails regs

/-- The target-filter rule for a record of the text branch: no filter is
configured, or the filter has an interval on the sequence of the record that
meets `curr_beg..curr_end-1`. -/
def kept_text (reg_idx : Option regidx_t) (seq : List String) (r : tbx_rec) : Bool :=
  match reg_idx with
  | none => true
  | some idx => regidx_overlap idx (seq.getD r.curr_tid "") r.curr_beg (r.curr_end - 1)

/-- The target-filter rule for a record of the binary-variant branch, with the
range `pos..pos+rlen-1`. -/
def kept_bcf (hdr : bcf_hdr_t) (reg_idx : Option regidx_t) (rec : bcf1_t) : Bool :=
  match reg_idx with
  | none => true
  | some idx =>
    match bcf_seqname hdr rec with
    | none => false
    | some chr => regidx_overlap idx chr rec.pos (rec.pos + rec.rlen - 1)

/-- The run reaches the region loop of the text branch: the file opens with a
format of the text branch, the target filter (if any) is built as `reg_idx`, the
index loads as `tbx`, printing the header lines meets no read failure, records
are asked for, and the sequence names the filter needs are `seq`. -/
structure TextScan (w : World) (args : args_t) (download : Int) (tbx : tbx_t)
    (reg_idx : Option regidx_t) (seq : List String) : Prop where
  opened : ∃ format, w.hts_open = some format ∧ is_text_branch format = true
  targets : load_targets w args = some reg_idx
  index : w.tbx_index_load3 (index_flags download) = some tbx
  header : ¬ (print_header_lines w args tbx).2 < -1
  body : args.header_only = 0
  names : filter_seqnames tbx reg_idx = some seq

/-- The run reaches the region loop of the binary-variant branch: the file
opens as BCF, the target filter (if any) is built as `reg_idx`, the index loads
as `idx`, the header is read as `hdr`, and records are asked for. -/
structure BcfScan (w : World) (args : args_t) (download : Int) (idx : hts_idx_t)
    (hdr : bcf_hdr_t) (reg_idx : Option regidx_t) : Prop where
  opened : w.hts_open = some .bcf
  targets : load_targets w args = some reg_idx
  index : w.bcf_index_load3 (index_flags download) = some idx
  header : w.bcf_hdr_read = some hdr
  body : args.header_only = 0

/-- Every record of the iterator of `reg` has a contig id of the header, when a
target filter is configured (the filter looks the contig name up). -/
def contigs_known (w : World) (idx : hts_idx_t) (hdr : bcf_hdr_t) (reg_idx : Option regidx_t)
    (reg : String) : Prop :=
  reg_idx ≠ none → ∀ itr, bcf_itr_querys w idx reg = some itr →
    ∀ rec ∈ itr.recs, bcf_seqname hdr rec ≠ none

/-- The header the binary-variant branch writes (lines 226-229). -/
def bcf_header_out (args : args_t) (hdr : bcf_hdr_t) : List Emitted :=
  if args.print_header ≠ 0 then [Emitted.bcf_header hdr] else []

/-- The records of one region that reach standard output in the text branch:
those of its iterator that the target-filter rule keeps, in iterator order; none
when no iterator is built. -/
def tbx_region_out (w : World) (tbx : tbx_t) (reg_idx : Option regidx_t) (seq : List String)
    (reg : String) : List Emitted :=
  match tbx_itr_querys w tbx reg with
  | none => []
  | some itr => (itr.recs.filter (kept_text reg_idx seq)).map (fun r => Emitted.line r.s)

/-- The records of one region that reach standard output in the binary-variant
branch. -/
def bcf_region_out (w : World) (idx : hts_idx_t) (hdr : bcf_hdr_t) (reg_idx : Option regidx_t)
    (reg : String) : List Emitted :=
  match bcf_itr_querys w idx reg with
  | none => []
  | some itr => (itr.recs.filter (kept_bcf hdr reg_idx)).map Emitted.bcf_record

/-- No read failure on the regions of `regs`: with the index the file has, no
iterator of a region of `regs` ends with a code below `-1`, and in the
binary-variant branch every record met has a contig the header knows when the
target filter looks it up. -/
def reads_complete (w : World) (args : args_t) (download : Int) (regs : List String) : Prop :=
  (∀ tbx, w.tbx_index_load3 (index_flags download) = some tbx →
    ∀ reg ∈ regs, read_fails (tbx_itr_querys w tbx reg) = false)
  ∧ (∀ idx hdr reg_idx, w.bcf_index_load3 (index_flags download) = some idx →
    w.bcf_hdr_read = some hdr → load_targets w args = some reg_idx →
    ∀ reg ∈ regs, read_fails (bcf_itr_querys w idx reg) = false
      ∧ contigs_known w idx hdr reg_idx reg)

/-- No iterator can be built for the region, whichever index the file has. -/
def no_iterator (w : World) (download : Int) (reg : String) : Prop :=
  (∀ tbx, w.tbx_index_load3 (index_flags download) = some tbx → tbx_itr_querys w tbx reg = none)
  ∧ (∀ idx, w.bcf_index_load3 (index_flags download) = some idx →
    bcf_itr_querys w idx reg = none)

/-! ### A small indexed file

The scenario of the specification: a text file with header lines that start
with `#` and two data lines for `chr1`, at `[10,20)` and `[100,110)`. -/

def demo_recs : List tbx_rec :=
  [⟨0, 10, 20, "chr1\t11\t20"⟩, ⟨0, 100, 110, "chr1\t101\t110"⟩]

def demo_parse (s : String) : Option Region :=
  if s = "chr1:15-16" then some ⟨"chr1", 14, 16⟩
  else if s = "chr1:1-200" then some ⟨"chr1", 0, 200⟩
  else if s = "chr2:1-10" then some ⟨"chr2", 0, 10⟩
  else none

def demo_tbx : tbx_t where
  conf := ⟨plain_char '#'⟩
  seqnames := some ["chr1"]
  itr_query := fun r =>
    if r.seq = "chr1" then
      some ⟨demo_recs.filter fun x => decide (x.curr_beg < r.fin) && decide (r.beg < x.curr_end), -1⟩
    else none

def demo_bcf_recs : List bcf1_t := [⟨0, 10, 10⟩, ⟨0, 100, 10⟩]

def demo_idx : hts_idx_t where
  itr_query := fun r =>
    if r.seq = "chr1" then
      some ⟨demo_bcf_recs.filter fun x => decide (x.pos < r.fin) && decide (r.beg < x.pos + x.rlen), -1⟩
    else none

def demo_world (format : htsExactFormat) : World where
  hts_open := some format
  regidx_init := fun _ => some [⟨"chr1", 0, 14⟩]
  parseRegionSpecifier := demo_parse
  bcf_index_load3 := fun _ => some demo_idx
  bcf_hdr_read := some ⟨["chr1"]⟩
  tbx_index_load3 := fun _ => some demo_tbx
  getline := (["##fileformat".toList, "#CHROM".toList, "chr1\t11\t20".toList], -1)
  hts_close := 0

/-- The file of `demo_world` when its index cannot be loaded. -/
def demo_world_no_index (format : htsExactFormat) : World :=
  { demo_world format with bcf_index_load3 := fun _ => none, tbx_index_load3 := fun _ => none }

/-- The file of `demo_world` when reading fails on the region `chr1:15-16`, after
its first record: the iterator of that region ends with `-2`. -/
def demo_tbx_failing : tbx_t :=
  { demo_tbx with itr_query := fun r =>
      if r = ⟨"chr1", 14, 16⟩ then some ⟨[⟨0, 10, 20, "chr1\t11\t20"⟩], -2⟩
      else demo_tbx.itr_query r }

def demo_world_failing : World :=
  { demo_world .vcf with tbx_index_load3 := fun _ => some demo_tbx_failing }

def demo_args (targets : Option String) : args_t := ⟨none, targets, 0, 0, 0⟩

/-! ### `reheader_file` -/

/-- A frame of a block-compressed file, given by its decompressed payload; a
frame that `bgzf_read_block` cannot decompress has none. -/
abbrev Frame := Option (List Char)

/-- The fields of the input stream `BGZF *fp` that `reheader_file` uses: the
frames of the file that lie after the read position, the block buffer
`uncompressed_block` (a fixed area of memory, given by the byte at each offset)
and `block_length`, the payload length of the frame loaded last. -/
structure BGZF where
  blocks : List Frame
  uncompressed_block : Nat → Char
  block_length : Nat

/-- The call `bgzf_read_block(fp)`: the return code and the stream after it.  At
the end of the file it returns 0 with `block_length` 0; on a frame it cannot
decompress it returns `-1`; otherwise the payload of the next frame overwrites
the start of the block buffer, the bytes behind it staying as they were. -/
def bgzf_read_block (fp : BGZF) : Int × BGZF :=
  match fp.blocks with
  | [] => (0, { fp with block_length := 0 })
  | none :: rest => (-1, { fp with blocks := rest })
  | some b :: rest =>
    (0, { blocks := rest
          uncompressed_block := fun i => b.getD i (fp.uncompressed_block i)
          block_length := b.length })

/-- How the search for the data block ends (lines 371-398): at offset
`skip_until` of the frame loaded in `fp`, or with the call
`error("FIXME: No body in the file")`, or with the step bound of the embedding
used up (which `scan_fuel` excludes). -/
inductive Scan where
  | found (fp : BGZF) (skip_until : Nat)
  | no_body
  | out_of_fuel

/-- Lines 383-387 and 392-396: when `skip_until` has reached `block_length` the
next frame is read and `skip_until` restarts at 0; no result when the read fails
or the frame is empty (the `error` call). -/
def next_block (fp : BGZF) (skip_until : Nat) : Option (BGZF × Nat) :=
  if skip_until ≥ fp.block_length then
    let r := bgzf_read_block fp
    if r.1 ≠ 0 ∨ r.2.block_length = 0 then none else some (r.2, 0)
  else some (fp, skip_until)

/-- Lines 378-397: the loop `while (1)`, each unfolding one pass of its body. -/
def skip_loop (meta_char : Int) : Nat → BGZF → Nat → Scan
  | 0, _, _ => .out_of_fuel
  | fuel + 1, fp, skip_until =>
    if fp.uncompressed_block skip_until = '\n' then
      match next_block fp (skip_until + 1) with
      | none => .no_body
      | some (fp1, s1) =>
        if plain_char (fp1.uncompressed_block s1) ≠ meta_char then .found fp1 s1
        else
          match next_block fp1 (s1 + 1) with
          | none => .no_body
          | some (fp2, s2) => skip_loop meta_char fuel fp2 s2
    else
      match next_block fp (skip_until + 1) with
      | none => .no_body
      | some (fp2, s2) => skip_loop meta_char fuel fp2 s2

/-- A bound on the passes of the loop: every pass moves on by a byte or to the
next frame. -/
def scan_fuel (fp : BGZF) : Nat :=
  (fp.blocks.map fun b => (b.getD []).length + 1).sum + fp.block_length + 1

/-- Lines 371-398: the search for the position of the data block, from the first
frame, already loaded in `fp`.  `buffer` is a `char *` (line 371), and line 375
compares `buffer[0]` with the `int` `conf->meta_char`. -/
def skip_header (meta_char : Int) (fp : BGZF) : Scan :=
  if plain_char (fp.uncompressed_block 0) = meta_char then
    skip_loop meta_char (scan_fuel fp) fp 1
  else .found fp 0

def page_size : Nat := 32768

/-- Lines 411-416: the data of the successive `bgzf_write` calls that copy the
new header: `fread` fills the buffer with up to `page_size - 1` bytes, and a
newline is appended to a short read that does not end with one.  The first
argument bounds the number of reads. -/
def header_writes : Nat → List Char → List (List Char)
  | 0, _ => []
  | fuel + 1, text =>
    let chunk := text.take (page_size - 1)
    if chunk.length > 0 then
      let data := if chunk.length < page_size - 1 ∧ chunk.getLast? ≠ some '\n'
        then chunk ++ ['\n'] else chunk
      data :: header_writes fuel (text.drop (page_size - 1))
    else []

/-- What `reheader_file` finds: the frames of the file `fname` (absent when
`bgzf_open` fails), the bytes that lie in the block buffer when the stream is
opened, and the text of the file `header` (absent when `fopen` fails). -/
structure Files where
  input : Option (List Frame)
  memory : Nat → Char
  header : Option (List Char)

/-- The calls `reheader_file` makes on its three handles. -/
inductive Event where
  | open_input
  | open_header
  | open_output
  | write (data : List Char)
  | close_header
  | flush
  | raw_copy (frames : List Frame)
  | close_output
  | close_input
  deriving DecidableEq, Repr

/-- What a run of `reheader_file` leaves: how it ended and the calls made on the
handles, in order. -/
structure Reheader where
  status : Status
  events : List Event
  deriving DecidableEq, Repr

/-- Lines 421-424: the bytes of the loaded frame from `skip_until` on. -/
def block_rest (fp : BGZF) (skip_until : Nat) : List Char :=
  (List.range (fp.block_length - skip_until)).map fun i => fp.uncompressed_block (skip_until + i)

/-- The function `reheader_file` of `tabix.c`. -/
def reheader_file (files : Files) (ftype : Int) (conf : tbx_conf_t) : Reheader :=
  if Int.land ftype IS_TXT ≠ 0 ∨ ftype = 0 then
    match files.input with
    | none => ⟨.returned (-1), []⟩
    | some frames =>
      let first := bgzf_read_block ⟨frames, files.memory, 0⟩
      if first.1 ≠ 0 ∨ first.2.block_length = 0 then ⟨.returned (-1), [.open_input]⟩
      else
        match skip_header conf.meta_char first.2 with
        | .out_of_fuel => ⟨.exited "step bound", [.open_input]⟩
        | .no_body => ⟨.exited "FIXME: No body in the file", [.open_input]⟩
        | .found fp skip_until =>
          match files.header with
          | none => ⟨.exited "header file: cannot open", [.open_input]⟩
          | some text =>
            ⟨.returned 0,
              [.open_input, .open_header, .open_output]
              ++ (header_writes (text.length + 1) text).map .write
              ++ [.close_header]
              ++ (if fp.block_length - skip_until > 0 then [.write (block_rest fp skip_until)]
                  else [])
              ++ [.flush, .raw_copy fp.blocks, .close_output, .close_input]⟩
  else ⟨.exited "todo: reheader BCF, BAM", []⟩

/-- The decompressed content of the file the calls write: the data of the
`bgzf_write` calls and the payloads of the frames copied raw, in order. -/
def output_content (events : List Event) : List Char :=
  events.flatMap fun e => match e with
    | .write data => data
    | .raw_copy frames => frames.flatMap fun f => f.getD []
    | _ => []

/-- The offset in the content of the file at which the scan stopped: the bytes
of the frames read before the loaded one, and `skip_until`. -/
def scan_position (frames : List Frame) : Scan → Option Nat
  | .found fp skip_until =>
    some (((frames.take (frames.length - fp.blocks.length - 1)).map
      fun f => (f.getD []).length).sum + skip_until)
  | _ => none

/-- The header/body boundary in the words of the specification: the offset of
the first line that does not begin with the meta character, a byte being the
meta character when its value as a `char` is `meta_char`.  `at_start` tells
whether the text starts a line. -/
def body_offset (meta_char : Int) : Bool → List Char → Option Nat
  | _, [] => none
  | at_start, c :: cs =>
    if at_start && plain_char c != meta_char then some 0
    else (body_offset meta_char (c == '\n') cs).map (· + 1)

/-- A header line: it ends at its only newline and begins with the meta
character, that is, the value of its first byte as a `char` is `meta_char`. -/
def is_header_line (meta_char : Int) (line : List Char) : Prop :=
  ∃ body, line = body ++ ['\n'] ∧ '\n' ∉ body ∧ line.head?.map plain_char = some meta_char

/-- The stream after `bgzf_open`: no frame loaded yet. -/
def bgzf_open (frames : List Frame) (memory : Nat → Char) : BGZF := ⟨frames, memory, 0⟩

/-- The content that lies at and after offset `skip_until` of the loaded frame:
the rest of its payload and the payloads of the frames not yet read. -/
def remaining (fp : BGZF) (skip_until : Nat) : List Char :=
  block_rest fp skip_until ++ fp.blocks.flatMap fun f => f.getD []

/-- The state of a scan inside the payload of the loaded frame, in a file whose
later frames all decompress and are non-empty. -/
def in_payload (fp : BGZF) (skip_until : Nat) : Prop :=
  skip_until < fp.block_length ∧ ∀ f ∈ fp.blocks, ∃ l, f = some l ∧ l ≠ []

/-- The quantity that bounds the passes of the scan loop: the bytes of the loaded
frame from `skip_until` on, and for every frame not yet read its bytes and one. -/
def scan_measure (fp : BGZF) (skip_until : Nat) : Nat :=
  (fp.blocks.map fun b => (b.getD []).length + 1).sum + (fp.block_length - skip_until)

/-- Every handle the calls open is closed by a later call, and the output
stream is flushed before it is closed. -/
def handles_released (events : List Event) : Prop :=
  (Event.open_input ∈ events → Event.close_input ∈ events)
  ∧ (Event.open_header ∈ events → Event.close_header ∈ events)
  ∧ (Event.open_output ∈ events →
      ∃ pre post, events = pre ++ Event.close_output :: post ∧ Event.flush ∈ pre)

/-- The seven comparisons of lines 98-104, in order.  Each is the length the
guard asks of the name, the number `k` of characters in front of the end of the
name at which the comparison starts (`fname + l - k`), the suffix, and the flag
returned on a match. -/
def suffix_checks : List (Nat × Nat × String × Int) :=
  [(7, 7, ".gff.gz", IS_GFF), (7, 7, ".bed.gz", IS_BED), (7, 7, ".sam.gz", IS_SAM),
   (7, 7, ".vcf.gz", IS_VCF), (4, 4, ".bcf", IS_BCF), (4, 4, ".bam", IS_BAM),
   (4, 5, ".cram", IS_CRAM)]

/-- The flag of the first comparison of the list that succeeds, if one does. -/
def first_match (before : Char) (fname : List Char) :
    List (Nat × Nat × String × Int) → Option Int
  | [] => none
  | (m, k, suffix, flag) :: rest =>
    if fname.length ≥ m && strcasecmp_eq (tail_from before fname k) suffix.toList then some flag
    else first_match before fname rest

/-- The offsets into the name, `l - k`, at which the `strcasecmp` calls start
that are performed: a comparison is performed when its guard on `l` holds and no
earlier comparison has succeeded. -/
def compare_offsets (before : Char) (fname : List Char) :
    List (Nat × Nat × String × Int) → List Int
  | [] => []
  | (m, k, suffix, _) :: rest =>
    if fname.length ≥ m then
      ((fname.length : Int) - (k : Int)) ::
        (if strcasecmp_eq (tail_from before fname k) suffix.toList then []
         else compare_offsets before fname rest)
    else compare_offsets before fname rest

/-- Lines 106-123 of `file_type`: the answer from the probe of the content. -/
def probe_type (probe : Probe) : FileType :=
  match probe with
  | .enoexec => ⟨.exited "Couldn't understand format", true⟩
  | .failed => ⟨.exited "Couldn't open", true⟩
  | .opened format =>
    if format = .bcf then ⟨.returned IS_BCF, true⟩
    else if format = .bam then ⟨.returned IS_BAM, true⟩
    else if format = .cram then ⟨.returned IS_CRAM, true⟩
    else if format = .vcf then ⟨.returned IS_VCF, true⟩
    else ⟨.returned 0, true⟩

/-! ### `query_chroms` and the branches of `query_regions` -/

/-- The function `query_chroms` of `tabix.c`.  The htslib calls answer as in `w`;
`bcf_index_seqnames` is the answer of the call of that name (absent when it
returns NULL); `before`, `fname` and `probe` are what `file_type` is given.
Every sequence name is one line on standard output. -/
def query_chroms (w : World) (bcf_index_seqnames : hts_idx_t → bcf_hdr_t → Option (List String))
    (before : Char) (fname : List Char) (probe : Probe) (download : Int) : Outcome :=
  match (file_type before fname probe).status with
  | .exited msg => ⟨[], .exited msg⟩
  | .returned ftype =>
    if Int.land ftype IS_TXT ≠ 0 ∨ ftype = 0 then
      match w.tbx_index_load3 (index_flags download) with
      | none => ⟨[], .exited "Could not load .tbi index"⟩
      | some tbx =>
        match tbx.seqnames with
        | none => ⟨[], .exited "Couldn't get list of sequence names"⟩
        | some seq => ⟨seq.map .line, .returned 0⟩
    else if ftype = IS_BCF then
      match w.hts_open with
      | none => ⟨[], .exited "Could not open"⟩
      | some _ =>
        match w.bcf_hdr_read with
        | none => ⟨[], .exited "Could not read the header"⟩
        | some hdr =>
          match w.bcf_index_load3 (index_flags download) with
          | none => ⟨[], .exited "Could not load .csi index"⟩
          | some idx =>
            match bcf_index_seqnames idx hdr with
            | none => ⟨[], .exited "Couldn't get list of sequence names"⟩
            | some seq => ⟨seq.map .line, .returned 0⟩
    else if ftype = IS_BAM then ⟨[], .exited "BAM: todo"⟩
    else ⟨[], .returned 0⟩

/-- The branches of `query_regions`: the text index and line decoder, the
binary-variant index and decoder, the usage error, or none of them. -/
inductive Branch where
  | text
  | binary_variant
  | usage_error
  | none_taken
  deriving DecidableEq, Repr

/-- Lines 216, 269 and 312: the branch `query_regions` takes for a probed format. -/
def query_branch (format : htsExactFormat) : Branch :=
  if format = .bcf then .binary_variant
  else if is_text_branch format then .text
  else if format = .bam then .usage_error
  else .none_taken

/-- The branch a result of `file_type` designates: text for 0 and the text
flags, binary variant for `IS_BCF`, the usage error for `IS_BAM` and `IS_CRAM`. -/
def designated_branch (ftype : Int) : Option Branch :=
  if ftype = 0 ∨ ftype = IS_GFF ∨ ftype = IS_BED ∨ ftype = IS_SAM ∨ ftype = IS_VCF then some .text
  else if ftype = IS_BCF then some .binary_variant
  else if ftype = IS_BAM ∨ ftype = IS_CRAM then some .usage_error
  else none

/-- The result of `file_type` as a flag, when it returns. -/
def file_type_flag (r : FileType) : Option Int :=
  match r.status with
  | .returned ftype => some ftype
  | .exited _ => none

/-- The constant `HTS_POS_MAX` of `htslib/hts.h` (the header is not among the
sources): `((INT_MAX << 32) | INT_MAX)`. -/
def HTS_POS_MAX : Int := 9223372034707292159

/-- The value of an `hts_pos_t` expression, a signed integer of 64 bits. -/
def hts_pos_wrap (x : Int) : Int :=
  (x + 9223372036854775808) % 18446744073709551616 - 9223372036854775808

/-- Modelled from the spec: `regidx_seq_names` of `regidx.c`, which is not among
the sources: the sequence names of the index, each once, in index order. -/
def regidx_seq_names (idx : regidx_t) : List String :=
  (idx.map fun r => r.seq).eraseDups

/-- Modelled from the spec: `regidx_overlap(idx, chr, from, to, itr)` followed
by the calls of `regitr_overlap(itr)` (`regidx.c` is not among the sources): the
intervals of the index on sequence `chr` that meet the closed range `from..to`,
in index order. -/
def regitr_overlap (idx : regidx_t) (chr : String) (from_pos to_pos : Int) : List reg_t :=
  idx.filter fun r => r.seq == chr && decide (r.beg ≤ to_pos) && decide (from_pos ≤ r.fin)

/-- Modelled from the spec: `regidx_nregs`, the number of intervals of the index. -/
def regidx_nregs (idx : regidx_t) : Nat := idx.length

/-- Line 161: the text `ksprintf` builds with the format `"%s:%lld-%lld"`. -/
def region_text (seq : String) (start stop : Int) : String :=
  seq ++ ":" ++ toString start ++ "-" ++ toString stop

/-- Lines 153-168: the specifiers built from the regions file, sequence by
sequence. -/
def file_regions (idx : regidx_t) : List String :=
  (regidx_seq_names idx).flatMap fun seq =>
    (regitr_overlap idx seq 0 HTS_POS_MAX).map fun r =>
      region_text seq (hts_pos_wrap (r.beg + 1)) (hts_pos_wrap (r.fin + 1))

/-- What `parse_regions` leaves: the entries of `regs` it has filled, in order,
and the count `*nregs`; or the `error_errno` call that ended it. -/
inductive Parsed where
  | regions (regs : List String) (nregs : Nat)
  | exited (message : String)
  deriving DecidableEq, Repr

/-- The function `parse_regions` of `tabix.c`.  `regidx_init` is the index built
from the regions file (absent when the call fails), `argv` the `argc` regions of
the command line. -/
def parse_regions (regidx_init : String → Option regidx_t) (regions_fname : Option String)
    (argv : List String) : Parsed :=
  let file : Option (List String × Nat) := match regions_fname with
    | none => some ([], 0)
    | some name =>
      match regidx_init name with
      | none => none
      | some idx => some (file_regions idx, regidx_nregs idx)
  match file with
  | none => .exited "Could not build region list"
  | some (regs, n) =>
    if regs.length = 0 then
      if argv.length ≠ 0 then .regions argv (argv.length + n)
      else .regions ["."] 1
    else .regions (regs ++ argv) (argv.length + n)

/-- Modelled from the spec: a region given as 1-based inclusive `start-end` is
converted at the boundary to the half-open 0-based interval `[start-1, end)`
(the region parser of htslib is not among the sources). -/
def one_based_to_half_open (start stop : Int) : Int × Int := (start - 1, stop)

/-- The number of frames of the file `frames` that `bgzf_read_block` has
decompressed when the stream stands at `fp`: those no longer ahead of it. -/
def frames_read (frames : List Frame) (fp : BGZF) : Nat :=
  frames.length - fp.blocks.length

/-- The stream `fp` stands in the file `frames` with a frame loaded: the frames
read before it, each decompressed to a non-empty payload, then the loaded frame,
whose payload lies at the start of the block buffer, then the frames not yet
read. -/
def loaded (frames : List Frame) (fp : BGZF) : Prop :=
  ∃ pre l, frames = pre ++ some l :: fp.blocks ∧ block_rest fp 0 = l
    ∧ fp.block_length = l.length ∧ l ≠ [] ∧ ∀ f ∈ pre, ∃ x, f = some x ∧ x ≠ []

/-! ### `bgzip.c`: `confirm_filename` -/

/-- The value of an `int` expression: a signed integer of 32 bits. -/
def int_wrap (x : Int) : Int := (x + 2147483648) % 4294967296 - 2147483648

def STDIN_FILENO : Int := 0

/-- Line 38 of `bgzip.c`: `#define isatty(file) FALSE`. -/
def isatty (_file : Int) : Bool := false

/-- The function `ask_yn` of `bgzip.c`.  `line` is what `fgets` reads from
standard input, absent when it returns `NULL`. -/
def ask_yn (line : Option (List Char)) : Int :=
  match line with
  | none => 0
  | some l => if l.head? = some 'Y' ∨ l.head? = some 'y' then 1 else 0

/-- What a call of `confirm_filename` leaves: the value returned, the count
`*is_forced` after it, and whether the question was printed on `stderr`. -/
structure Confirmed where
  result : Int
  is_forced : Int
  prompted : Bool
  deriving DecidableEq, Repr

/-- The function `confirm_filename` of `bgzip.c`, called with the count
`*is_forced`; `line` is what standard input holds at the call. -/
def confirm_filename (is_forced : Int) (line : Option (List Char)) : Confirmed :=
  if is_forced ≠ 0 then ⟨1, int_wrap (is_forced - 1), false⟩
  else if !isatty STDIN_FILENO then ⟨0, is_forced, false⟩
  else ⟨ask_yn line, is_forced, true⟩

/-- Successive calls of `confirm_filename` on one count, one call for each
element of `lines` (what standard input holds at that call): what the calls
leave, in order, and the count after the last. -/
def confirm_calls : List (Option (List Char)) → Int → List Confirmed × Int
  | [], n => ([], n)
  | line :: rest, n =>
    let c := confirm_filename n line
    let r := confirm_calls rest c.is_forced
    (c :: r.1, r.2)

/-- The reads `buffer[skip_until]` that the loop of lines 378-397 makes, in
order: the offset read, and with it the `block_length` of the frame loaded when
the read is made.  The passes are those of `skip_loop`. -/
def skip_loop_reads (meta_char : Int) : Nat → BGZF → Nat → List (Nat × Nat)
  | 0, _, _ => []
  | fuel + 1, fp, skip_until =>
    (skip_until, fp.block_length) ::
      if fp.uncompressed_block skip_until = '\n' then
        match next_block fp (skip_until + 1) with
        | none => []
        | some (fp1, s1) =>
          (s1, fp1.block_length) ::
            if plain_char (fp1.uncompressed_block s1) ≠ meta_char then []
            else
              match next_block fp1 (s1 + 1) with
              | none => []
              | some (fp2, s2) => skip_loop_reads meta_char fuel fp2 s2
      else
        match next_block fp (skip_until + 1) with
        | none => []
        | some (fp2, s2) => skip_loop_reads meta_char fuel fp2 s2

/-- The reads of the block buffer that the search of lines 371-398 makes, from
the first frame, already loaded in `fp`: `buffer[0]` (line 375), then the reads
of the loop. -/
def skip_header_reads (meta_char : Int) (fp : BGZF) : List (Nat × Nat) :=
  (0, fp.block_length) ::
    if plain_char (fp.uncompressed_block 0) = meta_char then
      skip_loop_reads meta_char (scan_fuel fp) fp 1
    else []

/-- Modelled from the spec: the lines `hts_getline` yields for a text (htslib is
not among the sources), the line in progress `cur` held in reverse: the text is
cut at its newlines, which are left out, and bytes after the last newline make
a last line. -/
def lines_from (cur : List Char) : List Char → List (List Char)
  | [] => if cur = [] then [] else [cur.reverse]
  | c :: cs => if c = '\n' then cur.reverse :: lines_from [] cs else lines_from (c :: cur) cs

/-- Modelled from the spec: the lines of a text, as `hts_getline` yields them. -/
def text_lines (content : List Char) : List (List Char) := lines_from [] content

/-- A text file of the header lines `#a` and `#b` and the body line `xyz`, cut
into three frames. -/
def demo_text : List (List Char) := ["#a\n".toList, "#b\nx".toList, "yz\n".toList]

/-- The file of `demo_world` with the lines of `demo_text`. -/
def demo_world_text : World :=
  { demo_world .vcf with getline := (text_lines demo_text.flatten, -1) }

/-- The input `demo_text` and a new header of one line. -/
def demo_files : Files := ⟨some (demo_text.map some), fun _ => ' ', some "#new\n".toList⟩

/-- The options `-h`: the header is printed, and the records. -/
def demo_args_header : args_t := ⟨none, none, 1, 0, 0⟩

/-! ### `fastpos_table.c`: the table `lzma_fastpos` -/

/-- Rows 1 to 32 of the initialiser of `lzma_fastpos`: the entries 0 to 511. -/
def lzma_fastpos_0 : List Nat := [
   0,  1,  2,  3,  4,  4,  5,  5,  6,  6,  6,  6,  7,  7,  7,  7,
   8,  8,  8,  8,  8,  8,  8,  8,  9,  9,  9,  9,  9,  9,  9,  9,
  10, 10, 10, 10, 10, 10, 10, 10, 10, 10, 10, 10, 10, 10, 10, 10,
  11, 11, 11, 11, 11, 11, 11, 11, 11, 11, 11, 11, 11, 11, 11, 11,
  12, 12, 12, 12, 12, 12, 12, 12, 12, 12, 12, 12, 12, 12, 12, 12,
  12, 12, 12, 12, 12, 12, 12, 12, 12, 12, 12, 12, 12, 12, 12, 12,
  13, 13, 13, 13, 13, 13, 13, 13, 13, 13, 13, 13, 13, 13, 13, 13,
  13, 13, 13, 13, 13, 13, 13, 13, 13, 13, 13, 13, 13, 13, 13, 13,
  14, 14, 14, 14, 14, 14, 14, 14, 14, 14, 14, 14, 14, 14, 14, 14,
  14, 14, 14, 14, 14, 14, 14, 14, 14, 14, 14, 14, 14, 14, 14, 14,
  14, 14, 14, 14, 14, 14, 14, 14, 14, 14, 14, 14, 14, 14, 14, 14,
  14, 14, 14, 14, 14, 14, 14, 14, 14, 14, 14, 14, 14, 14, 14, 14,
  15, 15, 15, 15, 15, 15, 15, 15, 15, 15, 15, 15, 15, 15, 15, 15,
  15, 15, 15, 15, 15, 15, 15, 15, 15, 15, 15, 15, 15, 15, 15, 15,
  15, 15, 15, 15, 15, 15, 15, 15, 15, 15, 15, 15, 15, 15, 15, 15,
  15, 15, 15, 15, 15, 15, 15, 15, 15, 15, 15, 15, 15, 15, 15, 15,
  16, 16, 16, 16, 16, 16, 16, 16, 16, 16, 16, 16, 16, 16, 16, 16,
  16, 16, 16, 16, 16, 16, 16, 16, 16, 16, 16, 16, 16, 16, 16, 16,
  16, 16, 16, 16, 16, 16, 16, 16, 16, 16, 16, 16, 16, 16, 16, 16,
  16, 16, 16, 16, 16, 16, 16, 16, 16, 16, 16, 16, 16, 16, 16, 16,
  16, 16, 16, 16, 16, 16, 16, 16, 16, 16, 16, 16, 16, 16, 16, 16,
  16, 16, 16, 16, 16, 16, 16, 16, 16, 16, 16, 16, 16, 16, 16, 16,
  16, 16, 16, 16, 16, 16, 16, 16, 16, 16, 16, 16, 16, 16, 16, 16,
  16, 16, 16, 16, 16, 16, 16, 16, 16, 16, 16, 16, 16, 16, 16, 16,
  17, 17, 17, 17, 17, 17, 17, 17, 17, 17, 17, 17, 17, 17, 17, 17,
  17, 17, 17, 17, 17, 17, 17, 17, 17, 17, 17, 17, 17, 17, 17, 17,
  17, 17, 17, 17, 17, 17, 17, 17, 17, 17, 17, 17, 17, 17, 17, 17,
  17, 17, 17, 17, 17, 17, 17, 17, 17, 17, 17, 17, 17, 17, 17, 17,
  17, 17, 17, 17, 17, 17, 17, 17, 17, 17, 17, 17, 17, 17, 17, 17,
  17, 17, 17, 17, 17, 17, 17, 17, 17, 17, 17, 17, 17, 17, 17, 17,
  17, 17, 17, 17, 17, 17, 17, 17, 17, 17, 17, 17, 17, 17, 17, 17,
  17, 17, 17, 17, 17, 17, 17, 17, 17, 17, 17, 17, 17, 17, 17, 17
]

/-- Rows 33 to 64 of the initialiser of `lzma_fastpos`: the entries 512 to 1023. -/
def lzma_fastpos_1 : List Nat := [
  18, 18, 18, 18, 18, 18, 18, 18, 18, 18, 18, 18, 18, 18, 18, 18,
  18, 18, 18, 18, 18, 18, 18, 18, 18, 18, 18, 18, 18, 18, 18, 18,
  18, 18, 18, 18, 18, 18, 18, 18, 18, 18, 18, 18, 18, 18, 18, 18,
  18, 18, 18, 18, 18, 18, 18, 18, 18, 18, 18, 18, 18, 18, 18, 18,
  18, 18, 18, 18, 18, 18, 18, 18, 18, 18, 18, 18, 18, 18, 18, 18,
  18, 18, 18, 18, 18, 18, 18, 18, 18, 18, 18, 18, 18, 18, 18, 18,
  18, 18, 18, 18, 18, 18, 18, 18, 18, 18, 18, 18, 18, 18, 18, 18,
  18, 18, 18, 18, 18, 18, 18, 18, 18, 18, 18, 18, 18, 18, 18, 18,
  18, 18, 18, 18, 18, 18, 18, 18, 18, 18, 18, 18, 18, 18, 18, 18,
  18, 18, 18, 18, 18, 18, 18, 18, 18, 18, 18, 18, 18, 18, 18, 18,
  18, 18, 18, 18, 18, 18, 18, 18, 18, 18, 18, 18, 18, 18, 18, 18,
  18, 18, 18, 18, 18, 18, 18, 18, 18, 18, 18, 18, 18, 18, 18, 18,
  18, 18, 18, 18, 18, 18, 18, 18, 18, 18, 18, 18, 18, 18, 18, 18,
  18, 18, 18, 18, 18, 18, 18, 18, 18, 18, 18, 18, 18, 18, 18, 18,
  18, 18, 18, 18, 18, 18, 18, 18, 18, 18, 18, 18, 18, 18, 18, 18,
  18, 18, 18, 18, 18, 18, 18, 18, 18, 18, 18, 18, 18, 18, 18, 18,
  19, 19, 19, 19, 19, 19, 19, 19, 19, 19, 19, 19, 19, 19, 19, 19,
  19, 19, 19, 19, 19, 19, 19, 19, 19, 19, 19, 19, 19, 19, 19, 19,
  19, 19, 19, 19, 19, 19, 19, 19, 19, 19, 19, 19, 19, 19, 19, 19,
  19, 19, 19, 19, 19, 19, 19, 19, 19, 19, 19, 19, 19, 19, 19, 19,
  19, 19, 19, 19, 19, 19, 19, 19, 19, 19, 19, 19, 19, 19, 19, 19,
  19, 19, 19, 19, 19, 19, 19, 19, 19, 19, 19, 19, 19, 19, 19, 19,
  19, 19, 19, 19, 19, 19, 19, 19, 19, 19, 19, 19, 19, 19, 19, 19,
  19, 19, 19, 19, 19, 19, 19, 19, 19, 19, 19, 19, 19, 19, 19, 19,
  19, 19, 19, 19, 19, 19, 19, 19, 19, 19, 19, 19, 19, 19, 19, 19,
  19, 19, 19, 19, 19, 19, 19, 19, 19, 19, 19, 19, 19, 19, 19, 19,
  19, 19, 19, 19, 19, 19, 19, 19, 19, 19, 19, 19, 19, 19, 19, 19,
  19, 19, 19, 19, 19, 19, 19, 19, 19, 19, 19, 19, 19, 19, 19, 19,
  19, 19, 19, 19, 19, 19, 19, 19, 19, 19, 19, 19, 19, 19, 19, 19,
  19, 19, 19, 19, 19, 19, 19, 19, 19, 19, 19, 19, 19, 19, 19, 19,
  19, 19, 19, 19, 19, 19, 19, 19, 19, 19, 19, 19, 19, 19, 19, 19,
  19, 19, 19, 19, 19, 19, 19, 19, 19, 19, 19, 19, 19, 19, 19, 19
]

/-- Rows 65 to 96 of the initialiser of `lzma_fastpos`: the entries 1024 to 1535. -/
def lzma_fastpos_2 : List Nat := [
  20, 20, 20, 20, 20, 20, 20, 20, 20, 20, 20, 20, 20, 20, 20, 20,
  20, 20, 20, 20, 20, 20, 20, 20, 20, 20, 20, 20, 20, 20, 20, 20,
  20, 20, 20, 20, 20, 20, 20, 20, 20, 20, 20, 20, 20, 20, 20, 20,
  20, 20, 20, 20, 20, 20, 20, 20, 20, 20, 20, 20, 20, 20, 20, 20,
  20, 20, 20, 20, 20, 20, 20, 20, 20, 20, 20, 20, 20, 20, 20, 20,
  20, 20, 20, 20, 20, 20, 20, 20, 20, 20, 20, 20, 20, 20, 20, 20,
  20, 20, 20, 20, 20, 20, 20, 20, 20, 20, 20, 20, 20, 20, 20, 20,
  20, 20, 20, 20, 20, 20, 20, 20, 20, 20, 20, 20, 20, 20, 20, 20,
  20, 20, 20, 20, 20, 20, 20, 20, 20, 20, 20, 20, 20, 20, 20, 20,
  20, 20, 20, 20, 20, 20, 20, 20, 20, 20, 20, 20, 20, 20, 20, 20,
  20, 20, 20, 20, 20, 20, 20, 20, 20, 20, 20, 20, 20, 20, 20, 20,
  20, 20, 20, 20, 20, 20, 20, 20, 20, 20, 20, 20, 20, 20, 20, 20,
  20, 20, 20, 20, 20, 20, 20, 20, 20, 20, 20, 20, 20, 20, 20, 20,
  20, 20, 20, 20, 20, 20, 20, 20, 20, 20, 20, 20, 20, 20, 20, 20,
  20, 20, 20, 20, 20, 20, 20, 20, 20, 20, 20, 20, 20, 20, 20, 20,
  20, 20, 20, 20, 20, 20, 20, 20, 20, 20, 20, 20, 20, 20, 20, 20,
  20, 20, 20, 20, 20, 20, 20, 20, 20, 20, 20, 20, 20, 20, 20, 20,
  20, 20, 20, 20, 20, 20, 20, 20, 20, 20, 20, 20, 20, 20, 20, 20,
  20, 20, 20, 20, 20, 20, 20, 20, 20, 20, 20, 20, 20, 20, 20, 20,
  20, 20, 20, 20, 20, 20, 20, 20, 20, 20, 20, 20, 20, 20, 20, 20,
  20, 20, 20, 20, 20, 20, 20, 20, 20, 20, 20, 20, 20, 20, 20, 20,
  20, 20, 20, 20, 20, 20, 20, 20, 20, 20, 20, 20, 20, 20, 20, 20,
  20, 20, 20, 20, 20, 20, 20, 20, 20, 20, 20, 20, 20, 20, 20, 20,
  20, 20, 20, 20, 20, 20, 20, 20, 20, 20, 20, 20, 20, 20, 20, 20,
  20, 20, 20, 20, 20, 20, 20, 20, 20, 20, 20, 20, 20, 20, 20, 20,
  20, 20, 20, 20, 20, 20, 20, 20, 20, 20, 20, 20, 20, 20, 20, 20,
  20, 20, 20, 20, 20, 20, 20, 20, 20, 20, 20, 20, 20, 20, 20, 20,
  20, 20, 20, 20, 20, 20, 20, 20, 20, 20, 20, 20, 20, 20, 20, 20,
  20, 20, 20, 20, 20, 20, 20, 20, 20, 20, 20, 20, 20, 20, 20, 20,
  20, 20, 20, 20, 20, 20, 20, 20, 20, 20, 20, 20, 20, 20, 20, 20,
  20, 20, 20, 20, 20, 20, 20, 20, 20, 20, 20, 20, 20, 20, 20, 20,
  20, 20, 20, 20, 20, 20, 20, 20, 20, 20, 20, 20, 20, 20, 20, 20
]

/-- Rows 97 to 128 of the initialiser of `lzma_fastpos`: the entries 1536 to 2047. -/
def lzma_fastpos_3 : List Nat := [
  21, 21, 21, 21, 21, 21, 21, 21, 21, 21, 21, 21, 21, 21, 21, 21,
  21, 21, 21, 21, 21, 21, 21, 21, 21, 21, 21, 21, 21, 21, 21, 21,
  21, 21, 21, 21, 21, 21, 21, 21, 21, 21, 21, 21, 21, 21, 21, 21,
  21, 21, 21, 21, 21, 21, 21, 21, 21, 21, 21, 21, 21, 21, 21, 21,
  21, 21, 21, 21, 21, 21, 21, 21, 21, 21, 21, 21, 21, 21, 21, 21,
  21, 21, 21, 21, 21, 21, 21, 21, 21, 21, 21, 21, 21, 21, 21, 21,
  21, 21, 21, 21, 21, 21, 21, 21, 21, 21, 21, 21, 21, 21, 21, 21,
  21, 21, 21, 21, 21, 21, 21, 21, 21, 21, 21, 21, 21, 21, 21, 21,
  21, 21, 21, 21, 21, 21, 21, 21, 21, 21, 21, 21, 21, 21, 21, 21,
  21, 21, 21, 21, 21, 21, 21, 21, 21, 21, 21, 21, 21, 21, 21, 21,
  21, 21, 21, 21, 21, 21, 21, 21, 21, 21, 21, 21, 21, 21, 21, 21,
  21, 21, 21, 21, 21, 21, 21, 21, 21, 21, 21, 21, 21, 21, 21, 21,
  21, 21, 21, 21, 21, 21, 21, 21, 21, 21, 21, 21, 21, 21, 21, 21,
  21, 21, 21, 21, 21, 21, 21, 21, 21, 21, 21, 21, 21, 21, 21, 21,
  21, 21, 21, 21, 21, 21, 21, 21, 21, 21, 21, 21, 21, 21, 21, 21,
  21, 21, 21, 21, 21, 21, 21, 21, 21, 21, 21, 21, 21, 21, 21, 21,
  21, 21, 21, 21, 21, 21, 21, 21, 21, 21, 21, 21, 21, 21, 21, 21,
  21, 21, 21, 21, 21, 21, 21, 21, 21, 21, 21, 21, 21, 21, 21, 21,
  21, 21, 21, 21, 21, 21, 21, 21, 21, 21, 21, 21, 21, 21, 21, 21,
  21, 21, 21, 21, 21, 21, 21, 21, 21, 21, 21, 21, 21, 21, 21, 21,
  21, 21, 21, 21, 21, 21, 21, 21, 21, 21, 21, 21, 21, 21, 21, 21,
  21, 21, 21, 21, 21, 21, 21, 21, 21, 21, 21, 21, 21, 21, 21, 21,
  21, 21, 21, 21, 21, 21, 21, 21, 21, 21, 21, 21, 21, 21, 21, 21,
  21, 21, 21, 21, 21, 21, 21, 21, 21, 21, 21, 21, 21, 21, 21, 21,
  21, 21, 21, 21, 21, 21, 21, 21, 21, 21, 21, 21, 21, 21, 21, 21,
  21, 21, 21, 21, 21, 21, 21, 21, 21, 21, 21, 21, 21, 21, 21, 21,
  21, 21, 21, 21, 21, 21, 21, 21, 21, 21, 21, 21, 21, 21, 21, 21,
  21, 21, 21, 21, 21, 21, 21, 21, 21, 21, 21, 21, 21, 21, 21, 21,
  21, 21, 21, 21, 21, 21, 21, 21, 21, 21, 21, 21, 21, 21, 21, 21,
  21, 21, 21, 21, 21, 21, 21, 21, 21, 21, 21, 21, 21, 21, 21, 21,
  21, 21, 21, 21, 21, 21, 21, 21, 21, 21, 21, 21, 21, 21, 21, 21,
  21, 21, 21, 21, 21, 21, 21, 21, 21, 21, 21, 21, 21, 21, 21, 21
]

/-- Rows 129 to 160 of the initialiser of `lzma_fastpos`: the entries 2048 to 2559. -/
def lzma_fastpos_4 : List Nat := [
  22, 22, 22, 22, 22, 22, 22, 22, 22, 22, 22, 22, 22, 22, 22, 22,
  22, 22, 22, 22, 22, 22, 22, 22, 22, 22, 22, 22, 22, 22, 22, 22,
  22, 22, 22, 22, 22, 22, 22, 22, 22, 22, 22, 22, 22, 22, 22, 22,
  22, 22, 22, 22, 22, 22, 22, 22, 22, 22, 22, 22, 22, 22, 22, 22,
  22, 22, 22, 22, 22, 22, 22, 22, 22, 22, 22, 22, 22, 22, 22, 22,
  22, 22, 22, 22, 22, 22, 22, 22, 22, 22, 22, 22, 22, 22, 22, 22,
  22, 22, 22, 22, 22, 22, 22, 22, 22, 22, 22, 22, 22, 22, 22, 22,
  22, 22, 22, 22, 22, 22, 22, 22, 22, 22, 22, 22, 22, 22, 22, 22,
  22, 22, 22, 22, 22, 22, 22, 22, 22, 22, 22, 22, 22, 22, 22, 22,
  22, 22, 22, 22, 22, 22, 22, 22, 22, 22, 22, 22, 22, 22, 22, 22,
  22, 22, 22, 22, 22, 22, 22, 22, 22, 22, 22, 22, 22, 22, 22, 22,
  22, 22, 22, 22, 22, 22, 22, 22, 22, 22, 22, 22, 22, 22, 22, 22,
  22, 22, 22, 22, 22, 22, 22, 22, 22, 22, 22, 22, 22, 22, 22, 22,
  22, 22, 22, 22, 22, 22, 22, 22, 22, 22, 22, 22, 22, 22, 22, 22,
  22, 22, 22, 22, 22, 22, 22, 22, 22, 22, 22, 22, 22, 22, 22, 22,
  22, 22, 22, 22, 22, 22, 22, 22, 22, 22, 22, 22, 22, 22, 22, 22,
  22, 22, 22, 22, 22, 22, 22, 22, 22, 22, 22, 22, 22, 22, 22, 22,
  22, 22, 22, 22, 22, 22, 22, 22, 22, 22, 22, 22, 22, 22, 22, 22,
  22, 22, 22, 22, 22, 22, 22, 22, 22, 22, 22, 22, 22, 22, 22, 22,
  22, 22, 22, 22, 22, 22, 22, 22, 22, 22, 22, 22, 22, 22, 22, 22,
  22, 22, 22, 22, 22, 22, 22, 22, 22, 22, 22, 22, 22, 22, 22, 22,
  22, 22, 22, 22, 22, 22, 22, 22, 22, 22, 22, 22, 22, 22, 22, 22,
  22, 22, 22, 22, 22, 22, 22, 22, 22, 22, 22, 22, 22, 22, 22, 22,
  22, 22, 22, 22, 22, 22, 22, 22, 22, 22, 22, 22, 22, 22, 22, 22,
  22, 22, 22, 22, 22, 22, 22, 22, 22, 22, 22, 22, 22, 22, 22, 22,
  22, 22, 22, 22, 22, 22, 22, 22, 22, 22, 22, 22, 22, 22, 22, 22,
  22, 22, 22, 22, 22, 22, 22, 22, 22, 22, 22, 22, 22, 22, 22, 22,
  22, 22, 22, 22, 22, 22, 22, 22, 22, 22, 22, 22, 22, 22, 22, 22,
  22, 22, 22, 22, 22, 22, 22, 22, 22, 22, 22, 22, 22, 22, 22, 22,
  22, 22, 22, 22, 22, 22, 22, 22, 22, 22, 22, 22, 22, 22, 22, 22,
  22, 22, 22, 22, 22, 22, 22, 22, 22, 22, 22, 22, 22, 22, 22, 22,
  22, 22, 22, 22, 22, 22, 22, 22, 22, 22, 22, 22, 22, 22, 22, 22
]

/-- Rows 161 to 192 of the initialiser of `lzma_fastpos`: the entries 2560 to 3071. -/
def lzma_fastpos_5 : List Nat := [
  22, 22, 22, 22, 22, 22, 22, 22, 22, 22, 22, 22, 22, 22, 22, 22,
  22, 22, 22, 22, 22, 22, 22, 22, 22, 22, 22, 22, 22, 22, 22, 22,
  22, 22, 22, 22, 22, 22, 22, 22, 22, 22, 22, 22, 22, 22, 22, 22,
  22, 22, 22, 22, 22, 22, 22, 22, 22, 22, 22, 22, 22, 22, 22, 22,
  22, 22, 22, 22, 22, 22, 22, 22, 22, 22, 22, 22, 22, 22, 22, 22,
  22, 22, 22, 22, 22, 22, 22, 22, 22, 22, 22, 22, 22, 22, 22, 22,
  22, 22, 22, 22, 22, 22, 22, 22, 22, 22, 22, 22, 22, 22, 22, 22,
  22, 22, 22, 22, 22, 22, 22, 22, 22, 22, 22, 22, 22, 22, 22, 22,
  22, 22, 22, 22, 22, 22, 22, 22, 22, 22, 22, 22, 22, 22, 22, 22,
  22, 22, 22, 22, 22, 22, 22, 22, 22, 22, 22, 22, 22, 22, 22, 22,
  22, 22, 22, 22, 22, 22, 22, 22, 22, 22, 22, 22, 22, 22, 22, 22,
  22, 22, 22, 22, 22, 22, 22, 22, 22, 22, 22, 22, 22, 22, 22, 22,
  22, 22, 22, 22, 22, 22, 22, 22, 22, 22, 22, 22, 22, 22, 22, 22,
  22, 22, 22, 22, 22, 22, 22, 22, 22, 22, 22, 22, 22, 22, 22, 22,
  22, 22, 22, 22, 22, 22, 22, 22, 22, 22, 22, 22, 22, 22, 22, 22,
  22, 22, 22, 22, 22, 22, 22, 22, 22, 22, 22, 22, 22, 22, 22, 22,
  22, 22, 22, 22, 22, 22, 22, 22, 22, 22, 22, 22, 22, 22, 22, 22,
  22, 22, 22, 22, 22, 22, 22, 22, 22, 22, 22, 22, 22, 22, 22, 22,
  22, 22, 22, 22, 22, 22, 22, 22, 22, 22, 22, 22, 22, 22, 22, 22,
  22, 22, 22, 22, 22, 22, 22, 22, 22, 22, 22, 22, 22, 22, 22, 22,
  22, 22, 22, 22, 22, 22, 22, 22, 22, 22, 22, 22, 22, 22, 22, 22,
  22, 22, 22, 22, 22, 22, 22, 22, 22, 22, 22, 22, 22, 22, 22, 22,
  22, 22, 22, 22, 22, 22, 22, 22, 22, 22, 22, 22, 22, 22, 22, 22,
  22, 22, 22, 22, 22, 22, 22, 22, 22, 22, 22, 22, 22, 22, 22, 22,
  22, 22, 22, 22, 22, 22, 22, 22, 22, 22, 22, 22, 22, 22, 22, 22,
  22, 22, 22, 22, 22, 22, 22, 22, 22, 22, 22, 22, 22, 22, 22, 22,
  22, 22, 22, 22, 22, 22, 22, 22, 22, 22, 22, 22, 22, 22, 22, 22,
  22, 22, 22, 22, 22, 22, 22, 22, 22, 22, 22, 22, 22, 22, 22, 22,
  22, 22, 22, 22, 22, 22, 22, 22, 22, 22, 22, 22, 22, 22, 22, 22,
  22, 22, 22, 22, 22, 22, 22, 22, 22, 22, 22, 22, 22, 22, 22, 22,
  22, 22, 22, 22, 22, 22, 22, 22, 22, 22, 22, 22, 22, 22, 22, 22,
  22, 22, 22, 22, 22, 22, 22, 22, 22, 22, 22, 22, 22, 22, 22, 22
]

/-- Rows 193 to 224 of the initialiser of `lzma_fastpos`: the entries 3072 to 3583. -/
def lzma_fastpos_6 : List Nat := [
  23, 23, 23, 23, 23, 23, 23, 23, 23, 23, 23, 23, 23, 23, 23, 23,
  23, 23, 23, 23, 23, 23, 23, 23, 23, 23, 23, 23, 23, 23, 23, 23,
  23, 23, 23, 23, 23, 23, 23, 23, 23, 23, 23, 23, 23, 23, 23, 23,
  23, 23, 23, 23, 23, 23, 23, 23, 23, 23, 23, 23, 23, 23, 23, 23,
  23, 23, 23, 23, 23, 23, 23, 23, 23, 23, 23, 23, 23, 23, 23, 23,
  23, 23, 23, 23, 23, 23, 23, 23, 23, 23, 23, 23, 23, 23, 23, 23,
  23, 23, 23, 23, 23, 23, 23, 23, 23, 23, 23, 23, 23, 23, 23, 23,
  23, 23, 23, 23, 23, 23, 23, 23, 23, 23, 23, 23, 23, 23, 23, 23,
  23, 23, 23, 23, 23, 23, 23, 23, 23, 23, 23, 23, 23, 23, 23, 23,
  23, 23, 23, 23, 23, 23, 23, 23, 23, 23, 23, 23, 23, 23, 23, 23,
  23, 23, 23, 23, 23, 23, 23, 23, 23, 23, 23, 23, 23, 23, 23, 23,
  23, 23, 23, 23, 23, 23, 23, 23, 23, 23, 23, 23, 23, 23, 23, 23,
  23, 23, 23, 23, 23, 23, 23, 23, 23, 23, 23, 23, 23, 23, 23, 23,
  23, 23, 23, 23, 23, 23, 23, 23, 23, 23, 23, 23, 23, 23, 23, 23,
  23, 23, 23, 23, 23, 23, 23, 23, 23, 23, 23, 23, 23, 23, 23, 23,
  23, 23, 23, 23, 23, 23, 23, 23, 23, 23, 23, 23, 23, 23, 23, 23,
  23, 23, 23, 23, 23, 23, 23, 23, 23, 23, 23, 23, 23, 23, 23, 23,
  23, 23, 23, 23, 23, 23, 23, 23, 23, 23, 23, 23, 23, 23, 23, 23,
  23, 23, 23, 23, 23, 23, 23, 23, 23, 23, 23, 23, 23, 23, 23, 23,
  23, 23, 23, 23, 23, 23, 23, 23, 23, 23, 23, 23, 23, 23, 23, 23,
  23, 23, 23, 23, 23, 23, 23, 23, 23, 23, 23, 23, 23, 23, 23, 23,
  23, 23, 23, 23, 23, 23, 23, 23, 23, 23, 23, 23, 23, 23, 23, 23,
  23, 23, 23, 23, 23, 23, 23, 23, 23, 23, 23, 23, 23, 23, 23, 23,
  23, 23, 23, 23, 23, 23, 23, 23, 23, 23, 23, 23, 23, 23, 23, 23,
  23, 23, 23, 23, 23, 23, 23, 23, 23, 23, 23, 23, 23, 23, 23, 23,
  23, 23, 23, 23, 23, 23, 23, 23, 23, 23, 23, 23, 23, 23, 23, 23,
  23, 23, 23, 23, 23, 23, 23, 23, 23, 23, 23, 23, 23, 23, 23, 23,
  23, 23, 23, 23, 23, 23, 23, 23, 23, 23, 23, 23, 23, 23, 23, 23,
  23, 23, 23, 23, 23, 23, 23, 23, 23, 23, 23, 23, 23, 23, 23, 23,
  23, 23, 23, 23, 23, 23, 23, 23, 23, 23, 23, 23, 23, 23, 23, 23,
  23, 23, 23, 23, 23, 23, 23, 23, 23, 23, 23, 23, 23, 23, 23, 23,
  23, 23, 23, 23, 23, 23, 23, 23, 23, 23, 23, 23, 23, 23, 23, 23
]

/-- Rows 225 to 256 of the initialiser of `lzma_fastpos`: the entries 3584 to 4095. -/
def lzma_fastpos_7 : List Nat := [
  23, 23, 23, 23, 23, 23, 23, 23, 23, 23, 23, 23, 23, 23, 23, 23,
  23, 23, 23, 23, 23, 23, 23, 23, 23, 23, 23, 23, 23, 23, 23, 23,
  23, 23, 23, 23, 23, 23, 23, 23, 23, 23, 23, 23, 23, 23, 23, 23,
  23, 23, 23, 23, 23, 23, 23, 23, 23, 23, 23, 23, 23, 23, 23, 23,
  23, 23, 23, 23, 23, 23, 23, 23, 23, 23, 23, 23, 23, 23, 23, 23,
  23, 23, 23, 23, 23, 23, 23, 23, 23, 23, 23, 23, 23, 23, 23, 23,
  23, 23, 23, 23, 23, 23, 23, 23, 23, 23, 23, 23, 23, 23, 23, 23,
  23, 23, 23, 23, 23, 23, 23, 23, 23, 23, 23, 23, 23, 23, 23, 23,
  23, 23, 23, 23, 23, 23, 23, 23, 23, 23, 23, 23, 23, 23, 23, 23,
  23, 23, 23, 23, 23, 23, 23, 23, 23, 23, 23, 23, 23, 23, 23, 23,
  23, 23, 23, 23, 23, 23, 23, 23, 23, 23, 23, 23, 23, 23, 23, 23,
  23, 23, 23, 23, 23, 23, 23, 23, 23, 23, 23, 23, 23, 23, 23, 23,
  23, 23, 23, 23, 23, 23, 23, 23, 23, 23, 23, 23, 23, 23, 23, 23,
  23, 23, 23, 23, 23, 23, 23, 23, 23, 23, 23, 23, 23, 23, 23, 23,
  23, 23, 23, 23, 23, 23, 23, 23, 23, 23, 23, 23, 23, 23, 23, 23,
  23, 23, 23, 23, 23, 23, 23, 23, 23, 23, 23, 23, 23, 23, 23, 23,
  23, 23, 23, 23, 23, 23, 23, 23, 23, 23, 23, 23, 23, 23, 23, 23,
  23, 23, 23, 23, 23, 23, 23, 23, 23, 23, 23, 23, 23, 23, 23, 23,
  23, 23, 23, 23, 23, 23, 23, 23, 23, 23, 23, 23, 23, 23, 23, 23,
  23, 23, 23, 23, 23, 23, 23, 23, 23, 23, 23, 23, 23, 23, 23, 23,
  23, 23, 23, 23, 23, 23, 23, 23, 23, 23, 23, 23, 23, 23, 23, 23,
  23, 23, 23, 23, 23, 23, 23, 23, 23, 23, 23, 23, 23, 23, 23, 23,
  23, 23, 23, 23, 23, 23, 23, 23, 23, 23, 23, 23, 23, 23, 23, 23,
  23, 23, 23, 23, 23, 23, 23, 23, 23, 23, 23, 23, 23, 23, 23, 23,
  23, 23, 23, 23, 23, 23, 23, 23, 23, 23, 23, 23, 23, 23, 23, 23,
  23, 23, 23, 23, 23, 23, 23, 23, 23, 23, 23, 23, 23, 23, 23, 23,
  23, 23, 23, 23, 23, 23, 23, 23, 23, 23, 23, 23, 23, 23, 23, 23,
  23, 23, 23, 23, 23, 23, 23, 23, 23, 23, 23, 23, 23, 23, 23, 23,
  23, 23, 23, 23, 23, 23, 23, 23, 23, 23, 23, 23, 23, 23, 23, 23,
  23, 23, 23, 23, 23, 23, 23, 23, 23, 23, 23, 23, 23, 23, 23, 23,
  23, 23, 23, 23, 23, 23, 23, 23, 23, 23, 23, 23, 23, 23, 23, 23,
  23, 23, 23, 23, 23, 23, 23, 23, 23, 23, 23, 23, 23, 23, 23, 23
]

/-- Rows 257 to 288 of the initialiser of `lzma_fastpos`: the entries 4096 to 4607. -/
def lzma_fastpos_8 : List Nat := [
  24, 24, 24, 24, 24, 24, 24, 24, 24, 24, 24, 24, 24, 24, 24, 24,
  24, 24, 24, 24, 24, 24, 24, 24, 24, 24, 24, 24, 24, 24, 24, 24,
  24, 24, 24, 24, 24, 24, 24, 24, 24, 24, 24, 24, 24, 24, 24, 24,
  24, 24, 24, 24, 24, 24, 24, 24, 24, 24, 24, 24, 24, 24, 24, 24,
  24, 24, 24, 24, 24, 24, 24, 24, 24, 24, 24, 24, 24, 24, 24, 24,
  24, 24, 24, 24, 24, 24, 24, 24, 24, 24, 24, 24, 24, 24, 24, 24,
  24, 24, 24, 24, 24, 24, 24, 24, 24, 24, 24, 24, 24, 24, 24, 24,
  24, 24, 24, 24, 24, 24, 24, 24, 24, 24, 24, 24, 24, 24, 24, 24,
  24, 24, 24, 24, 24, 24, 24, 24, 24, 24, 24, 24, 24, 24, 24, 24,
  24, 24, 24, 24, 24, 24, 24, 24, 24, 24, 24, 24, 24, 24, 24, 24,
  24, 24, 24, 24, 24, 24, 24, 24, 24, 24, 24, 24, 24, 24, 24, 24,
  24, 24, 24, 24, 24, 24, 24, 24, 24, 24, 24, 24, 24, 24, 24, 24,
  24, 24, 24, 24, 24, 24, 24, 24, 24, 24, 24, 24, 24, 24, 24, 24,
  24, 24, 24, 24, 24, 24, 24, 24, 24, 24, 24, 24, 24, 24, 24, 24,
  24, 24, 24, 24, 24, 24, 24, 24, 24, 24, 24, 24, 24, 24, 24, 24,
  24, 24, 24, 24, 24, 24, 24, 24, 24, 24, 24, 24, 24, 24, 24, 24,
  24, 24, 24, 24, 24, 24, 24, 24, 24, 24, 24, 24, 24, 24, 24, 24,
  24, 24, 24, 24, 24, 24, 24, 24, 24, 24, 24, 24, 24, 24, 24, 24,
  24, 24, 24, 24, 24, 24, 24, 24, 24, 24, 24, 24, 24, 24, 24, 24,
  24, 24, 24, 24, 24, 24, 24, 24, 24, 24, 24, 24, 24, 24, 24, 24,
  24, 24, 24, 24, 24, 24, 24, 24, 24, 24, 24, 24, 24, 24, 24, 24,
  24, 24, 24, 24, 24, 24, 24, 24, 24, 24, 24, 24, 24, 24, 24, 24,
  24, 24, 24, 24, 24, 24, 24, 24, 24, 24, 24, 24, 24, 24, 24, 24,
  24, 24, 24, 24, 24, 24, 24, 24, 24, 24, 24, 24, 24, 24, 24, 24,
  24, 24, 24, 24, 24, 24, 24, 24, 24, 24, 24, 24, 24, 24, 24, 24,
  24, 24, 24, 24, 24, 24, 24, 24, 24, 24, 24, 24, 24, 24, 24, 24,
  24, 24, 24, 24, 24, 24, 24, 24, 24, 24, 24, 24, 24, 24, 24, 24,
  24, 24, 24, 24, 24, 24, 24, 24, 24, 24, 24, 24, 24, 24, 24, 24,
  24, 24, 24, 24, 24, 24, 24, 24, 24, 24, 24, 24, 24, 24, 24, 24,
  24, 24, 24, 24, 24, 24, 24, 24, 24, 24, 24, 24, 24, 24, 24, 24,
  24, 24, 24, 24, 24, 24, 24, 24, 24, 24, 24, 24, 24, 24, 24, 24,
  24, 24, 24, 24, 24, 24, 24, 24, 24, 24, 24, 24, 24, 24, 24, 24
]

/-- Rows 289 to 320 of the initialiser of `lzma_fastpos`: the entries 4608 to 5119. -/
def lzma_fastpos_9 : List Nat := [
  24, 24, 24, 24, 24, 24, 24, 24, 24, 24, 24, 24, 24, 24, 24, 24,
  24, 24, 24, 24, 24, 24, 24, 24, 24, 24, 24, 24, 24, 24, 24, 24,
  24, 24, 24, 24, 24, 24, 24, 24, 24, 24, 24, 24, 24, 24, 24, 24,
  24, 24, 24, 24, 24, 24, 24, 24, 24, 24, 24, 24, 24, 24, 24, 24,
  24, 24, 24, 24, 24, 24, 24, 24, 24, 24, 24, 24, 24, 24, 24, 24,
  24, 24, 24, 24, 24, 24, 24, 24, 24, 24, 24, 24, 24, 24, 24, 24,
  24, 24, 24, 24, 24, 24, 24, 24, 24, 24, 24, 24, 24, 24, 24, 24,
  24, 24, 24, 24, 24, 24, 24, 24, 24, 24, 24, 24, 24, 24, 24, 24,
  24, 24, 24, 24, 24, 24, 24, 24, 24, 24, 24, 24, 24, 24, 24, 24,
  24, 24, 24, 24, 24, 24, 24, 24, 24, 24, 24, 24, 24, 24, 24, 24,
  24, 24, 24, 24, 24, 24, 24, 24, 24, 24, 24, 24, 24, 24, 24, 24,
  24, 24, 24, 24, 24, 24, 24, 24, 24, 24, 24, 24, 24, 24, 24, 24,
  24, 24, 24, 24, 24, 24, 24, 24, 24, 24, 24, 24, 24, 24, 24, 24,
  24, 24, 24, 24, 24, 24, 24, 24, 24, 24, 24, 24, 24, 24, 24, 24,
  24, 24, 24, 24, 24, 24, 24, 24, 24, 24, 24, 24, 24, 24, 24, 24,
  24, 24, 24, 24, 24, 24, 24, 24, 24, 24, 24, 24, 24, 24, 24, 24,
  24, 24, 24, 24, 24, 24, 24, 24, 24, 24, 24, 24, 24, 24, 24, 24,
  24, 24, 24, 24, 24, 24, 24, 24, 24, 24, 24, 24, 24, 24, 24, 24,
  24, 24, 24, 24, 24, 24, 24, 24, 24, 24, 24, 24, 24, 24, 24, 24,
  24, 24, 24, 24, 24, 24, 24, 24, 24, 24, 24, 24, 24, 24, 24, 24,
  24, 24, 24, 24, 24, 24, 24, 24, 24, 24, 24, 24, 24, 24, 24, 24,
  24, 24, 24, 24, 24, 24, 24, 24, 24, 24, 24, 24, 24, 24, 24, 24,
  24, 24, 24, 24, 24, 24, 24, 24, 24, 24, 24, 24, 24, 24, 24, 24,
  24, 24, 24, 24, 24, 24, 24, 24, 24, 24, 24, 24, 24, 24, 24, 24,
  24, 24, 24, 24, 24, 24, 24, 24, 24, 24, 24, 24, 24, 24, 24, 24,
  24, 24, 24, 24, 24, 24, 24, 24, 24, 24, 24, 24, 24, 24, 24, 24,
  24, 24, 24, 24, 24, 24, 24, 24, 24, 24, 24, 24, 24, 24, 24, 24,
  24, 24, 24, 24, 24, 24, 24, 24, 24, 24, 24, 24, 24, 24, 24, 24,
  24, 24, 24, 24, 24, 24, 24, 24, 24, 24, 24, 24, 24, 24, 24, 24,
  24, 24, 24, 24, 24, 24, 24, 24, 24, 24, 24, 24, 24, 24, 24, 24,
  24, 24, 24, 24, 24, 24, 24, 24, 24, 24, 24, 24, 24, 24, 24, 24,
  24, 24, 24, 24, 24, 24, 24, 24, 24, 24, 24, 24, 24, 24, 24, 24
]

/-- Rows 321 to 352 of the initialiser of `lzma_fastpos`: the entries 5120 to 5631. -/
def lzma_fastpos_10 : List Nat := [
  24, 24, 24, 24, 24, 24, 24, 24, 24, 24, 24, 24, 24, 24, 24, 24,
  24, 24, 24, 24, 24, 24, 24, 24, 24, 24, 24, 24, 24, 24, 24, 24,
  24, 24, 24, 24, 24, 24, 24, 24, 24, 24, 24, 24, 24, 24, 24, 24,
  24, 24, 24, 24, 24, 24, 24, 24, 24, 24, 24, 24, 24, 24, 24, 24,
  24, 24, 24, 24, 24, 24, 24, 24, 24, 24, 24, 24, 24, 24, 24, 24,
  24, 24, 24, 24, 24, 24, 24, 24, 24, 24, 24, 24, 24, 24, 24, 24,
  24, 24, 24, 24, 24, 24, 24, 24, 24, 24, 24, 24, 24, 24, 24, 24,
  24, 24, 24, 24, 24, 24, 24, 24, 24, 24, 24, 24, 24, 24, 24, 24,
  24, 24, 24, 24, 24, 24, 24, 24, 24, 24, 24, 24, 24, 24, 24, 24,
  24, 24, 24, 24, 24, 24, 24, 24, 24, 24, 24, 24, 24, 24, 24, 24,
  24, 24, 24, 24, 24, 24, 24, 24, 24, 24, 24, 24, 24, 24, 24, 24,
  24, 24, 24, 24, 24, 24, 24, 24, 24, 24, 24, 24, 24, 24, 24, 24,
  24, 24, 24, 24, 24, 24, 24, 24, 24, 24, 24, 24, 24, 24, 24, 24,
  24, 24, 24, 24, 24, 24, 24, 24, 24, 24, 24, 24, 24, 24, 24, 24,
  24, 24, 24, 24, 24, 24, 24, 24, 24, 24, 24, 24, 24, 24, 24, 24,
  24, 24, 24, 24, 24, 24, 24, 24, 24, 24, 24, 24, 24, 24, 24, 24,
  24, 24, 24, 24, 24, 24, 24, 24, 24, 24, 24, 24, 24, 24, 24, 24,
  24, 24, 24, 24, 24, 24, 24, 24, 24, 24, 24, 24, 24, 24, 24, 24,
  24, 24, 24, 24, 24, 24, 24, 24, 24, 24, 24, 24, 24, 24, 24, 24,
  24, 24, 24, 24, 24, 24, 24, 24, 24, 24, 24, 24, 24, 24, 24, 24,
  24, 24, 24, 24, 24, 24, 24, 24, 24, 24, 24, 24, 24, 24, 24, 24,
  24, 24, 24, 24, 24, 24, 24, 24, 24, 24, 24, 24, 24, 24, 24, 24,
  24, 24, 24, 24, 24, 24, 24, 24, 24, 24, 24, 24, 24, 24, 24, 24,
  24, 24, 24, 24, 24, 24, 24, 24, 24, 24, 24, 24, 24, 24, 24, 24,
  24, 24, 24, 24, 24, 24, 24, 24, 24, 24, 24, 24, 24, 24, 24, 24,
  24, 24, 24, 24, 24, 24, 24, 24, 24, 24, 24, 24, 24, 24, 24, 24,
  24, 24, 24, 24, 24, 24, 24, 24, 24, 24, 24, 24, 24, 24, 24, 24,
  24, 24, 24, 24, 24, 24, 24, 24, 24, 24, 24, 24, 24, 24, 24, 24,
  24, 24, 24, 24, 24, 24, 24, 24, 24, 24, 24, 24, 24, 24, 24, 24,
  24, 24, 24, 24, 24, 24, 24, 24, 24, 24, 24, 24, 24, 24, 24, 24,
  24, 24, 24, 24, 24, 24, 24, 24, 24, 24, 24, 24, 24, 24, 24, 24,
  24, 24, 24, 24, 24, 24, 24, 24, 24, 24, 24, 24, 24, 24, 24, 24
]

/-- Rows 353 to 384 of the initialiser of `lzma_fastpos`: the entries 5632 to 6143. -/
def lzma_fastpos_11 : List Nat := [
  24, 24, 24, 24, 24, 24, 24, 24, 24, 24, 24, 24, 24, 24, 24, 24,
  24, 24, 24, 24, 24, 24, 24, 24, 24, 24, 24, 24, 24, 24, 24, 24,
  24, 24, 24, 24, 24, 24, 24, 24, 24, 24, 24, 24, 24, 24, 24, 24,
  24, 24, 24, 24, 24, 24, 24, 24, 24, 24, 24, 24, 24, 24, 24, 24,
  24, 24, 24, 24, 24, 24, 24, 24, 24, 24, 24, 24, 24, 24, 24, 24,
  24, 24, 24, 24, 24, 24, 24, 24, 24, 24, 24, 24, 24, 24, 24, 24,
  24, 24, 24, 24, 24, 24, 24, 24, 24, 24, 24, 24, 24, 24, 24, 24,
  24, 24, 24, 24, 24, 24, 24, 24, 24, 24, 24, 24, 24, 24, 24, 24,
  24, 24, 24, 24, 24, 24, 24, 24, 24, 24, 24, 24, 24, 24, 24, 24,
  24, 24, 24, 24, 24, 24, 24, 24, 24, 24, 24, 24, 24, 24, 24, 24,
  24, 24, 24, 24, 24, 24, 24, 24, 24, 24, 24, 24, 24, 24, 24, 24,
  24, 24, 24, 24, 24, 24, 24, 24, 24, 24, 24, 24, 24, 24, 24, 24,
  24, 24, 24, 24, 24, 24, 24, 24, 24, 24, 24, 24, 24, 24, 24, 24,
  24, 24, 24, 24, 24, 24, 24, 24, 24, 24, 24, 24, 24, 24, 24, 24,
  24, 24, 24, 24, 24, 24, 24, 24, 24, 24, 24, 24, 24, 24, 24, 24,
  24, 24, 24, 24, 24, 24, 24, 24, 24, 24, 24, 24, 24, 24, 24, 24,
  24, 24, 24, 24, 24, 24, 24, 24, 24, 24, 24, 24, 24, 24, 24, 24,
  24, 24, 24, 24, 24, 24, 24, 24, 24, 24, 24, 24, 24, 24, 24, 24,
  24, 24, 24, 24, 24, 24, 24, 24, 24, 24, 24, 24, 24, 24, 24, 24,
  24, 24, 24, 24, 24, 24, 24, 24, 24, 24, 24, 24, 24, 24, 24, 24,
  24, 24, 24, 24, 24, 24, 24, 24, 24, 24, 24, 24, 24, 24, 24, 24,
  24, 24, 24, 24, 24, 24, 24, 24, 24, 24, 24, 24, 24, 24, 24, 24,
  24, 24, 24, 24, 24, 24, 24, 24, 24, 24, 24, 24, 24, 24, 24, 24,
  24, 24, 24, 24, 24, 24, 24, 24, 24, 24, 24, 24, 24, 24, 24, 24,
  24, 24, 24, 24, 24, 24, 24, 24, 24, 24, 24, 24, 24, 24, 24, 24,
  24, 24, 24, 24, 24, 24, 24, 24, 24, 24, 24, 24, 24, 24, 24, 24,
  24, 24, 24, 24, 24, 24, 24, 24, 24, 24, 24, 24, 24, 24, 24, 24,
  24, 24, 24, 24, 24, 24, 24, 24, 24, 24, 24, 24, 24, 24, 24, 24,
  24, 24, 24, 24, 24, 24, 24, 24, 24, 24, 24, 24, 24, 24, 24, 24,
  24, 24, 24, 24, 24, 24, 24, 24, 24, 24, 24, 24, 24, 24, 24, 24,
  24, 24, 24, 24, 24, 24, 24, 24, 24, 24, 24, 24, 24, 24, 24, 24,
  24, 24, 24, 24, 24, 24, 24, 24, 24, 24, 24, 24, 24, 24, 24, 24
]

/-- Rows 385 to 416 of the initialiser of `lzma_fastpos`: the entries 6144 to 6655. -/
def lzma_fastpos_12 : List Nat := [
  25, 25, 25, 25, 25, 25, 25, 25, 25, 25, 25, 25, 25, 25, 25, 25,
  25, 25, 25, 25, 25, 25, 25, 25, 25, 25, 25, 25, 25, 25, 25, 25,
  25, 25, 25, 25, 25, 25, 25, 25, 25, 25, 25, 25, 25, 25, 25, 25,
  25, 25, 25, 25, 25, 25, 25, 25, 25, 25, 25, 25, 25, 25, 25, 25,
  25, 25, 25, 25, 25, 25, 25, 25, 25, 25, 25, 25, 25, 25, 25, 25,
  25, 25, 25, 25, 25, 25, 25, 25, 25, 25, 25, 25, 25, 25, 25, 25,
  25, 25, 25, 25, 25, 25, 25, 25, 25, 25, 25, 25, 25, 25, 25, 25,
  25, 25, 25, 25, 25, 25, 25, 25, 25, 25, 25, 25, 25, 25, 25, 25,
  25, 25, 25, 25, 25, 25, 25, 25, 25, 25, 25, 25, 25, 25, 25, 25,
  25, 25, 25, 25, 25, 25, 25, 25, 25, 25, 25, 25, 25, 25, 25, 25,
  25, 25, 25, 25, 25, 25, 25, 25, 25, 25, 25, 25, 25, 25, 25, 25,
  25, 25, 25, 25, 25, 25, 25, 25, 25, 25, 25, 25, 25, 25, 25, 25,
  25, 25, 25, 25, 25, 25, 25, 25, 25, 25, 25, 25, 25, 25, 25, 25,
  25, 25, 25, 25, 25, 25, 25, 25, 25, 25, 25, 25, 25, 25, 25, 25,
  25, 25, 25, 25, 25, 25, 25, 25, 25, 25, 25, 25, 25, 25, 25, 25,
  25, 25, 25, 25, 25, 25, 25, 25, 25, 25, 25, 25, 25, 25, 25, 25,
  25, 25, 25, 25, 25, 25, 25, 25, 25, 25, 25, 25, 25, 25, 25, 25,
  25, 25, 25, 25, 25, 25, 25, 25, 25, 25, 25, 25, 25, 25, 25, 25,
  25, 25, 25, 25, 25, 25, 25, 25, 25, 25, 25, 25, 25, 25, 25, 25,
  25, 25, 25, 25, 25, 25, 25, 25, 25, 25, 25, 25, 25, 25, 25, 25,
  25, 25, 25, 25, 25, 25, 25, 25, 25, 25, 25, 25, 25, 25, 25, 25,
  25, 25, 25, 25, 25, 25, 25, 25, 25, 25, 25, 25, 25, 25, 25, 25,
  25, 25, 25, 25, 25, 25, 25, 25, 25, 25, 25, 25, 25, 25, 25, 25,
  25, 25, 25, 25, 25, 25, 25, 25, 25, 25, 25, 25, 25, 25, 25, 25,
  25, 25, 25, 25, 25, 25, 25, 25, 25, 25, 25, 25, 25, 25, 25, 25,
  25, 25, 25, 25, 25, 25, 25, 25, 25, 25, 25, 25, 25, 25, 25, 25,
  25, 25, 25, 25, 25, 25, 25, 25, 25, 25, 25, 25, 25, 25, 25, 25,
  25, 25, 25, 25, 25, 25, 25, 25, 25, 25, 25, 25, 25, 25, 25, 25,
  25, 25, 25, 25, 25, 25, 25, 25, 25, 25, 25, 25, 25, 25, 25, 25,
  25, 25, 25, 25, 25, 25, 25, 25, 25, 25, 25, 25, 25, 25, 25, 25,
  25, 25, 25, 25, 25, 25, 25, 25, 25, 25, 25, 25, 25, 25, 25, 25,
  25, 25, 25, 25, 25, 25, 25, 25, 25, 25, 25, 25, 25, 25, 25, 25
]

/-- Rows 417 to 448 of the initialiser of `lzma_fastpos`: the entries 6656 to 7167. -/
def lzma_fastpos_13 : List Nat := [
  25, 25, 25, 25, 25, 25, 25, 25, 25, 25, 25, 25, 25, 25, 25, 25,
  25, 25, 25, 25, 25, 25, 25, 25, 25, 25, 25, 25, 25, 25, 25, 25,
  25, 25, 25, 25, 25, 25, 25, 25, 25, 25, 25, 25, 25, 25, 25, 25,
  25, 25, 25, 25, 25, 25, 25, 25, 25, 25, 25, 25, 25, 25, 25, 25,
  25, 25, 25, 25, 25, 25, 25, 25, 25, 25, 25, 25, 25, 25, 25, 25,
  25, 25, 25, 25, 25, 25, 25, 25, 25, 25, 25, 25, 25, 25, 25, 25,
  25, 25, 25, 25, 25, 25, 25, 25, 25, 25, 25, 25, 25, 25, 25, 25,
  25, 25, 25, 25, 25, 25, 25, 25, 25, 25, 25, 25, 25, 25, 25, 25,
  25, 25, 25, 25, 25, 25, 25, 25, 25, 25, 25, 25, 25, 25, 25, 25,
  25, 25, 25, 25, 25, 25, 25, 25, 25, 25, 25, 25, 25, 25, 25, 25,
  25, 25, 25, 25, 25, 25, 25, 25, 25, 25, 25, 25, 25, 25, 25, 25,
  25, 25, 25, 25, 25, 25, 25, 25, 25, 25, 25, 25, 25, 25, 25, 25,
  25, 25, 25, 25, 25, 25, 25, 25, 25, 25, 25, 25, 25, 25, 25, 25,
  25, 25, 25, 25, 25, 25, 25, 25, 25, 25, 25, 25, 25, 25, 25, 25,
  25, 25, 25, 25, 25, 25, 25, 25, 25, 25, 25, 25, 25, 25, 25, 25,
  25, 25, 25, 25, 25, 25, 25, 25, 25, 25, 25, 25, 25, 25, 25, 25,
  25, 25, 25, 25, 25, 25, 25, 25, 25, 25, 25, 25, 25, 25, 25, 25,
  25, 25, 25, 25, 25, 25, 25, 25, 25, 25, 25, 25, 25, 25, 25, 25,
  25, 25, 25, 25, 25, 25, 25, 25, 25, 25, 25, 25, 25, 25, 25, 25,
  25, 25, 25, 25, 25, 25, 25, 25, 25, 25, 25, 25, 25, 25, 25, 25,
  25, 25, 25, 25, 25, 25, 25, 25, 25, 25, 25, 25, 25, 25, 25, 25,
  25, 25, 25, 25, 25, 25, 25, 25, 25, 25, 25, 25, 25, 25, 25, 25,
  25, 25, 25, 25, 25, 25, 25, 25, 25, 25, 25, 25, 25, 25, 25, 25,
  25, 25, 25, 25, 25, 25, 25, 25, 25, 25, 25, 25, 25, 25, 25, 25,
  25, 25, 25, 25, 25, 25, 25, 25, 25, 25, 25, 25, 25, 25, 25, 25,
  25, 25, 25, 25, 25, 25, 25, 25, 25, 25, 25, 25, 25, 25, 25, 25,
  25, 25, 25, 25, 25, 25, 25, 25, 25, 25, 25, 25, 25, 25, 25, 25,
  25, 25, 25, 25, 25, 25, 25, 25, 25, 25, 25, 25, 25, 25, 25, 25,
  25, 25, 25, 25, 25, 25, 25, 25, 25, 25, 25, 25, 25, 25, 25, 25,
  25, 25, 25, 25, 25, 25, 25, 25, 25, 25, 25, 25, 25, 25, 25, 25,
  25, 25, 25, 25, 25, 25, 25, 25, 25, 25, 25, 25, 25, 25, 25, 25,
  25, 25, 25, 25, 25, 25, 25, 25, 25, 25, 25, 25, 25, 25, 25, 25
]

/-- Rows 449 to 480 of the initialiser of `lzma_fastpos`: the entries 7168 to 7679. -/
def lzma_fastpos_14 : List Nat := [
  25, 25, 25, 25, 25, 25, 25, 25, 25, 25, 25, 25, 25, 25, 25, 25,
  25, 25, 25, 25, 25, 25, 25, 25, 25, 25, 25, 25, 25, 25, 25, 25,
  25, 25, 25, 25, 25, 25, 25, 25, 25, 25, 25, 25, 25, 25, 25, 25,
  25, 25, 25, 25, 25, 25, 25, 25, 25, 25, 25, 25, 25, 25, 25, 25,
  25, 25, 25, 25, 25, 25, 25, 25, 25, 25, 25, 25, 25, 25, 25, 25,
  25, 25, 25, 25, 25, 25, 25, 25, 25, 25, 25, 25, 25, 25, 25, 25,
  25, 25, 25, 25, 25, 25, 25, 25, 25, 25, 25, 25, 25, 25, 25, 25,
  25, 25, 25, 25, 25, 25, 25, 25, 25, 25, 25, 25, 25, 25, 25, 25,
  25, 25, 25, 25, 25, 25, 25, 25, 25, 25, 25, 25, 25, 25, 25, 25,
  25, 25, 25, 25, 25, 25, 25, 25, 25, 25, 25, 25, 25, 25, 25, 25,
  25, 25, 25, 25, 25, 25, 25, 25, 25, 25, 25, 25, 25, 25, 25, 25,
  25, 25, 25, 25, 25, 25, 25, 25, 25, 25, 25, 25, 25, 25, 25, 25,
  25, 25, 25, 25, 25, 25, 25, 25, 25, 25, 25, 25, 25, 25, 25, 25,
  25, 25, 25, 25, 25, 25, 25, 25, 25, 25, 25, 25, 25, 25, 25, 25,
  25, 25, 25, 25, 25, 25, 25, 25, 25, 25, 25, 25, 25, 25, 25, 25,
  25, 25, 25, 25, 25, 25, 25, 25, 25, 25, 25, 25, 25, 25, 25, 25,
  25, 25, 25, 25, 25, 25, 25, 25, 25, 25, 25, 25, 25, 25, 25, 25,
  25, 25, 25, 25, 25, 25, 25, 25, 25, 25, 25, 25, 25, 25, 25, 25,
  25, 25, 25, 25, 25, 25, 25, 25, 25, 25, 25, 25, 25, 25, 25, 25,
  25, 25, 25, 25, 25, 25, 25, 25, 25, 25, 25, 25, 25, 25, 25, 25,
  25, 25, 25, 25, 25, 25, 25, 25, 25, 25, 25, 25, 25, 25, 25, 25,
  25, 25, 25, 25, 25, 25, 25, 25, 25, 25, 25, 25, 25, 25, 25, 25,
  25, 25, 25, 25, 25, 25, 25, 25, 25, 25, 25, 25, 25, 25, 25, 25,
  25, 25, 25, 25, 25, 25, 25, 25, 25, 25, 25, 25, 25, 25, 25, 25,
  25, 25, 25, 25, 25, 25, 25, 25, 25, 25, 25, 25, 25, 25, 25, 25,
  25, 25, 25, 25, 25, 25, 25, 25, 25, 25, 25, 25, 25, 25, 25, 25,
  25, 25, 25, 25, 25, 25, 25, 25, 25, 25, 25, 25, 25, 25, 25, 25,
  25, 25, 25, 25, 25, 25, 25, 25, 25, 25, 25, 25, 25, 25, 25, 25,
  25, 25, 25, 25, 25, 25, 25, 25, 25, 25, 25, 25, 25, 25, 25, 25,
  25, 25, 25, 25, 25, 25, 25, 25, 25, 25, 25, 25, 25, 25, 25, 25,
  25, 25, 25, 25, 25, 25, 25, 25, 25, 25, 25, 25, 25, 25, 25, 25,
  25, 25, 25, 25, 25, 25, 25, 25, 25, 25, 25, 25, 25, 25, 25, 25
]

/-- Rows 481 to 512 of the initialiser of `lzma_fastpos`: the entries 7680 to 8191. -/
def lzma_fastpos_15 : List Nat := [
  25, 25, 25, 25, 25, 25, 25, 25, 25, 25, 25, 25, 25, 25, 25, 25,
  25, 25, 25, 25, 25, 25, 25, 25, 25, 25, 25, 25, 25, 25, 25, 25,
  25, 25, 25, 25, 25, 25, 25, 25, 25, 25, 25, 25, 25, 25, 25, 25,
  25, 25, 25, 25, 25, 25, 25, 25, 25, 25, 25, 25, 25, 25, 25, 25,
  25, 25, 25, 25, 25, 25, 25, 25, 25, 25, 25, 25, 25, 25, 25, 25,
  25, 25, 25, 25, 25, 25, 25, 25, 25, 25, 25, 25, 25, 25, 25, 25,
  25, 25, 25, 25, 25, 25, 25, 25, 25, 25, 25, 25, 25, 25, 25, 25,
  25, 25, 25, 25, 25, 25, 25, 25, 25, 25, 25, 25, 25, 25, 25, 25,
  25, 25, 25, 25, 25, 25, 25, 25, 25, 25, 25, 25, 25, 25, 25, 25,
  25, 25, 25, 25, 25, 25, 25, 25, 25, 25, 25, 25, 25, 25, 25, 25,
  25, 25, 25, 25, 25, 25, 25, 25, 25, 25, 25, 25, 25, 25, 25, 25,
  25, 25, 25, 25, 25, 25, 25, 25, 25, 25, 25, 25, 25, 25, 25, 25,
  25, 25, 25, 25, 25, 25, 25, 25, 25, 25, 25, 25, 25, 25, 25, 25,
  25, 25, 25, 25, 25, 25, 25, 25, 25, 25, 25, 25, 25, 25, 25, 25,
  25, 25, 25, 25, 25, 25, 25, 25, 25, 25, 25, 25, 25, 25, 25, 25,
  25, 25, 25, 25, 25, 25, 25, 25, 25, 25, 25, 25, 25, 25, 25, 25,
  25, 25, 25, 25, 25, 25, 25, 25, 25, 25, 25, 25, 25, 25, 25, 25,
  25, 25, 25, 25, 25, 25, 25, 25, 25, 25, 25, 25, 25, 25, 25, 25,
  25, 25, 25, 25, 25, 25, 25, 25, 25, 25, 25, 25, 25, 25, 25, 25,
  25, 25, 25, 25, 25, 25, 25, 25, 25, 25, 25, 25, 25, 25, 25, 25,
  25, 25, 25, 25, 25, 25, 25, 25, 25, 25, 25, 25, 25, 25, 25, 25,
  25, 25, 25, 25, 25, 25, 25, 25, 25, 25, 25, 25, 25, 25, 25, 25,
  25, 25, 25, 25, 25, 25, 25, 25, 25, 25, 25, 25, 25, 25, 25, 25,
  25, 25, 25, 25, 25, 25, 25, 25, 25, 25, 25, 25, 25, 25, 25, 25,
  25, 25, 25, 25, 25, 25, 25, 25, 25, 25, 25, 25, 25, 25, 25, 25,
  25, 25, 25, 25, 25, 25, 25, 25, 25, 25, 25, 25, 25, 25, 25, 25,
  25, 25, 25, 25, 25, 25, 25, 25, 25, 25, 25, 25, 25, 25, 25, 25,
  25, 25, 25, 25, 25, 25, 25, 25, 25, 25, 25, 25, 25, 25, 25, 25,
  25, 25, 25, 25, 25, 25, 25, 25, 25, 25, 25, 25, 25, 25, 25, 25,
  25, 25, 25, 25, 25, 25, 25, 25, 25, 25, 25, 25, 25, 25, 25, 25,
  25, 25, 25, 25, 25, 25, 25, 25, 25, 25, 25, 25, 25, 25, 25, 25,
  25, 25, 25, 25, 25, 25, 25, 25, 25, 25, 25, 25, 25, 25, 25, 25
]

/-- The array `lzma_fastpos` of `fastpos_table.c`: its initialisers in the order
of the source, written in sixteen pieces of 32 rows. -/
def lzma_fastpos : List Nat :=
  lzma_fastpos_0 ++ lzma_fastpos_1 ++ lzma_fastpos_2 ++ lzma_fastpos_3 ++ lzma_fastpos_4 ++ lzma_fastpos_5
    ++ lzma_fastpos_6 ++ lzma_fastpos_7 ++ lzma_fastpos_8 ++ lzma_fastpos_9 ++ lzma_fastpos_10
    ++ lzma_fastpos_11 ++ lzma_fastpos_12 ++ lzma_fastpos_13 ++ lzma_fastpos_14 ++ lzma_fastpos_15

/-- The entry the specification gives for an index `i` from 2 on, in its words:
twice `floor(log2 i)`, plus the bit of `i` with the number `floor(log2 i) - 1`. -/
def fastpos_closed_form (i : Nat) : Nat :=
  2 * Nat.log2 i + (i / 2 ^ (Nat.log2 i - 1)) % 2

/-- The number of halvings that bring `n` below 2, at most `fuel` of them: the
value `floor(log2 n)` for `n` from 1 to `2 ^ fuel - 1`, by structural recursion. -/
def halvings : Nat → Nat → Nat
  | 0, _ => 0
  | fuel + 1, n => if n < 2 then 0 else halvings fuel (n / 2) + 1

/-- The closed form with `halvings` for the logarithm, and the entries 0 and 1. -/
def fastpos_by_halving (i : Nat) : Nat :=
  if i < 2 then i else 2 * halvings 13 i + (i / 2 ^ (halvings 13 i - 1)) % 2

/-- Whether the entries of `l` are the values of `f` at the indices from `i` on. -/
def table_matches (f : Nat → Nat) : Nat → List Nat → Bool
  | _, [] => true
  | i, x :: xs => x == f i && table_matches f (i + 1) xs

/-- The fixed table of known suffixes, each with the flag `file_type` gives it. -/
def suffix_table : List (String × Int) :=
  [(".gff.gz", IS_GFF), (".bed.gz", IS_BED), (".sam.gz", IS_SAM), (".vcf.gz", IS_VCF),
   (".bcf", IS_BCF), (".bam", IS_BAM), (".cram", IS_CRAM)]

/-- The name ends in none of the seven known suffixes. -/
def no_known_suffix (fname : List Char) : Prop :=
  ∀ suffix flag, (suffix, flag) ∈ suffix_table → ¬ ends_with_nocase fname suffix

/-! ## Theorems -/

theorem tail_from_lower (before : Char) (pre suf : List Char) (k : Nat)
    (hk : k ≤ (pre ++ suf).length) :
    ((tail_from before (pre ++ suf) k).map Char.toLower).drop (k - suf.length)
      = (suf.map Char.toLower).drop (suf.length - k) := by
  have hlen : (pre ++ suf).length = pre.length + suf.length := List.length_append pre suf
  have hsuf : List.drop (suf.length - k) suf
      = List.drop (suf.length - k) (List.drop pre.length (pre ++ suf)) := by simp
  unfold tail_from
  rw [if_pos hk, ← List.map_drop, ← List.map_drop, List.drop_drop, hsuf, List.drop_drop]
  congr 2
  omega

theorem suffix_check_false (before : Char) (pre suf : List Char) (k : Nat) (T : List Char)
    (hne : (T.map Char.toLower).drop (k - suf.length)
      ≠ (suf.map Char.toLower).drop (suf.length - k)) :
    (decide ((pre ++ suf).length ≥ k) && strcasecmp_eq (tail_from before (pre ++ suf) k) T)
      = false := by
  by_cases hk : k ≤ (pre ++ suf).length
  · have h := tail_from_lower before pre suf k hk
    have : strcasecmp_eq (tail_from before (pre ++ suf) k) T = false := by
      unfold strcasecmp_eq
      rw [beq_eq_false_iff_ne]
      intro he
      rw [he] at h
      exact hne h
    simp [this]
  · have hk2 : ¬ k ≤ pre.length + suf.length := by simpa using hk
    simp [hk2]

theorem suffix_check_true (before : Char) (pre suf : List Char) (T : List Char) (m k : Nat)
    (hk : suf.length = k) (hm : m ≤ k)
    (hT : suf.map Char.toLower = T.map Char.toLower) :
    (decide ((pre ++ suf).length ≥ m) && strcasecmp_eq (tail_from before (pre ++ suf) k) T)
      = true := by
  subst hk
  have hk : suf.length ≤ (pre ++ suf).length := by simp
  have h := tail_from_lower before pre suf suf.length hk
  simp only [Nat.sub_self, List.drop_zero] at h
  have hm2 : (pre ++ suf).length ≥ m := by omega
  unfold strcasecmp_eq
  rw [h, hT, decide_eq_true hm2]
  simp

/-- C6: a file name that ends, ignoring letter case, in one of the seven known
suffixes gets the flag of that suffix, and `hts_open` is not called: the result
is the same for every byte in front of the name and every answer a probe of the
file would give. -/
theorem file_type_known_suffix (before : Char) (fname : List Char) (probe : Probe)
    (suffix : String) (flag : Int) (hmem : (suffix, flag) ∈ suffix_table)
    (hend : ends_with_nocase fname suffix) :
    file_type before fname probe = ⟨.returned flag, false⟩ := by
  obtain ⟨pre, suf, rfl, hs⟩ := hend
  have hlen : suf.length = suffix.toList.length := by rw [← hs, List.length_map]
  simp only [suffix_table, List.mem_cons, Prod.mk.injEq, List.mem_singleton, List.not_mem_nil,
    or_false] at hmem
  rcases hmem with ⟨rfl, rfl⟩ | ⟨rfl, rfl⟩ | ⟨rfl, rfl⟩ | ⟨rfl, rfl⟩ | ⟨rfl, rfl⟩ | ⟨rfl, rfl⟩ |
    ⟨rfl, rfl⟩
  · have hn : suf.length = 7 := by rw [hlen]; rfl
    simp only [file_type,
      suffix_check_true before pre suf ".gff.gz".toList 7 7 hn (by decide) (by rw [hs]; decide),
      Bool.false_eq_true, if_false, if_true]
  · have hn : suf.length = 7 := by rw [hlen]; rfl
    simp only [file_type,
      suffix_check_false before pre suf 7 ".gff.gz".toList (by rw [hs, hn]; decide),
      suffix_check_true before pre suf ".bed.gz".toList 7 7 hn (by decide) (by rw [hs]; decide),
      Bool.false_eq_true, if_false, if_true]
  · have hn : suf.length = 7 := by rw [hlen]; rfl
    simp only [file_type,
      suffix_check_false before pre suf 7 ".gff.gz".toList (by rw [hs, hn]; decide),
      suffix_check_false before pre suf 7 ".bed.gz".toList (by rw [hs, hn]; decide),
      suffix_check_true before pre suf ".sam.gz".toList 7 7 hn (by decide) (by rw [hs]; decide),
      Bool.false_eq_true, if_false, if_true]
  · have hn : suf.length = 7 := by rw [hlen]; rfl
    simp only [file_type,
      suffix_check_false before pre suf 7 ".gff.gz".toList (by rw [hs, hn]; decide),
      suffix_check_false before pre suf 7 ".bed.gz".toList (by rw [hs, hn]; decide),
      suffix_check_false before pre suf 7 ".sam.gz".toList (by rw [hs, hn]; decide),
      suffix_check_true before pre suf ".vcf.gz".toList 7 7 hn (by decide) (by rw [hs]; decide),
      Bool.false_eq_true, if_false, if_true]
  · have hn : suf.length = 4 := by rw [hlen]; rfl
    simp only [file_type,
      suffix_check_false before pre suf 7 ".gff.gz".toList (by rw [hs, hn]; decide),
      suffix_check_false before pre suf 7 ".bed.gz".toList (by rw [hs, hn]; decide),
      suffix_check_false before pre suf 7 ".sam.gz".toList (by rw [hs, hn]; decide),
      suffix_check_false before pre suf 7 ".vcf.gz".toList (by rw [hs, hn]; decide),
      suffix_check_true before pre suf ".bcf".toList 4 4 hn (by decide) (by rw [hs]; decide),
      Bool.false_eq_true, if_false, if_true]
  · have hn : suf.length = 4 := by rw [hlen]; rfl
    simp only [file_type,
      suffix_check_false before pre suf 7 ".gff.gz".toList (by rw [hs, hn]; decide),
      suffix_check_false before pre suf 7 ".bed.gz".toList (by rw [hs, hn]; decide),
      suffix_check_false before pre suf 7 ".sam.gz".toList (by rw [hs, hn]; decide),
      suffix_check_false before pre suf 7 ".vcf.gz".toList (by rw [hs, hn]; decide),
      suffix_check_false before pre suf 4 ".bcf".toList (by rw [hs, hn]; decide),
      suffix_check_true before pre suf ".bam".toList 4 4 hn (by decide) (by rw [hs]; decide),
      Bool.false_eq_true, if_false, if_true]
  · have hn : suf.length = 5 := by rw [hlen]; rfl
    simp only [file_type,
      suffix_check_false before pre suf 7 ".gff.gz".toList (by rw [hs, hn]; decide),
      suffix_check_false before pre suf 7 ".bed.gz".toList (by rw [hs, hn]; decide),
      suffix_check_false before pre suf 7 ".sam.gz".toList (by rw [hs, hn]; decide),
      suffix_check_false before pre suf 7 ".vcf.gz".toList (by rw [hs, hn]; decide),
      suffix_check_false before pre suf 4 ".bcf".toList (by rw [hs, hn]; decide),
      suffix_check_false before pre suf 4 ".bam".toList (by rw [hs, hn]; decide),
      suffix_check_true before pre suf ".cram".toList 4 5 hn (by decide) (by rw [hs]; decide),
      Bool.false_eq_true, if_false, if_true]

/-- The name `reads.CRAM` ends in `.cram`: `file_type` answers `IS_CRAM` without a probe. -/
theorem file_type_known_suffix_witness :
    (".cram", IS_CRAM) ∈ suffix_table ∧ ends_with_nocase "reads.CRAM".toList ".cram" ∧
    file_type 'x' "reads.CRAM".toList .failed = ⟨.returned IS_CRAM, false⟩ :=
  ⟨by decide, ⟨"reads".toList, ".CRAM".toList, by decide, by decide⟩,
   file_type_known_suffix 'x' "reads.CRAM".toList .failed ".cram" IS_CRAM (by decide)
     ⟨"reads".toList, ".CRAM".toList, by decide, by decide⟩⟩

/-! ### `query_regions`: the region loops -/

theorem tbx_itr_loop_eq (reg_idx : Option regidx_t) (seq : List String) (recs : List tbx_rec) :
    tbx_itr_loop reg_idx seq recs
      = (recs.filter (kept_text reg_idx seq)).map (fun r => Emitted.line r.s) := by
  induction recs with
  | nil => rfl
  | cons r rs ih =>
    cases reg_idx with
    | none => simp [tbx_itr_loop, kept_text, ← ih]
    | some idx =>
      cases h : regidx_overlap idx (seq.getD r.curr_tid "") r.curr_beg (r.curr_end - 1)
      · simp only [tbx_itr_loop, kept_text, h, ih, List.filter_cons, Bool.not_false, if_true,
          Bool.false_eq_true, if_false]
      · simp only [tbx_itr_loop, kept_text, h, ih, List.filter_cons, Bool.not_true, if_true,
          Bool.false_eq_true, if_false, List.map_cons]

theorem bcf_itr_loop_eq (hdr : bcf_hdr_t) (reg_idx : Option regidx_t) (recs : List bcf1_t)
    (hknown : reg_idx ≠ none → ∀ rec ∈ recs, bcf_seqname hdr rec ≠ none) :
    bcf_itr_loop hdr reg_idx recs
      = ((recs.filter (kept_bcf hdr reg_idx)).map Emitted.bcf_record, none) := by
  induction recs with
  | nil => rfl
  | cons r rs ih =>
    have ih2 := ih (fun hne rec hrec => hknown hne rec (List.mem_cons_of_mem _ hrec))
    cases reg_idx with
    | none => simp [bcf_itr_loop, kept_bcf, ih2]
    | some idx =>
      have hr := hknown (by simp) r (List.mem_cons_self _ _)
      cases hc : bcf_seqname hdr r with
      | none => exact absurd hc hr
      | some chr =>
        by_cases h : regidx_overlap idx chr r.pos (r.pos + r.rlen - 1) = true
        · simp [bcf_itr_loop, kept_bcf, hc, h, ih2]
        · simp [bcf_itr_loop, kept_bcf, hc, h, ih2]

theorem tbx_regions_loop_append (w : World) (tbx : tbx_t) (reg_idx : Option regidx_t)
    (seq : List String) (r1 r2 : List String) :
    tbx_regions_loop w tbx reg_idx seq (r1 ++ r2)
      = match (tbx_regions_loop w tbx reg_idx seq r1).2 with
        | some msg => ((tbx_regions_loop w tbx reg_idx seq r1).1, some msg)
        | none => ((tbx_regions_loop w tbx reg_idx seq r1).1
                    ++ (tbx_regions_loop w tbx reg_idx seq r2).1,
                   (tbx_regions_loop w tbx reg_idx seq r2).2) := by
  induction r1 with
  | nil => simp [tbx_regions_loop]
  | cons reg regs ih =>
    simp only [List.cons_append, tbx_regions_loop]
    cases hq : tbx_itr_querys w tbx reg with
    | none => simpa using ih
    | some itr =>
      by_cases hl : itr.last < -1
      · simp [hl]
      · simp only [hl, if_false, List.append_eq]
        rw [ih]
        cases (tbx_regions_loop w tbx reg_idx seq regs).2 <;> simp

theorem bcf_regions_loop_append (w : World) (idx : hts_idx_t) (hdr : bcf_hdr_t)
    (reg_idx : Option regidx_t) (r1 r2 : List String) :
    bcf_regions_loop w idx hdr reg_idx (r1 ++ r2)
      = match (bcf_regions_loop w idx hdr reg_idx r1).2 with
        | some msg => ((bcf_regions_loop w idx hdr reg_idx r1).1, some msg)
        | none => ((bcf_regions_loop w idx hdr reg_idx r1).1
                    ++ (bcf_regions_loop w idx hdr reg_idx r2).1,
                   (bcf_regions_loop w idx hdr reg_idx r2).2) := by
  induction r1 with
  | nil => simp [bcf_regions_loop]
  | cons reg regs ih =>
    simp only [List.cons_append, bcf_regions_loop]
    cases hq : bcf_itr_querys w idx reg with
    | none => simpa using ih
    | some itr =>
      cases hs : (bcf_itr_loop hdr reg_idx itr.recs).2 with
      | some msg => simp [hs]
      | none =>
        by_cases hl : itr.last < -1
        · simp [hs, hl]
        · simp only [hs, hl, if_false, List.append_eq]
          rw [ih]
          cases (bcf_regions_loop w idx hdr reg_idx regs).2 <;> simp

theorem tbx_regions_loop_fst (w : World) (tbx : tbx_t) (reg_idx : Option regidx_t)
    (seq : List String) (regs : List String) :
    (tbx_regions_loop w tbx reg_idx seq regs).1
      = (regions_scanned (fun reg => read_fails (tbx_itr_querys w tbx reg)) regs).flatMap
          (tbx_region_out w tbx reg_idx seq) := by
  induction regs with
  | nil => rfl
  | cons reg regs ih =>
    obtain ⟨q, hq⟩ : ∃ q, tbx_itr_querys w tbx reg = q := ⟨_, rfl⟩
    simp only [tbx_regions_loop, regions_scanned, hq]
    cases q with
    | none => simpa [read_fails, tbx_region_out, hq] using ih
    | some itr =>
      by_cases hl : itr.last < -1
      · simp [read_fails, hl, tbx_region_out, hq, tbx_itr_loop_eq]
      · simp [read_fails, hl, tbx_region_out, hq, tbx_itr_loop_eq, ih]

theorem tbx_regions_loop_snd (w : World) (tbx : tbx_t) (reg_idx : Option regidx_t)
    (seq : List String) (regs : List String) :
    (tbx_regions_loop w tbx reg_idx seq regs).2
      = if regs.any (fun reg => read_fails (tbx_itr_querys w tbx reg))
        then some "Reading failed" else none := by
  induction regs with
  | nil => rfl
  | cons reg regs ih =>
    obtain ⟨q, hq⟩ : ∃ q, tbx_itr_querys w tbx reg = q := ⟨_, rfl⟩
    simp only [tbx_regions_loop, List.any_cons, hq]
    cases q with
    | none => simpa [read_fails] using ih
    | some itr =>
      by_cases hl : itr.last < -1
      · simp [read_fails, hl]
      · simpa [read_fails, hl] using ih

theorem bcf_regions_loop_fst (w : World) (idx : hts_idx_t) (hdr : bcf_hdr_t)
    (reg_idx : Option regidx_t) (regs : List String)
    (hknown : ∀ reg ∈ regs, contigs_known w idx hdr reg_idx reg) :
    (bcf_regions_loop w idx hdr reg_idx regs).1
      = (regions_scanned (fun reg => read_fails (bcf_itr_querys w idx reg)) regs).flatMap
          (bcf_region_out w idx hdr reg_idx) := by
  induction regs with
  | nil => rfl
  | cons reg regs ih =>
    have ih2 := ih (fun r hr => hknown r (List.mem_cons_of_mem _ hr))
    have hk := hknown reg (List.mem_cons_self _ _)
    obtain ⟨q, hq⟩ : ∃ q, bcf_itr_querys w idx reg = q := ⟨_, rfl⟩
    simp only [bcf_regions_loop, regions_scanned, hq]
    cases q with
    | none => simpa [read_fails, bcf_region_out, hq] using ih2
    | some itr =>
      have hloop := bcf_itr_loop_eq hdr reg_idx itr.recs (fun hne => hk hne itr hq)
      by_cases hl : itr.last < -1
      · simp [read_fails, hl, bcf_region_out, hq, hloop]
      · simp [read_fails, hl, bcf_region_out, hq, hloop, ih2]

theorem bcf_regions_loop_snd (w : World) (idx : hts_idx_t) (hdr : bcf_hdr_t)
    (reg_idx : Option regidx_t) (regs : List String)
    (hknown : ∀ reg ∈ regs, contigs_known w idx hdr reg_idx reg) :
    (bcf_regions_loop w idx hdr reg_idx regs).2
      = if regs.any (fun reg => read_fails (bcf_itr_querys w idx reg))
        then some "Reading failed" else none := by
  induction regs with
  | nil => rfl
  | cons reg regs ih =>
    have ih2 := ih (fun r hr => hknown r (List.mem_cons_of_mem _ hr))
    have hk := hknown reg (List.mem_cons_self _ _)
    obtain ⟨q, hq⟩ : ∃ q, bcf_itr_querys w idx reg = q := ⟨_, rfl⟩
    simp only [bcf_regions_loop, List.any_cons, hq]
    cases q with
    | none => simpa [read_fails] using ih2
    | some itr =>
      have hloop := bcf_itr_loop_eq hdr reg_idx itr.recs (fun hne => hk hne itr hq)
      by_cases hl : itr.last < -1
      · simp [read_fails, hl, hloop]
      · simpa [read_fails, hl, hloop] using ih2

theorem stdout_exit_or_finish (w : World) (out : List Emitted) (err : Option String) :
    (match err with
      | some msg => (⟨out, .exited msg⟩ : Outcome)
      | none => query_finish w out).stdout = out := by
  cases err with
  | none =>
    show (query_finish w out).stdout = out
    unfold query_finish
    split <;> rfl
  | some msg => rfl

theorem query_finish_stdout (w : World) (out : List Emitted) :
    (query_finish w out).stdout = out := by
  unfold query_finish
  split <;> rfl

theorem records_append (a b : List Emitted) : records (a ++ b) = records a ++ records b := by
  simp [records]

theorem records_header_loop (meta_char : Int) (last : Int) (ls : List (List Char)) :
    records (header_loop meta_char last ls).1 = [] := by
  induction ls with
  | nil => rfl
  | cons l ls ih =>
    unfold header_loop
    split
    · rfl
    · simpa [records] using ih

theorem records_print_header_lines (w : World) (args : args_t) (tbx : tbx_t) :
    records (print_header_lines w args tbx).1 = [] := by
  unfold print_header_lines
  split
  · exact records_header_loop _ _ _
  · rfl

theorem records_bcf_header_out (args : args_t) (hdr : bcf_hdr_t) :
    records (bcf_header_out args hdr) = [] := by
  unfold bcf_header_out
  split <;> rfl

theorem records_tbx_itr_loop (reg_idx : Option regidx_t) (seq : List String)
    (recs : List tbx_rec) :
    records (tbx_itr_loop reg_idx seq recs) = tbx_itr_loop reg_idx seq recs := by
  rw [tbx_itr_loop_eq]
  simp [records, List.filter_map, List.filter_eq_self]

theorem records_tbx_regions_loop (w : World) (tbx : tbx_t) (reg_idx : Option regidx_t)
    (seq : List String) (regs : List String) :
    records (tbx_regions_loop w tbx reg_idx seq regs).1
      = (tbx_regions_loop w tbx reg_idx seq regs).1 := by
  induction regs with
  | nil => rfl
  | cons reg regs ih =>
    simp only [tbx_regions_loop]
    cases hq : tbx_itr_querys w tbx reg with
    | none => simpa using ih
    | some itr =>
      by_cases hl : itr.last < -1
      · simp [hl, records_tbx_itr_loop]
      · simp [hl, records_append, records_tbx_itr_loop, ih]

theorem records_bcf_itr_loop (hdr : bcf_hdr_t) (reg_idx : Option regidx_t) (recs : List bcf1_t) :
    records (bcf_itr_loop hdr reg_idx recs).1 = (bcf_itr_loop hdr reg_idx recs).1 := by
  induction recs with
  | nil => rfl
  | cons r rs ih =>
    unfold bcf_itr_loop
    split
    · split
      · rfl
      · split
        · exact ih
        · simpa [records] using ih
    · simpa [records] using ih

theorem records_bcf_regions_loop (w : World) (idx : hts_idx_t) (hdr : bcf_hdr_t)
    (reg_idx : Option regidx_t) (regs : List String) :
    records (bcf_regions_loop w idx hdr reg_idx regs).1
      = (bcf_regions_loop w idx hdr reg_idx regs).1 := by
  induction regs with
  | nil => rfl
  | cons reg regs ih =>
    simp only [bcf_regions_loop]
    cases hq : bcf_itr_querys w idx reg with
    | none => simpa using ih
    | some itr =>
      cases hs : (bcf_itr_loop hdr reg_idx itr.recs).2 with
      | some msg => simp [hs, records_bcf_itr_loop]
      | none =>
        by_cases hl : itr.last < -1
        · simp [hs, hl, records_bcf_itr_loop]
        · simp [hs, hl, records_append, records_bcf_itr_loop, ih]

/-- A run reaches the region loop of the text branch, or that of the
binary-variant branch, or its result holds no record and is the same for every
region list. -/
theorem query_regions_cases (w : World) (args : args_t) (download : Int) :
    (∃ tbx reg_idx seq, TextScan w args download tbx reg_idx seq)
    ∨ (∃ idx hdr reg_idx, BcfScan w args download idx hdr reg_idx)
    ∨ (∃ o : Outcome, records o.stdout = []
        ∧ ∀ regs, query_regions w args regs download = o) := by
  cases hopen : w.hts_open with
  | none =>
    exact Or.inr (Or.inr ⟨⟨[], .exited "Could not open"⟩, rfl, fun regs => by
      simp only [query_regions, hopen]⟩)
  | some format =>
    cases htargets : load_targets w args with
    | none =>
      exact Or.inr (Or.inr ⟨⟨[], .exited "Could not build region list"⟩, rfl, fun regs => by
        simp only [query_regions, hopen, htargets]⟩)
    | some reg_idx =>
      by_cases hbcf : format = .bcf
      · subst hbcf
        cases hidx : w.bcf_index_load3 (index_flags download) with
        | none =>
          exact Or.inr (Or.inr ⟨⟨[], .exited "Could not load .csi index"⟩, rfl, fun regs => by
            simp only [query_regions, hopen, htargets, hidx, if_true]⟩)
        | some idx =>
          cases hhdr : w.bcf_hdr_read with
          | none =>
            exact Or.inr (Or.inr ⟨⟨[], .exited "Could not read the header"⟩, rfl, fun regs => by
              simp only [query_regions, hopen, htargets, hidx, hhdr, if_true]⟩)
          | some hdr =>
            by_cases hbody : args.header_only = 0
            · exact Or.inr (Or.inl ⟨idx, hdr, reg_idx, ⟨hopen, htargets, hidx, hhdr, hbody⟩⟩)
            · refine Or.inr (Or.inr ⟨query_finish w (bcf_header_out args hdr), ?_, fun regs => by
                simp only [query_regions, hopen, htargets, hidx, hhdr, hbody, if_true, if_false,
                  bcf_header_out]⟩)
              have := stdout_exit_or_finish w (bcf_header_out args hdr) none
              simp only at this
              rw [this]
              exact records_bcf_header_out args hdr
      · by_cases htext : is_text_branch format = true
        · cases hidx : w.tbx_index_load3 (index_flags download) with
          | none =>
            exact Or.inr (Or.inr ⟨⟨[], .exited "Could not load .tbi/.csi index"⟩, rfl,
              fun regs => by
                simp only [query_regions, hopen, htargets, hidx, hbcf, htext, if_true, if_false]⟩)
          | some tbx =>
            by_cases hhead : (print_header_lines w args tbx).2 < -1
            · exact Or.inr (Or.inr ⟨⟨(print_header_lines w args tbx).1, .exited "Reading failed"⟩,
                records_print_header_lines w args tbx, fun regs => by
                simp only [query_regions, hopen, htargets, hidx, hbcf, htext, hhead, if_true,
                  if_false]⟩)
            · by_cases hbody : args.header_only = 0
              · cases hnames : filter_seqnames tbx reg_idx with
                | none =>
                  exact Or.inr (Or.inr ⟨⟨(print_header_lines w args tbx).1,
                    .exited "Failed to get sequence names list"⟩,
                    records_print_header_lines w args tbx, fun regs => by
                    simp only [query_regions, hopen, htargets, hidx, hbcf, htext, hhead, hbody,
                      hnames, if_true, if_false]⟩)
                | some seq =>
                  exact Or.inl ⟨tbx, reg_idx, seq,
                    ⟨⟨format, hopen, htext⟩, htargets, hidx, hhead, hbody, hnames⟩⟩
              · refine Or.inr (Or.inr ⟨query_finish w (print_header_lines w args tbx).1, ?_,
                  fun regs => by
                    simp only [query_regions, hopen, htargets, hidx, hbcf, htext, hhead, hbody,
                      if_true, if_false]⟩)
                have := stdout_exit_or_finish w (print_header_lines w args tbx).1 none
                simp only at this
                rw [this]
                exact records_print_header_lines w args tbx
        · by_cases hbam : format = .bam
          · subst hbam
            exact Or.inr (Or.inr ⟨⟨[], .exited
              "Please use \"samtools view\" for querying BAM files."⟩, rfl, fun regs => by
              simp [query_regions, hopen, htargets, is_text_branch]⟩)
          · refine Or.inr (Or.inr ⟨query_finish w [], ?_, fun regs => by
              simp only [query_regions, hopen, htargets, hbcf, htext, hbam, if_false]
              simp⟩)
            have := stdout_exit_or_finish w [] none
            simp only at this
            rw [this]
            rfl

theorem query_regions_text (w : World) (args : args_t) (download : Int) (tbx : tbx_t)
    (reg_idx : Option regidx_t) (seq : List String) (h : TextScan w args download tbx reg_idx seq)
    (regs : List String) :
    query_regions w args regs download
      = match (tbx_regions_loop w tbx reg_idx seq regs).2 with
        | some msg => ⟨(print_header_lines w args tbx).1
            ++ (tbx_regions_loop w tbx reg_idx seq regs).1, .exited msg⟩
        | none => query_finish w ((print_header_lines w args tbx).1
            ++ (tbx_regions_loop w tbx reg_idx seq regs).1) := by
  obtain ⟨format, hopen, htext⟩ := h.opened
  have hbcf : format ≠ .bcf := by
    intro hb
    rw [hb] at htext
    exact absurd htext (by decide)
  simp only [query_regions, hopen, h.targets, h.index, h.header, h.body, h.names, hbcf, htext,
    if_false, if_true]

theorem query_regions_bcf (w : World) (args : args_t) (download : Int) (idx : hts_idx_t)
    (hdr : bcf_hdr_t) (reg_idx : Option regidx_t) (h : BcfScan w args download idx hdr reg_idx)
    (regs : List String) :
    query_regions w args regs download
      = match (bcf_regions_loop w idx hdr reg_idx regs).2 with
        | some msg => ⟨bcf_header_out args hdr
            ++ (bcf_regions_loop w idx hdr reg_idx regs).1, .exited msg⟩
        | none => query_finish w (bcf_header_out args hdr
            ++ (bcf_regions_loop w idx hdr reg_idx regs).1) := by
  simp only [query_regions, h.opened, h.targets, h.index, h.header, h.body, if_true,
    bcf_header_out]

theorem kept_text_iff (reg_idx : Option regidx_t) (seq : List String) (r : tbx_rec) :
    kept_text reg_idx seq r = true ↔
      (reg_idx = none ∨ ∃ idx, reg_idx = some idx ∧ ∃ t ∈ idx,
        t.seq = seq.getD r.curr_tid "" ∧ t.beg ≤ r.curr_end - 1 ∧ r.curr_beg ≤ t.fin) := by
  cases reg_idx with
  | none => simp [kept_text]
  | some idx =>
    simp only [kept_text, regidx_overlap, List.any_eq_true, Bool.and_eq_true, beq_iff_eq,
      decide_eq_true_eq, Option.some.injEq, exists_eq_left', false_or, reduceCtorEq, and_assoc]

theorem kept_bcf_iff (hdr : bcf_hdr_t) (reg_idx : Option regidx_t) (rec : bcf1_t) (chr : String)
    (hchr : bcf_seqname hdr rec = some chr) :
    kept_bcf hdr reg_idx rec = true ↔
      (reg_idx = none ∨ ∃ idx, reg_idx = some idx ∧ ∃ t ∈ idx,
        t.seq = chr ∧ t.beg ≤ rec.pos + rec.rlen - 1 ∧ rec.pos ≤ t.fin) := by
  cases reg_idx with
  | none => simp [kept_bcf]
  | some idx =>
    simp only [kept_bcf, hchr, regidx_overlap, List.any_eq_true, Bool.and_eq_true, beq_iff_eq,
      decide_eq_true_eq, Option.some.injEq, exists_eq_left', false_or, reduceCtorEq, and_assoc]

/-- C3: in both branches the writes of `query_regions` are the header followed,
for each scanned region in the order given, by the records of its iterator that
pass the target-filter rule, in iterator order and nothing else; a record passes
exactly when no target filter is configured or some target interval on its
sequence meets the closed range `beg..end-1` (text) or `pos..pos+rlen-1`
(binary variant). -/
theorem query_regions_target_filter (w : World) (args : args_t) (regs : List String)
    (download : Int) :
    (∀ tbx reg_idx seq, TextScan w args download tbx reg_idx seq →
      (query_regions w args regs download).stdout
        = (print_header_lines w args tbx).1
          ++ (regions_scanned (fun reg => read_fails (tbx_itr_querys w tbx reg)) regs).flatMap
              (tbx_region_out w tbx reg_idx seq)
      ∧ ∀ r, kept_text reg_idx seq r = true ↔
          (reg_idx = none ∨ ∃ idx, reg_idx = some idx ∧ ∃ t ∈ idx,
            t.seq = seq.getD r.curr_tid "" ∧ t.beg ≤ r.curr_end - 1 ∧ r.curr_beg ≤ t.fin))
    ∧ (∀ idx hdr reg_idx, BcfScan w args download idx hdr reg_idx →
      (∀ reg ∈ regs, contigs_known w idx hdr reg_idx reg) →
      (query_regions w args regs download).stdout
        = bcf_header_out args hdr
          ++ (regions_scanned (fun reg => read_fails (bcf_itr_querys w idx reg)) regs).flatMap
              (bcf_region_out w idx hdr reg_idx)
      ∧ ∀ rec chr, bcf_seqname hdr rec = some chr →
          (kept_bcf hdr reg_idx rec = true ↔
            (reg_idx = none ∨ ∃ ti, reg_idx = some ti ∧ ∃ t ∈ ti,
              t.seq = chr ∧ t.beg ≤ rec.pos + rec.rlen - 1 ∧ rec.pos ≤ t.fin))) := by
  refine ⟨fun tbx reg_idx seq h => ⟨?_, kept_text_iff reg_idx seq⟩,
    fun idx hdr reg_idx h hknown => ⟨?_, kept_bcf_iff hdr reg_idx⟩⟩
  · rw [query_regions_text w args download tbx reg_idx seq h regs, stdout_exit_or_finish,
      tbx_regions_loop_fst]
  · rw [query_regions_bcf w args download idx hdr reg_idx h regs, stdout_exit_or_finish,
      bcf_regions_loop_fst w idx hdr reg_idx regs hknown]

theorem demo_text_scan :
    TextScan (demo_world .vcf) (demo_args none) 0 demo_tbx none [] :=
  ⟨⟨.vcf, rfl, rfl⟩, rfl, rfl, by decide, rfl, rfl⟩

theorem demo_text_scan_filtered :
    TextScan (demo_world .vcf) (demo_args (some "t.bed")) 0 demo_tbx
      (some [⟨"chr1", 0, 14⟩]) ["chr1"] :=
  ⟨⟨.vcf, rfl, rfl⟩, rfl, rfl, by decide, rfl, rfl⟩

theorem demo_bcf_scan :
    BcfScan (demo_world .bcf) (demo_args none) 0 demo_idx ⟨["chr1"]⟩ none :=
  ⟨rfl, rfl, rfl, rfl, rfl⟩

theorem demo_bcf_scan_filtered :
    BcfScan (demo_world .bcf) (demo_args (some "t.bed")) 0 demo_idx ⟨["chr1"]⟩
      (some [⟨"chr1", 0, 14⟩]) :=
  ⟨rfl, rfl, rfl, rfl, rfl⟩

theorem demo_contigs_known (w : World) (reg_idx : Option regidx_t) (reg : String) :
    contigs_known w demo_idx ⟨["chr1"]⟩ reg_idx reg := by
  intro _ itr hitr rec hrec
  have hrid : rec.rid = 0 := by
    unfold bcf_itr_querys at hitr
    split at hitr
    · exact absurd hitr (by simp)
    · rename_i r _
      simp only [demo_idx] at hitr
      split at hitr
      · simp only [Option.some.injEq] at hitr
        subst hitr
        simp only [List.mem_filter, demo_bcf_recs, List.mem_cons, List.mem_singleton,
          List.not_mem_nil, or_false] at hrec
        rcases hrec.1 with h | h <;> rw [h]
      · exact absurd hitr (by simp)
  simp [bcf_seqname, hrid]

/-- The scenario of the specification with the target filter `chr1:0-14`: of the
two records of region `chr1:1-200` only the first is written, in both branches. -/
theorem query_regions_target_filter_witness :
    TextScan (demo_world .vcf) (demo_args (some "t.bed")) 0 demo_tbx
      (some [⟨"chr1", 0, 14⟩]) ["chr1"]
    ∧ (query_regions (demo_world .vcf) (demo_args (some "t.bed")) ["chr1:1-200"] 0).stdout
        = [.line "chr1\t11\t20"]
    ∧ BcfScan (demo_world .bcf) (demo_args (some "t.bed")) 0 demo_idx ⟨["chr1"]⟩
      (some [⟨"chr1", 0, 14⟩])
    ∧ (query_regions (demo_world .bcf) (demo_args (some "t.bed")) ["chr1:1-200"] 0).stdout
        = [.bcf_record ⟨0, 10, 10⟩] :=
  ⟨demo_text_scan_filtered,
   (((query_regions_target_filter (demo_world .vcf) (demo_args (some "t.bed")) ["chr1:1-200"]
      0).1 demo_tbx (some [⟨"chr1", 0, 14⟩]) ["chr1"] demo_text_scan_filtered).1).trans
      (by decide),
   demo_bcf_scan_filtered,
   (((query_regions_target_filter (demo_world .bcf) (demo_args (some "t.bed")) ["chr1:1-200"]
      0).2 demo_idx ⟨["chr1"]⟩ (some [⟨"chr1", 0, 14⟩]) demo_bcf_scan_filtered
      (fun reg _ => demo_contigs_known _ _ reg)).1).trans (by decide)⟩

theorem regions_scanned_complete (fails : String → Bool) (regs : List String)
    (h : ∀ reg ∈ regs, fails reg = false) : regions_scanned fails regs = regs := by
  induction regs with
  | nil => rfl
  | cons reg regs ih =>
    simp only [regions_scanned, h reg (List.mem_cons_self _ _), Bool.false_eq_true, if_false,
      ih (fun r hr => h r (List.mem_cons_of_mem _ hr))]

theorem any_false_of_forall (fails : String → Bool) (regs : List String)
    (h : ∀ reg ∈ regs, fails reg = false) : regs.any fails = false := by
  rw [List.any_eq_false]
  intro reg hreg
  simp [h reg hreg]

theorem tbx_loop_complete (w : World) (args : args_t) (download : Int) (tbx : tbx_t)
    (reg_idx : Option regidx_t) (seq : List String)
    (hs : TextScan w args download tbx reg_idx seq) (regs : List String)
    (h : reads_complete w args download regs) :
    (tbx_regions_loop w tbx reg_idx seq regs).2 = none := by
  rw [tbx_regions_loop_snd, any_false_of_forall _ _ (h.1 tbx hs.index)]
  rfl

theorem bcf_loop_complete (w : World) (args : args_t) (download : Int) (idx : hts_idx_t)
    (hdr : bcf_hdr_t) (reg_idx : Option regidx_t)
    (hs : BcfScan w args download idx hdr reg_idx) (regs : List String)
    (h : reads_complete w args download regs) :
    (bcf_regions_loop w idx hdr reg_idx regs).2 = none := by
  have h2 := h.2 idx hdr reg_idx hs.index hs.header hs.targets
  rw [bcf_regions_loop_snd w idx hdr reg_idx regs (fun r hr => (h2 r hr).2),
    any_false_of_forall _ _ (fun r hr => (h2 r hr).1)]
  rfl

/-- C4: when reading meets no failure on the regions of `r1`, the records written
for `r1` followed by `r2` are those written for `r1` followed by those written
for `r2`; in particular a region listed twice has its records written twice. -/
theorem query_regions_concat (w : World) (args : args_t) (r1 r2 : List String) (download : Int)
    (h : reads_complete w args download r1) :
    records (query_regions w args (r1 ++ r2) download).stdout
      = records (query_regions w args r1 download).stdout
        ++ records (query_regions w args r2 download).stdout := by
  rcases query_regions_cases w args download with ⟨tbx, reg_idx, seq, hs⟩ |
    ⟨idx, hdr, reg_idx, hs⟩ | ⟨o, hrec, hconst⟩
  · have hc := tbx_loop_complete w args download tbx reg_idx seq hs r1 h
    simp only [query_regions_text w args download tbx reg_idx seq hs, stdout_exit_or_finish,
      tbx_regions_loop_append, hc, records_append, query_finish_stdout, records_print_header_lines,
      records_tbx_regions_loop, List.nil_append]
  · have hc := bcf_loop_complete w args download idx hdr reg_idx hs r1 h
    simp only [query_regions_bcf w args download idx hdr reg_idx hs, stdout_exit_or_finish,
      bcf_regions_loop_append, hc, records_append, query_finish_stdout, records_bcf_header_out,
      records_bcf_regions_loop, List.nil_append]
  · simp only [hconst, hrec, List.append_nil]

theorem demo_tbx_last (format : htsExactFormat) (reg : String) (itr : hts_itr_t tbx_rec)
    (h : tbx_itr_querys (demo_world format) demo_tbx reg = some itr) : itr.last = -1 := by
  unfold tbx_itr_querys at h
  cases hp : (demo_world format).parseRegionSpecifier reg with
  | none =>
    rw [hp] at h
    exact absurd h (by simp)
  | some r =>
    rw [hp] at h
    simp only [demo_tbx] at h
    by_cases hs : r.seq = "chr1"
    · simp only [hs, if_true, Option.some.injEq] at h
      rw [← h]
    · simp only [hs, if_false] at h
      exact absurd h (by simp)

theorem demo_idx_last (format : htsExactFormat) (reg : String) (itr : hts_itr_t bcf1_t)
    (h : bcf_itr_querys (demo_world format) demo_idx reg = some itr) : itr.last = -1 := by
  unfold bcf_itr_querys at h
  cases hp : (demo_world format).parseRegionSpecifier reg with
  | none =>
    rw [hp] at h
    exact absurd h (by simp)
  | some r =>
    rw [hp] at h
    simp only [demo_idx] at h
    by_cases hs : r.seq = "chr1"
    · simp only [hs, if_true, Option.some.injEq] at h
      rw [← h]
    · simp only [hs, if_false] at h
      exact absurd h (by simp)

theorem demo_reads_complete (args : args_t) (regs : List String) :
    reads_complete (demo_world .vcf) args 0 regs := by
  refine ⟨fun tbx htbx reg _ => ?_, fun idx hdr reg_idx hidx hhdr _ reg _ => ?_⟩
  · simp only [demo_world, Option.some.injEq] at htbx
    subst htbx
    cases hq : tbx_itr_querys (demo_world .vcf) demo_tbx reg with
    | none => rfl
    | some itr => simp [read_fails, demo_tbx_last _ _ _ hq]
  · simp only [demo_world, Option.some.injEq] at hidx hhdr
    subst hidx hhdr
    refine ⟨?_, demo_contigs_known _ reg_idx reg⟩
    cases hq : bcf_itr_querys (demo_world .vcf) demo_idx reg with
    | none => rfl
    | some itr => simp [read_fails, demo_idx_last _ _ _ hq]

/-- The first record overlaps both `chr1:15-16` and `chr1:1-200`: querying the two
regions in a row writes it twice. -/
theorem query_regions_concat_witness :
    reads_complete (demo_world .vcf) (demo_args none) 0 ["chr1:15-16"]
    ∧ records (query_regions (demo_world .vcf) (demo_args none)
        (["chr1:15-16"] ++ ["chr1:1-200"]) 0).stdout
      = [.line "chr1\t11\t20", .line "chr1\t11\t20", .line "chr1\t101\t110"] :=
  ⟨demo_reads_complete _ _,
   (query_regions_concat (demo_world .vcf) (demo_args none) ["chr1:15-16"] ["chr1:1-200"] 0
      (demo_reads_complete _ _)).trans (by decide)⟩

/-- C5 (the code at a CRAM file): when the detected format is `cram` and nothing
else fails, `query_regions` returns 0 without a message and without a record. -/
theorem query_regions_cram (w : World) (args : args_t) (regs : List String) (download : Int)
    (reg_idx : Option regidx_t) (hopen : w.hts_open = some .cram)
    (htargets : load_targets w args = some reg_idx) (hclose : w.hts_close = 0) :
    query_regions w args regs download = ⟨[], .returned 0⟩ := by
  simp [query_regions, hopen, htargets, is_text_branch, query_finish, hclose]

/-- A CRAM file queried for `chr1:1-200`: the run returns 0 and writes nothing. -/
theorem query_regions_cram_witness :
    (demo_world .cram).hts_open = some .cram
    ∧ load_targets (demo_world .cram) (demo_args none) = some none
    ∧ (demo_world .cram).hts_close = 0
    ∧ query_regions (demo_world .cram) (demo_args none) ["chr1:1-200"] 0
        = ⟨[], .returned 0⟩ :=
  ⟨rfl, rfl, rfl,
   query_regions_cram (demo_world .cram) (demo_args none) ["chr1:1-200"] 0 none rfl rfl rfl⟩

theorem query_regions_skip (w : World) (args : args_t) (pre : List String) (reg : String)
    (post : List String) (download : Int) (h : no_iterator w download reg) :
    query_regions w args (pre ++ reg :: post) download
      = query_regions w args (pre ++ post) download := by
  rcases query_regions_cases w args download with ⟨tbx, reg_idx, seq, hs⟩ |
    ⟨idx, hdr, reg_idx, hs⟩ | ⟨o, _, hconst⟩
  · have hq := h.1 tbx hs.index
    have hstep : tbx_regions_loop w tbx reg_idx seq (reg :: post)
        = tbx_regions_loop w tbx reg_idx seq post := by
      simp only [tbx_regions_loop, hq]
    simp only [query_regions_text w args download tbx reg_idx seq hs, tbx_regions_loop_append,
      hstep]
  · have hq := h.2 idx hs.index
    have hstep : bcf_regions_loop w idx hdr reg_idx (reg :: post)
        = bcf_regions_loop w idx hdr reg_idx post := by
      simp only [bcf_regions_loop, hq]
    simp only [query_regions_bcf w args download idx hdr reg_idx hs, bcf_regions_loop_append,
      hstep]
  · rw [hconst, hconst]

/-- C7: a region for which no iterator can be built changes nothing: the run
with it equals the run without it; and when reading meets no failure on the
other regions and the input closes, the run writes the header and the records of
the other regions, in order, and returns 0. -/
theorem query_regions_no_iterator (w : World) (args : args_t) (pre : List String) (reg : String)
    (post : List String) (download : Int) (h : no_iterator w download reg) :
    query_regions w args (pre ++ reg :: post) download
      = query_regions w args (pre ++ post) download
    ∧ (reads_complete w args download (pre ++ post) → w.hts_close = 0 →
      (∀ tbx reg_idx seq, TextScan w args download tbx reg_idx seq →
        query_regions w args (pre ++ reg :: post) download
          = ⟨(print_header_lines w args tbx).1
              ++ (pre ++ post).flatMap (tbx_region_out w tbx reg_idx seq), .returned 0⟩)
      ∧ (∀ idx hdr reg_idx, BcfScan w args download idx hdr reg_idx →
        query_regions w args (pre ++ reg :: post) download
          = ⟨bcf_header_out args hdr
              ++ (pre ++ post).flatMap (bcf_region_out w idx hdr reg_idx), .returned 0⟩)) := by
  refine ⟨query_regions_skip w args pre reg post download h, fun hc hclose => ⟨?_, ?_⟩⟩
  · intro tbx reg_idx seq hs
    rw [query_regions_skip w args pre reg post download h,
      query_regions_text w args download tbx reg_idx seq hs,
      tbx_loop_complete w args download tbx reg_idx seq hs _ hc, tbx_regions_loop_fst,
      regions_scanned_complete _ _ (hc.1 tbx hs.index)]
    simp [query_finish, hclose]
  · intro idx hdr reg_idx hs
    have h2 := hc.2 idx hdr reg_idx hs.index hs.header hs.targets
    rw [query_regions_skip w args pre reg post download h,
      query_regions_bcf w args download idx hdr reg_idx hs,
      bcf_loop_complete w args download idx hdr reg_idx hs _ hc,
      bcf_regions_loop_fst w idx hdr reg_idx _ (fun r hr => (h2 r hr).2),
      regions_scanned_complete _ _ (fun r hr => (h2 r hr).1)]
    simp [query_finish, hclose]

theorem demo_no_iterator_chr2 : no_iterator (demo_world .vcf) 0 "chr2:1-10" := by
  refine ⟨fun tbx htbx => ?_, fun idx hidx => ?_⟩
  · simp only [demo_world, Option.some.injEq] at htbx
    subst htbx
    decide
  · simp only [demo_world, Option.some.injEq] at hidx
    subst hidx
    decide

/-- The index holds no sequence `chr2`: the region `chr2:1-10` is passed over
and the records of `chr1:1-200`, listed after it, are written; the run returns 0. -/
theorem query_regions_no_iterator_witness :
    no_iterator (demo_world .vcf) 0 "chr2:1-10"
    ∧ query_regions (demo_world .vcf) (demo_args none) ([] ++ "chr2:1-10" :: ["chr1:1-200"]) 0
      = ⟨[.line "chr1\t11\t20", .line "chr1\t101\t110"], .returned 0⟩ :=
  ⟨demo_no_iterator_chr2,
   ((query_regions_no_iterator (demo_world .vcf) (demo_args none) [] "chr2:1-10"
      ["chr1:1-200"] 0 demo_no_iterator_chr2).1).trans (by decide)⟩

/-- C8 as stated fails: `chr1:x-y` does not parse, and the query that holds only
this specifier returns 0 with no error. -/
theorem query_regions_malformed_counterexample :
    (demo_world .vcf).parseRegionSpecifier "chr1:x-y" = none
    ∧ query_regions (demo_world .vcf) (demo_args none) ["chr1:x-y"] 0 = ⟨[], .returned 0⟩ := by
  decide

/-- C8, amended: a malformed region specifier gives no iterator and is passed
over like a region the index does not hold: the run with it equals the run
without it, so it adds no record and no error. -/
theorem query_regions_malformed_skipped (w : World) (args : args_t) (pre : List String)
    (reg : String) (post : List String) (download : Int)
    (h : w.parseRegionSpecifier reg = none) :
    query_regions w args (pre ++ reg :: post) download
      = query_regions w args (pre ++ post) download :=
  query_regions_skip w args pre reg post download
    ⟨fun tbx _ => by simp only [tbx_itr_querys, h], fun idx _ => by simp only [bcf_itr_querys, h]⟩

/-- The malformed `chr1:x-y` between two good regions: the result is that of the
two good regions alone. -/
theorem query_regions_malformed_skipped_witness :
    (demo_world .vcf).parseRegionSpecifier "chr1:x-y" = none
    ∧ query_regions (demo_world .vcf) (demo_args none)
        (["chr1:15-16"] ++ "chr1:x-y" :: ["chr1:1-200"]) 0
      = query_regions (demo_world .vcf) (demo_args none) (["chr1:15-16"] ++ ["chr1:1-200"]) 0 :=
  ⟨by decide,
   query_regions_malformed_skipped (demo_world .vcf) (demo_args none) ["chr1:15-16"] "chr1:x-y"
     ["chr1:1-200"] 0 (by decide)⟩

/-- C9: when the index of the file cannot be loaded, in the text branch and in the
binary-variant branch alike, `query_regions` ends in a failure and has written
nothing, whatever the flags and the regions. -/
theorem query_regions_index_failure (w : World) (args : args_t) (regs : List String)
    (download : Int) (format : htsExactFormat) (hopen : w.hts_open = some format)
    (h : (format = .bcf ∧ w.bcf_index_load3 (index_flags download) = none)
      ∨ (is_text_branch format = true ∧ w.tbx_index_load3 (index_flags download) = none)) :
    (query_regions w args regs download).stdout = []
    ∧ ∃ msg, (query_regions w args regs download).status = .exited msg := by
  cases htargets : load_targets w args with
  | none => simp [query_regions, hopen, htargets]
  | some reg_idx =>
    rcases h with ⟨hf, hidx⟩ | ⟨hf, hidx⟩
    · subst hf
      simp [query_regions, hopen, htargets, hidx]
    · have hbcf : format ≠ .bcf := by
        intro hb
        rw [hb] at hf
        exact absurd hf (by decide)
      simp [query_regions, hopen, htargets, hidx, hbcf, hf]

/-- With the header asked for and no index to load, nothing is written, in the
text branch and in the binary-variant branch. -/
theorem query_regions_index_failure_witness :
    (query_regions (demo_world_no_index .vcf) ⟨none, none, 1, 0, 0⟩ ["chr1:1-200"] 0).stdout = []
    ∧ (query_regions (demo_world_no_index .bcf) ⟨none, none, 1, 0, 0⟩ ["chr1:1-200"] 0).stdout
        = [] :=
  ⟨(query_regions_index_failure (demo_world_no_index .vcf) ⟨none, none, 1, 0, 0⟩ ["chr1:1-200"] 0
      .vcf rfl (Or.inr ⟨rfl, rfl⟩)).1,
   (query_regions_index_failure (demo_world_no_index .bcf) ⟨none, none, 1, 0, 0⟩ ["chr1:1-200"] 0
      .bcf rfl (Or.inl ⟨rfl, rfl⟩)).1⟩

theorem query_finish_status (w : World) (a b : List Emitted) :
    (query_finish w a).status = (query_finish w b).status := by
  unfold query_finish
  split <;> rfl

/-- C10: when reading meets no failure on the regions of `pre` and the iterator
of the next region `reg` ends with a code below `-1`, the run ends with the
failure "Reading failed"; it has written what the query for `pre` alone writes,
then the records of `reg` that pass the filter, and nothing for the regions of
`post`.  When the iterator ends with exactly `-1` the run goes on: the records
of `post` follow and the run ends as the query for `post` ends. -/
theorem query_regions_read_failure (w : World) (args : args_t) (pre : List String) (reg : String)
    (post : List String) (download : Int) (hpre : reads_complete w args download pre) :
    (∀ tbx reg_idx seq itr, TextScan w args download tbx reg_idx seq →
      tbx_itr_querys w tbx reg = some itr →
      (itr.last < -1 →
        query_regions w args (pre ++ reg :: post) download
          = ⟨(query_regions w args pre download).stdout ++ tbx_region_out w tbx reg_idx seq reg,
              .exited "Reading failed"⟩)
      ∧ (itr.last = -1 →
        (query_regions w args (pre ++ reg :: post) download).stdout
          = (query_regions w args pre download).stdout ++ tbx_region_out w tbx reg_idx seq reg
            ++ records (query_regions w args post download).stdout
        ∧ (query_regions w args (pre ++ reg :: post) download).status
          = (query_regions w args post download).status))
    ∧ (∀ idx hdr reg_idx itr, BcfScan w args download idx hdr reg_idx →
      bcf_itr_querys w idx reg = some itr → contigs_known w idx hdr reg_idx reg →
      (itr.last < -1 →
        query_regions w args (pre ++ reg :: post) download
          = ⟨(query_regions w args pre download).stdout ++ bcf_region_out w idx hdr reg_idx reg,
              .exited "Reading failed"⟩)
      ∧ (itr.last = -1 →
        (query_regions w args (pre ++ reg :: post) download).stdout
          = (query_regions w args pre download).stdout ++ bcf_region_out w idx hdr reg_idx reg
            ++ records (query_regions w args post download).stdout
        ∧ (query_regions w args (pre ++ reg :: post) download).status
          = (query_regions w args post download).status)) := by
  refine ⟨fun tbx reg_idx seq itr hs hq => ?_, fun idx hdr reg_idx itr hs hq hk => ?_⟩
  · have hc := tbx_loop_complete w args download tbx reg_idx seq hs pre hpre
    have hout : tbx_region_out w tbx reg_idx seq reg = tbx_itr_loop reg_idx seq itr.recs := by
      simp only [tbx_region_out, hq, tbx_itr_loop_eq]
    refine ⟨fun hl => ?_, fun hl => ?_⟩
    · have hstep : tbx_regions_loop w tbx reg_idx seq (reg :: post)
          = (tbx_itr_loop reg_idx seq itr.recs, some "Reading failed") := by
        simp only [tbx_regions_loop, hq, hl, if_true]
      simp only [query_regions_text w args download tbx reg_idx seq hs, tbx_regions_loop_append,
        hc, hstep, hout, query_finish_stdout, List.append_assoc]
    · have hn : ¬ itr.last < -1 := by omega
      have hstep : tbx_regions_loop w tbx reg_idx seq (reg :: post)
          = (tbx_itr_loop reg_idx seq itr.recs ++ (tbx_regions_loop w tbx reg_idx seq post).1,
              (tbx_regions_loop w tbx reg_idx seq post).2) := by
        simp only [tbx_regions_loop, hq, hn, if_false]
      simp only [query_regions_text w args download tbx reg_idx seq hs, tbx_regions_loop_append,
        hc, hstep, hout, query_finish_stdout, stdout_exit_or_finish, records_append,
        records_print_header_lines, records_tbx_regions_loop, List.nil_append, List.append_assoc,
        true_and]
      cases (tbx_regions_loop w tbx reg_idx seq post).2 with
      | none => exact query_finish_status w _ _
      | some msg => rfl
  · have hc := bcf_loop_complete w args download idx hdr reg_idx hs pre hpre
    have hloop := bcf_itr_loop_eq hdr reg_idx itr.recs (fun hne => hk hne itr hq)
    have hout : bcf_region_out w idx hdr reg_idx reg = (bcf_itr_loop hdr reg_idx itr.recs).1 := by
      simp only [bcf_region_out, hq, hloop]
    have hnone : (bcf_itr_loop hdr reg_idx itr.recs).2 = none := by rw [hloop]
    refine ⟨fun hl => ?_, fun hl => ?_⟩
    · have hstep : bcf_regions_loop w idx hdr reg_idx (reg :: post)
          = ((bcf_itr_loop hdr reg_idx itr.recs).1, some "Reading failed") := by
        simp only [bcf_regions_loop, hq, hnone, hl, if_true]
      simp only [query_regions_bcf w args download idx hdr reg_idx hs, bcf_regions_loop_append,
        hc, hstep, hout, query_finish_stdout, List.append_assoc]
    · have hn : ¬ itr.last < -1 := by omega
      have hstep : bcf_regions_loop w idx hdr reg_idx (reg :: post)
          = ((bcf_itr_loop hdr reg_idx itr.recs).1 ++ (bcf_regions_loop w idx hdr reg_idx post).1,
              (bcf_regions_loop w idx hdr reg_idx post).2) := by
        simp only [bcf_regions_loop, hq, hnone, hn, if_false]
      simp only [query_regions_bcf w args download idx hdr reg_idx hs, bcf_regions_loop_append,
        hc, hstep, hout, query_finish_stdout, stdout_exit_or_finish, records_append,
        records_bcf_header_out, records_bcf_regions_loop, List.nil_append, List.append_assoc,
        true_and]
      cases (bcf_regions_loop w idx hdr reg_idx post).2 with
      | none => exact query_finish_status w _ _
      | some msg => rfl

theorem demo_failing_scan :
    TextScan demo_world_failing (demo_args none) 0 demo_tbx_failing none [] :=
  ⟨⟨.vcf, rfl, rfl⟩, rfl, rfl, by decide, rfl, rfl⟩

theorem demo_failing_reads_complete :
    reads_complete demo_world_failing (demo_args none) 0 ["chr1:1-200"] := by
  refine ⟨fun tbx htbx reg hreg => ?_, fun idx hdr reg_idx hidx hhdr _ reg hreg => ?_⟩
  · simp only [demo_world_failing, Option.some.injEq] at htbx
    subst htbx
    simp only [List.mem_singleton] at hreg
    subst hreg
    decide
  · simp only [demo_world_failing, demo_world, Option.some.injEq] at hidx hhdr
    subst hidx hhdr
    simp only [List.mem_singleton] at hreg
    subst hreg
    exact ⟨by decide, demo_contigs_known _ reg_idx _⟩

/-- Reading fails with `-2` on the second of three regions, after its first
record: the two records of the first region and that record stay written, the
run ends with "Reading failed", and the third region adds nothing. -/
theorem query_regions_read_failure_witness :
    reads_complete demo_world_failing (demo_args none) 0 ["chr1:1-200"]
    ∧ query_regions demo_world_failing (demo_args none)
        (["chr1:1-200"] ++ "chr1:15-16" :: ["chr1:1-200"]) 0
      = ⟨[.line "chr1\t11\t20", .line "chr1\t101\t110", .line "chr1\t11\t20"],
          .exited "Reading failed"⟩ :=
  ⟨demo_failing_reads_complete,
   (((query_regions_read_failure demo_world_failing (demo_args none) ["chr1:1-200"] "chr1:15-16"
      ["chr1:1-200"] 0 demo_failing_reads_complete).1 demo_tbx_failing none []
      ⟨[⟨0, 10, 20, "chr1\t11\t20"⟩], -2⟩ demo_failing_scan (by decide)).1 (by decide)).trans
      (by decide)⟩

/-! ### `reheader_file`: the search for the data block -/

theorem block_rest_cons (fp : BGZF) (s : Nat) (h : s < fp.block_length) :
    block_rest fp s = fp.uncompressed_block s :: block_rest fp (s + 1) := by
  unfold block_rest
  have hlen : fp.block_length - s = (fp.block_length - (s + 1)) + 1 := by omega
  rw [hlen, List.range_succ_eq_map, List.map_cons, List.map_map]
  congr 1
  apply List.map_congr_left
  intro i _
  simp only [Function.comp, Nat.succ_eq_add_one]
  congr 1
  omega

theorem block_rest_nil (fp : BGZF) (s : Nat) (h : fp.block_length ≤ s) :
    block_rest fp s = [] := by
  unfold block_rest
  have hlen : fp.block_length - s = 0 := by omega
  rw [hlen]
  rfl

theorem map_range_getD (l : List Char) (d : Nat → Char) :
    (List.range l.length).map (fun i => l.getD i (d i)) = l := by
  induction l generalizing d with
  | nil => rfl
  | cons a l ih =>
    rw [List.length_cons, List.range_succ_eq_map, List.map_cons, List.map_map]
    have := ih (fun i => d (i + 1))
    rw [List.getD_cons_zero]
    exact congrArg (List.cons a) this

theorem block_rest_read (rest : List Frame) (buf : Nat → Char) (n : Nat) (l : List Char) :
    block_rest (bgzf_read_block ⟨some l :: rest, buf, n⟩).2 0 = l := by
  simp only [bgzf_read_block, block_rest, Nat.sub_zero, Nat.zero_add]
  exact map_range_getD l buf

/-- One step of the scan inside a payload: the byte read is the head of the
remaining content, and `next_block` either reports the end of the file, when
nothing follows, or moves to the next byte of the content. -/
theorem next_block_step (fp : BGZF) (s : Nat) (h : in_payload fp s) :
    ∃ rest, remaining fp s = fp.uncompressed_block s :: rest
      ∧ ((rest = [] ∧ next_block fp (s + 1) = none)
        ∨ (rest ≠ [] ∧ ∃ fp2 s2, next_block fp (s + 1) = some (fp2, s2)
            ∧ in_payload fp2 s2 ∧ remaining fp2 s2 = rest)) := by
  obtain ⟨hs, hblocks⟩ := h
  refine ⟨block_rest fp (s + 1) ++ fp.blocks.flatMap (fun f => f.getD []), ?_, ?_⟩
  · simp only [remaining, block_rest_cons fp s hs, List.cons_append]
  · by_cases hnext : s + 1 < fp.block_length
    · right
      refine ⟨?_, fp, s + 1, ?_, ⟨hnext, hblocks⟩, rfl⟩
      · rw [block_rest_cons fp (s + 1) hnext]
        simp
      · simp only [next_block, ge_iff_le, Nat.not_le.mpr hnext, if_false]
    · have hge : fp.block_length ≤ s + 1 := by omega
      rw [block_rest_nil fp (s + 1) hge, List.nil_append]
      cases hb : fp.blocks with
      | nil =>
        left
        refine ⟨rfl, ?_⟩
        simp [next_block, hge, bgzf_read_block, hb]
      | cons f rest =>
        obtain ⟨l, hl, hne⟩ := hblocks f (by rw [hb]; exact List.mem_cons_self _ _)
        subst hl
        right
        have hlen : l.length ≠ 0 := fun h0 => hne (List.length_eq_zero.mp h0)
        refine ⟨by simp [hne], ?_⟩
        refine ⟨(bgzf_read_block fp).2, 0, ?_, ⟨?_, ?_⟩, ?_⟩
        · simp [next_block, hge, bgzf_read_block, hb, hlen]
        · simp only [bgzf_read_block, hb]
          omega
        · intro g hg
          apply hblocks g
          rw [hb]
          simp only [bgzf_read_block, hb] at hg
          exact List.mem_cons_of_mem _ hg
        · have hfp : fp = ⟨some l :: rest, fp.uncompressed_block, fp.block_length⟩ := by
            cases fp
            simp only at hb
            simp [hb]
          rw [hfp]
          simp only [remaining, block_rest_read]
          simp [bgzf_read_block]

theorem next_block_measure (fp : BGZF) (s : Nat) (fp2 : BGZF) (s2 : Nat)
    (h : next_block fp (s + 1) = some (fp2, s2)) : scan_measure fp2 s2 < scan_measure fp s := by
  unfold next_block at h
  by_cases hge : s + 1 ≥ fp.block_length
  · rw [if_pos hge] at h
    cases hb : fp.blocks with
    | nil => simp [bgzf_read_block, hb] at h
    | cons f rest =>
      cases f with
      | none => simp [bgzf_read_block, hb] at h
      | some l =>
        simp only [bgzf_read_block, hb] at h
        split at h
        · exact absurd h (by simp)
        · simp only [Option.some.injEq, Prod.mk.injEq] at h
          obtain ⟨h1, h2⟩ := h
          subst h1 h2
          simp only [scan_measure, hb, List.map_cons, List.sum_cons, Option.getD_some]
          omega
  · rw [if_neg hge] at h
    simp only [Option.some.injEq, Prod.mk.injEq] at h
    obtain ⟨h1, h2⟩ := h
    subst h1 h2
    simp only [scan_measure]
    omega

theorem skip_loop_fuel (meta_char : Int) :
    ∀ (fuel : Nat) (fp : BGZF) (s : Nat), scan_measure fp s < fuel →
      skip_loop meta_char fuel fp s ≠ .out_of_fuel := by
  intro fuel
  induction fuel with
  | zero => intro fp s h; exact absurd h (Nat.not_lt_zero _)
  | succ fuel ih =>
    intro fp s h
    unfold skip_loop
    split
    · cases h1 : next_block fp (s + 1) with
      | none => simp
      | some p1 =>
        obtain ⟨fp1, s1⟩ := p1
        have m1 := next_block_measure fp s fp1 s1 h1
        simp only
        split
        · simp
        · cases h2 : next_block fp1 (s1 + 1) with
          | none => simp
          | some p2 =>
            obtain ⟨fp2, s2⟩ := p2
            have m2 := next_block_measure fp1 s1 fp2 s2 h2
            exact ih fp2 s2 (by omega)
    · cases h1 : next_block fp (s + 1) with
      | none => simp
      | some p1 =>
        obtain ⟨fp1, s1⟩ := p1
        have m1 := next_block_measure fp s fp1 s1 h1
        exact ih fp1 s1 (by omega)

/-- The step bound is never used up: the search for the data block ends by
itself, at a position or with the "No body" error, on every input. -/
theorem skip_header_terminates (meta_char : Int) (fp : BGZF) :
    skip_header meta_char fp ≠ .out_of_fuel := by
  unfold skip_header
  split
  · apply skip_loop_fuel
    simp only [scan_measure, scan_fuel]
    omega
  · simp

theorem skip_loop_header (meta_char : Int) (hmeta : meta_char ≠ plain_char '\n') (B : List Char)
    (hB : B ≠ []) (hB0 : B.head?.map plain_char ≠ some meta_char) :
    ∀ (fuel : Nat) (H : List (List Char)) (t : List Char) (fp : BGZF) (s : Nat),
      (∀ l ∈ H, is_header_line meta_char l) → '\n' ∉ t → in_payload fp s →
      remaining fp s = t ++ '\n' :: (H.flatten ++ B) → (remaining fp s).length < fuel →
      ∃ fp2 s2, skip_loop meta_char fuel fp s = .found fp2 s2 ∧ in_payload fp2 s2
        ∧ remaining fp2 s2 = B := by
  intro fuel
  induction fuel with
  | zero => intro H t fp s _ _ _ _ h; exact absurd h (Nat.not_lt_zero _)
  | succ fuel ih =>
    intro H t fp s hH ht hin hrem hfuel
    obtain ⟨rest, hcons, hcase⟩ := next_block_step fp s hin
    rw [hcons] at hrem hfuel
    cases t with
    | nil =>
      simp only [List.nil_append, List.cons.injEq] at hrem
      obtain ⟨hc, hrest⟩ := hrem
      have hne : rest ≠ [] := by
        rw [hrest]
        simp [hB]
      rcases hcase with ⟨hnil, _⟩ | ⟨_, fp1, s1, hnext, hin1, hrem1⟩
      · exact absurd hnil hne
      · obtain ⟨rest1, hcons1, hcase1⟩ := next_block_step fp1 s1 hin1
        rw [hrem1, hrest] at hcons1
        cases H with
        | nil =>
          simp only [List.flatten_nil, List.nil_append] at hcons1
          refine ⟨fp1, s1, ?_, hin1, by rw [hrem1, hrest]; simp⟩
          have hb : plain_char (fp1.uncompressed_block s1) ≠ meta_char := by
            intro hb
            rw [hcons1] at hB0
            simp only [List.head?_cons, Option.map_some'] at hB0
            exact hB0 (congrArg some hb)
          unfold skip_loop
          simp only [hc, if_true, hnext, hb, ne_eq, not_false_eq_true]
        | cons l H2 =>
          obtain ⟨body, hl, hbody, hhead⟩ := hH l (List.mem_cons_self _ _)
          cases body with
          | nil =>
            rw [hl] at hhead
            simp only [List.nil_append, List.head?_cons, Option.map_some', Option.some.injEq] at hhead
            exact absurd hhead.symm hmeta
          | cons c t2 =>
            rw [hl] at hhead
            simp only [List.cons_append, List.head?_cons, Option.map_some', Option.some.injEq] at hhead
            subst hhead
            rw [hl] at hcons1
            simp only [List.flatten_cons, List.cons_append, List.append_assoc,
              List.singleton_append, List.cons.injEq] at hcons1
            obtain ⟨hc1, hrest1⟩ := hcons1
            have hne1 : rest1 ≠ [] := by
              rw [← hrest1]
              simp
            rcases hcase1 with ⟨hnil1, _⟩ | ⟨_, fp2, s2, hnext2, hin2, hrem2⟩
            · exact absurd hnil1 hne1
            · have hstep : skip_loop (plain_char c) (fuel + 1) fp s
                  = skip_loop (plain_char c) fuel fp2 s2 := by
                rw [skip_loop]
                simp only [hc, if_true, hnext, ← hc1, ne_eq, not_true_eq_false, if_false, hnext2]
              rw [hstep]
              apply ih H2 t2 fp2 s2 (fun l hl => hH l (List.mem_cons_of_mem _ hl))
                (fun hmem => hbody (List.mem_cons_of_mem _ hmem)) hin2
              · rw [hrem2, ← hrest1]
                rfl
              · rw [hrem2]
                have : rest.length = rest1.length + 1 := by
                  rw [hrest, hl, ← hrest1]
                  simp
                simp only [List.length_cons] at hfuel
                omega
    | cons c t2 =>
      simp only [List.cons_append, List.cons.injEq] at hrem
      obtain ⟨hc, hrest⟩ := hrem
      have hcn : c ≠ '\n' := fun h => ht (by rw [h]; exact List.mem_cons_self _ _)
      have hne : rest ≠ [] := by
        rw [hrest]
        simp
      rcases hcase with ⟨hnil, _⟩ | ⟨_, fp2, s2, hnext, hin2, hrem2⟩
      · exact absurd hnil hne
      · have hstep : skip_loop meta_char (fuel + 1) fp s = skip_loop meta_char fuel fp2 s2 := by
          rw [skip_loop]
          simp only [hc, hcn, if_false, hnext]
        rw [hstep]
        apply ih H t2 fp2 s2 hH (fun hmem => ht (List.mem_cons_of_mem _ hmem)) hin2
        · rw [hrem2, hrest]
        · rw [hrem2]
          simp only [List.length_cons] at hfuel
          omega

theorem remaining_length_lt_fuel (fp : BGZF) (s : Nat) :
    (remaining fp s).length < scan_fuel fp := by
  have h1 : (block_rest fp s).length ≤ fp.block_length := by
    simp only [block_rest, List.length_map, List.length_range]
    omega
  have h2 : ∀ bs : List Frame, (bs.flatMap fun f => f.getD []).length
      ≤ (bs.map fun b => (b.getD []).length + 1).sum := by
    intro bs
    induction bs with
    | nil => simp
    | cons b bs ih =>
      simp only [List.flatMap_cons, List.length_append, List.map_cons, List.sum_cons]
      omega
  have h3 := h2 fp.blocks
  simp only [remaining, List.length_append, scan_fuel]
  omega

theorem flatMap_map_some (frames : List (List Char)) :
    ((frames.map some).flatMap fun f => f.getD []) = frames.flatten := by
  induction frames with
  | nil => rfl
  | cons r rs ih => simp [List.flatMap_cons, ih]

theorem output_content_append (a b : List Event) :
    output_content (a ++ b) = output_content a ++ output_content b := by
  simp [output_content]

theorem output_content_writes (ws : List (List Char)) :
    output_content (ws.map Event.write) = ws.flatten := by
  induction ws with
  | nil => rfl
  | cons w ws ih =>
    rw [List.map_cons, List.flatten_cons, ← ih]
    simp [output_content]

/-- A run of `reheader_file` whose search for the data block stops at offset
`skip_until` of the frame loaded in `fp`: it returns 0, and the content of the
file it writes is the data of the header writes followed by the content of the
input from that position on. -/
theorem reheader_file_found (files : Files) (ftype : Int) (conf : tbx_conf_t)
    (frames : List Frame) (text : List Char) (fp : BGZF) (skip_until : Nat)
    (hftype : Int.land ftype IS_TXT ≠ 0 ∨ ftype = 0)
    (hin : files.input = some frames) (hhdr : files.header = some text)
    (hfirst : ¬ ((bgzf_read_block ⟨frames, files.memory, 0⟩).1 ≠ 0
      ∨ (bgzf_read_block ⟨frames, files.memory, 0⟩).2.block_length = 0))
    (hscan : skip_header conf.meta_char (bgzf_read_block ⟨frames, files.memory, 0⟩).2
      = .found fp skip_until) :
    (reheader_file files ftype conf).status = .returned 0
    ∧ output_content (reheader_file files ftype conf).events
      = (header_writes (text.length + 1) text).flatten ++ remaining fp skip_until := by
  simp only [reheader_file, if_pos hftype, hin, if_neg hfirst, hscan, hhdr, true_and]
  simp only [output_content_append, output_content_writes, remaining]
  have hrest : output_content (if fp.block_length - skip_until > 0
      then [Event.write (block_rest fp skip_until)] else []) = block_rest fp skip_until := by
    split
    · simp [output_content]
    · rw [block_rest_nil fp skip_until (by omega)]
      rfl
  rw [hrest]
  simp [output_content]

theorem body_offset_cons_false (meta_char : Int) (c : Char) (cs : List Char) :
    body_offset meta_char false (c :: cs)
      = (body_offset meta_char (c == '\n') cs).map (· + 1) := by
  simp [body_offset]

theorem body_offset_cons_ne (meta_char : Int) (c : Char) (cs : List Char)
    (h : plain_char c ≠ meta_char) :
    body_offset meta_char true (c :: cs) = some 0 := by
  simp [body_offset, h]

theorem body_offset_cons_meta (meta_char : Int) (c : Char) (cs : List Char) (b : Bool)
    (h : plain_char c = meta_char) :
    body_offset meta_char b (c :: cs)
      = (body_offset meta_char (c == '\n') cs).map (· + 1) := by
  simp [body_offset, h]

theorem not_newline_of_meta (meta_char : Int) (hmeta : meta_char ≠ plain_char '\n') (c : Char)
    (h : plain_char c = meta_char) : (c == '\n') = false := by
  have hc : c ≠ '\n' := by
    intro hc
    rw [hc] at h
    exact hmeta h.symm
  simpa using hc

/-- The loop of the scan against the boundary of the specification: started
inside a header line, in the payload of the loaded frame, it stops at the first
byte of the first line that does not begin with the meta character, and ends
with "No body" when there is no such line. -/
theorem skip_loop_spec (meta_char : Int) (hmeta : meta_char ≠ plain_char '\n') :
    ∀ (fuel : Nat) (fp : BGZF) (s : Nat), in_payload fp s → (remaining fp s).length < fuel →
      (∀ k, body_offset meta_char false (remaining fp s) = some k →
        ∃ fp2 s2, skip_loop meta_char fuel fp s = .found fp2 s2 ∧ in_payload fp2 s2
          ∧ remaining fp2 s2 = (remaining fp s).drop k)
      ∧ (body_offset meta_char false (remaining fp s) = none →
        skip_loop meta_char fuel fp s = .no_body) := by
  intro fuel
  induction fuel with
  | zero => intro fp s _ h; exact absurd h (Nat.not_lt_zero _)
  | succ fuel ih =>
    intro fp s hin hfuel
    obtain ⟨rest, hcons, hcase⟩ := next_block_step fp s hin
    rw [hcons] at hfuel ⊢
    simp only [List.length_cons] at hfuel
    rw [body_offset_cons_false]
    by_cases hc : fp.uncompressed_block s = '\n'
    · have hcb : (fp.uncompressed_block s == '\n') = true := by simpa using hc
      rw [hcb]
      rcases hcase with ⟨hnil, hnone⟩ | ⟨_, fp1, s1, hnext, hin1, hrem1⟩
      · subst hnil
        refine ⟨fun k hk => by simp [body_offset] at hk, fun _ => ?_⟩
        rw [skip_loop]
        simp only [hc, if_true, hnone]
      · obtain ⟨rest1, hcons1, hcase1⟩ := next_block_step fp1 s1 hin1
        rw [hrem1] at hcons1
        by_cases hd : plain_char (fp1.uncompressed_block s1) = meta_char
        · rw [hcons1, body_offset_cons_meta _ _ _ _ hd, not_newline_of_meta meta_char hmeta _ hd]
          rcases hcase1 with ⟨hnil1, hnone1⟩ | ⟨_, fp2, s2, hnext2, hin2, hrem2⟩
          · subst hnil1
            refine ⟨fun k hk => by simp [body_offset] at hk, fun _ => ?_⟩
            rw [skip_loop]
            simp only [hc, if_true, hnext, hd, ne_eq, not_true_eq_false, if_false, hnone1]
          · have hstep : skip_loop meta_char (fuel + 1) fp s = skip_loop meta_char fuel fp2 s2 := by
              rw [skip_loop]
              simp only [hc, if_true, hnext, hd, ne_eq, not_true_eq_false, if_false, hnext2]
            have hlen : rest.length = rest1.length + 1 := by rw [hcons1]; rfl
            obtain ⟨ih1, ih2⟩ := ih fp2 s2 hin2 (by rw [hrem2]; omega)
            rw [hrem2] at ih1 ih2
            rw [hstep]
            refine ⟨fun k hk => ?_, fun hnone => ?_⟩
            · cases hb : body_offset meta_char false rest1 with
              | none => rw [hb] at hk; simp at hk
              | some k1 =>
                rw [hb] at hk
                simp only [Option.map_some', Option.some.injEq] at hk
                subst hk
                obtain ⟨fp3, s3, h1, h2, h3⟩ := ih1 k1 hb
                exact ⟨fp3, s3, h1, h2, by rw [h3]; rfl⟩
            · apply ih2
              cases hb : body_offset meta_char false rest1 with
              | none => rfl
              | some k1 => rw [hb] at hnone; simp at hnone
        · rw [hcons1, body_offset_cons_ne _ _ _ hd]
          refine ⟨fun k hk => ?_, fun hnone => by simp at hnone⟩
          simp only [Option.map_some', Option.some.injEq] at hk
          subst hk
          refine ⟨fp1, s1, ?_, hin1, by rw [hrem1, hcons1]; rfl⟩
          rw [skip_loop]
          simp only [hc, if_true, hnext, hd, ne_eq, not_false_eq_true]
    · have hcb : (fp.uncompressed_block s == '\n') = false := by simpa using hc
      rw [hcb]
      rcases hcase with ⟨hnil, hnone⟩ | ⟨_, fp2, s2, hnext, hin2, hrem2⟩
      · subst hnil
        refine ⟨fun k hk => by simp [body_offset] at hk, fun _ => ?_⟩
        rw [skip_loop]
        simp only [hc, if_false, hnone]
      · have hstep : skip_loop meta_char (fuel + 1) fp s = skip_loop meta_char fuel fp2 s2 := by
          rw [skip_loop]
          simp only [hc, if_false, hnext]
        obtain ⟨ih1, ih2⟩ := ih fp2 s2 hin2 (by rw [hrem2]; omega)
        rw [hrem2] at ih1 ih2
        rw [hstep]
        refine ⟨fun k hk => ?_, fun hnone => ?_⟩
        · cases hb : body_offset meta_char false rest with
          | none => rw [hb] at hk; simp at hk
          | some k1 =>
            rw [hb] at hk
            simp only [Option.map_some', Option.some.injEq] at hk
            subst hk
            obtain ⟨fp3, s3, h1, h2, h3⟩ := ih1 k1 hb
            exact ⟨fp3, s3, h1, h2, by rw [h3]; rfl⟩
        · apply ih2
          cases hb : body_offset meta_char false rest with
          | none => rfl
          | some k1 => rw [hb] at hnone; simp at hnone

/-- The search for the data block against the boundary of the specification, for
a meta character other than newline and a file of non-empty frames whose first
frame holds at least two bytes or does not begin with the meta character: the
search stops where the first line that does not begin with the meta character
starts, the same offset of the content for every such split and whatever lies
in the block buffer beforehand; without such a line it ends with "No body". -/
theorem skip_header_spec (meta_char : Int) (hmeta : meta_char ≠ plain_char '\n')
    (f0 : List Char) (rest : List (List Char)) (memory : Nat → Char)
    (hne : ∀ f ∈ f0 :: rest, f ≠ [])
    (hfirst : 2 ≤ f0.length ∨ f0.head?.map plain_char ≠ some meta_char) :
    (∀ p, body_offset meta_char true (f0 :: rest).flatten = some p →
      ∃ fp s, skip_header meta_char
          (bgzf_read_block (bgzf_open ((f0 :: rest).map some) memory)).2 = .found fp s
        ∧ in_payload fp s ∧ remaining fp s = (f0 :: rest).flatten.drop p)
    ∧ (body_offset meta_char true (f0 :: rest).flatten = none →
      skip_header meta_char
          (bgzf_read_block (bgzf_open ((f0 :: rest).map some) memory)).2 = .no_body) := by
  have hf0 : f0 ≠ [] := hne f0 (List.mem_cons_self _ _)
  have hlen0 : 0 < f0.length := List.length_pos.mpr hf0
  have hblocks : ∀ f ∈ (bgzf_read_block (bgzf_open ((f0 :: rest).map some) memory)).2.blocks,
      ∃ l, f = some l ∧ l ≠ [] := by
    intro f hf
    simp only [bgzf_open, List.map_cons, bgzf_read_block, List.mem_map] at hf
    obtain ⟨l, hl, rfl⟩ := hf
    exact ⟨l, rfl, hne l (List.mem_cons_of_mem _ hl)⟩
  have hblen : (bgzf_read_block (bgzf_open ((f0 :: rest).map some) memory)).2.block_length
      = f0.length := by
    simp [bgzf_open, bgzf_read_block]
  have hrem0 : remaining (bgzf_read_block (bgzf_open ((f0 :: rest).map some) memory)).2 0
      = (f0 :: rest).flatten := by
    simp only [bgzf_open, remaining, List.map_cons, block_rest_read, List.flatten_cons]
    congr 1
    simp only [bgzf_read_block]
    exact flatMap_map_some rest
  have hin0 : in_payload (bgzf_read_block (bgzf_open ((f0 :: rest).map some) memory)).2 0 :=
    ⟨by rw [hblen]; exact hlen0, hblocks⟩
  have hbuf0 : (bgzf_read_block (bgzf_open ((f0 :: rest).map some) memory)).2.uncompressed_block 0
      = f0.getD 0 (memory 0) := by
    simp [bgzf_open, bgzf_read_block]
  obtain ⟨rest0, hcons0, _⟩ := next_block_step _ 0 hin0
  rw [hrem0] at hcons0
  by_cases hb : plain_char
      ((bgzf_read_block (bgzf_open ((f0 :: rest).map some) memory)).2.uncompressed_block 0)
      = meta_char
  · have h2 : 2 ≤ f0.length := by
      rcases hfirst with h | h
      · exact h
      · exfalso
        apply h
        rw [hbuf0] at hb
        cases f0 with
        | nil => exact absurd rfl hf0
        | cons a t =>
          simp only [List.getD_cons_zero] at hb
          simp [hb]
    have hin1 : in_payload (bgzf_read_block (bgzf_open ((f0 :: rest).map some) memory)).2 1 :=
      ⟨by rw [hblen]; omega, hblocks⟩
    have hrem1 : remaining (bgzf_read_block (bgzf_open ((f0 :: rest).map some) memory)).2 1
        = rest0 := by
      have hr := hrem0
      rw [hcons0] at hr
      simp only [remaining] at hr ⊢
      rw [block_rest_cons _ 0 hin0.1] at hr
      simp only [List.cons_append, List.cons.injEq, true_and] at hr
      exact hr
    obtain ⟨s1, s2⟩ := skip_loop_spec meta_char hmeta
      (scan_fuel (bgzf_read_block (bgzf_open ((f0 :: rest).map some) memory)).2) _ 1 hin1
      (remaining_length_lt_fuel _ 1)
    rw [hrem1] at s1 s2
    rw [hcons0, body_offset_cons_meta _ _ _ _ hb, not_newline_of_meta meta_char hmeta _ hb]
    simp only [skip_header, hb, if_true]
    refine ⟨fun p hp => ?_, fun hnone => ?_⟩
    · cases hbo : body_offset meta_char false rest0 with
      | none => rw [hbo] at hp; simp at hp
      | some k =>
        rw [hbo] at hp
        simp only [Option.map_some', Option.some.injEq] at hp
        subst hp
        obtain ⟨fp, s, h1, h2, h3⟩ := s1 k hbo
        exact ⟨fp, s, h1, h2, by rw [h3]; rfl⟩
    · apply s2
      cases hbo : body_offset meta_char false rest0 with
      | none => rfl
      | some k => rw [hbo] at hnone; simp at hnone
  · rw [hcons0, body_offset_cons_ne _ _ _ hb]
    simp only [skip_header, hb, if_false]
    refine ⟨fun p hp => ?_, fun hnone => by simp at hnone⟩
    simp only [Option.some.injEq] at hp
    subst hp
    exact ⟨_, 0, rfl, hin0, by rw [hrem0, hcons0]; rfl⟩

/-- C2 (the code at a first frame of one byte): for the content `"#\nb\n"` the
first line that does not begin with `#` starts at offset 2.  Read as one frame,
the scan stops there.  Split as `"#"` and `"\nb\n"`, the scan reads offset 1 of
the block buffer although the frame holds one byte; when the byte left there is
a newline it stops at offset 1, on the newline that ends the header line, and
`reheader_file` writes `"\nb\n"` after the new header. -/
theorem skip_header_one_byte_frame :
    body_offset (plain_char '#') true "#\nb\n".toList = some 2
    ∧ scan_position [some "#\nb\n".toList]
        (skip_header (plain_char '#') (bgzf_read_block (bgzf_open [some "#\nb\n".toList]
          (fun i => if i = 1 then '\n' else 'x'))).2) = some 2
    ∧ scan_position [some "#".toList, some "\nb\n".toList]
        (skip_header (plain_char '#') (bgzf_read_block (bgzf_open [some "#".toList, some "\nb\n".toList]
          (fun i => if i = 1 then '\n' else 'x'))).2) = some 1
    ∧ output_content (reheader_file ⟨some [some "#".toList, some "\nb\n".toList],
        fun i => if i = 1 then '\n' else 'x', some "#new\n".toList⟩ 0 ⟨plain_char '#'⟩).events
      = "#new\n\nb\n".toList := by
  decide

/-- The scan at a `meta_char` from 128 to 255: for the content of the line that
begins with the byte 233 and the line `b`, with `meta_char` 233 no byte equals
it as a signed `char`, the scan stops at offset 0 and the whole old content
follows the new header; with `meta_char` -23, the value of that byte, the first
line is replaced. -/
theorem reheader_file_high_meta_char :
    plain_char '\xe9' = -23
    ∧ body_offset 233 true "\xe9a\nb\n".toList = some 0
    ∧ output_content (reheader_file ⟨some [some "\xe9a\nb\n".toList], fun _ => ' ',
        some "#new\n".toList⟩ 0 ⟨233⟩).events = "#new\n\xe9a\nb\n".toList
    ∧ output_content (reheader_file ⟨some [some "\xe9a\nb\n".toList], fun _ => ' ',
        some "#new\n".toList⟩ 0 ⟨-23⟩).events = "#new\nb\n".toList := by
  decide

/-! ### `reheader_file`: file types and handles -/

/-- The ends a run of `reheader_file` can take for a text file type: `-1` when
the input does not open, `-1` when its first frame is unreadable or empty, the
"No body" error, the error on the header file, or the splice that returns 0. -/
theorem reheader_file_cases (files : Files) (ftype : Int) (conf : tbx_conf_t)
    (hg : Int.land ftype IS_TXT ≠ 0 ∨ ftype = 0) :
    (files.input = none ∧ reheader_file files ftype conf = ⟨.returned (-1), []⟩)
    ∨ reheader_file files ftype conf = ⟨.returned (-1), [.open_input]⟩
    ∨ reheader_file files ftype conf = ⟨.exited "FIXME: No body in the file", [.open_input]⟩
    ∨ reheader_file files ftype conf = ⟨.exited "header file: cannot open", [.open_input]⟩
    ∨ ∃ frames text fp skip_until, files.input = some frames ∧ files.header = some text
        ∧ ¬ ((bgzf_read_block ⟨frames, files.memory, 0⟩).1 ≠ 0
          ∨ (bgzf_read_block ⟨frames, files.memory, 0⟩).2.block_length = 0)
        ∧ skip_header conf.meta_char (bgzf_read_block ⟨frames, files.memory, 0⟩).2
          = .found fp skip_until
        ∧ reheader_file files ftype conf = ⟨.returned 0,
            [.open_input, .open_header, .open_output]
            ++ (header_writes (text.length + 1) text).map .write
            ++ [.close_header]
            ++ (if fp.block_length - skip_until > 0 then [.write (block_rest fp skip_until)]
                else [])
            ++ [.flush, .raw_copy fp.blocks, .close_output, .close_input]⟩ := by
  cases hin : files.input with
  | none =>
    left
    exact ⟨rfl, by simp only [reheader_file, if_pos hg, hin]⟩
  | some frames =>
    right
    by_cases hfirst : (bgzf_read_block ⟨frames, files.memory, 0⟩).1 ≠ 0
        ∨ (bgzf_read_block ⟨frames, files.memory, 0⟩).2.block_length = 0
    · left
      simp only [reheader_file, if_pos hg, hin, if_pos hfirst]
    · right
      obtain ⟨r, hscan⟩ : ∃ r, skip_header conf.meta_char
          (bgzf_read_block ⟨frames, files.memory, 0⟩).2 = r := ⟨_, rfl⟩
      cases r with
      | out_of_fuel => exact absurd hscan (skip_header_terminates _ _)
      | no_body =>
        left
        simp only [reheader_file, if_pos hg, hin, if_neg hfirst, hscan]
      | found fp skip_until =>
        right
        cases hhdr : files.header with
        | none =>
          left
          simp only [reheader_file, if_pos hg, hin, if_neg hfirst, hscan, hhdr]
        | some text =>
          right
          exact ⟨frames, text, fp, skip_until, rfl, rfl, hfirst, hscan, by
            simp only [reheader_file, if_pos hg, hin, if_neg hfirst, hscan, hhdr]⟩

theorem reheader_file_text_status (files : Files) (conf : tbx_conf_t) :
    (reheader_file files 0 conf).status ≠ .exited "todo: reheader BCF, BAM" := by
  rcases reheader_file_cases files 0 conf (Or.inr rfl) with ⟨_, h⟩ | h | h | h |
    ⟨_, _, _, _, _, _, _, _, h⟩ <;> rw [h] <;> simp

/-- C11: with the flag `IS_BCF`, `IS_BAM` or `IS_CRAM` `reheader_file` ends with
the error "todo: reheader BCF, BAM" before any handle is opened, so the input is
not opened and nothing is written; with 0 or one of the text flags `IS_GFF`,
`IS_BED`, `IS_SAM`, `IS_VCF` it is not refused and runs the splice, the same run
for each of them. -/
theorem reheader_file_ftype (files : Files) (conf : tbx_conf_t) :
    (∀ ftype ∈ [IS_BCF, IS_BAM, IS_CRAM],
      reheader_file files ftype conf = ⟨.exited "todo: reheader BCF, BAM", []⟩)
    ∧ (∀ ftype ∈ [0, IS_GFF, IS_BED, IS_SAM, IS_VCF],
      (Int.land ftype IS_TXT ≠ 0 ∨ ftype = 0)
      ∧ reheader_file files ftype conf = reheader_file files 0 conf
      ∧ (reheader_file files ftype conf).status ≠ .exited "todo: reheader BCF, BAM") := by
  constructor
  · intro ftype h
    simp only [List.mem_cons, List.mem_singleton, List.not_mem_nil, or_false] at h
    have hg : ¬ (Int.land ftype IS_TXT ≠ 0 ∨ ftype = 0) := by
      rcases h with rfl | rfl | rfl <;> decide
    simp only [reheader_file, if_neg hg]
  · intro ftype h
    simp only [List.mem_cons, List.mem_singleton, List.not_mem_nil, or_false] at h
    have hg : Int.land ftype IS_TXT ≠ 0 ∨ ftype = 0 := by
      rcases h with rfl | rfl | rfl | rfl | rfl <;> decide
    have heq : reheader_file files ftype conf = reheader_file files 0 conf := by
      simp only [reheader_file, if_pos hg, or_true, if_true]
    exact ⟨hg, heq, by rw [heq]; exact reheader_file_text_status files conf⟩

/-- A variant file is refused without a call on a handle; the same input under
the flag `IS_GFF` is spliced. -/
theorem reheader_file_ftype_witness :
    reheader_file ⟨some [some "#a\nb\n".toList], fun _ => 'x', some "#new\n".toList⟩ IS_BCF ⟨plain_char '#'⟩
      = ⟨.exited "todo: reheader BCF, BAM", []⟩
    ∧ reheader_file ⟨some [some "#a\nb\n".toList], fun _ => 'x', some "#new\n".toList⟩ IS_GFF ⟨plain_char '#'⟩
      = ⟨.returned 0, [.open_input, .open_header, .open_output, .write "#new\n".toList,
          .close_header, .write "b\n".toList, .flush, .raw_copy [], .close_output,
          .close_input]⟩ :=
  ⟨(reheader_file_ftype ⟨some [some "#a\nb\n".toList], fun _ => 'x', some "#new\n".toList⟩
      ⟨plain_char '#'⟩).1 IS_BCF (by decide),
   ((reheader_file_ftype ⟨some [some "#a\nb\n".toList], fun _ => 'x', some "#new\n".toList⟩
      ⟨plain_char '#'⟩).2 IS_GFF (by decide)).2.1.trans (by decide)⟩

/-- On the path that returns 0 every handle opened is closed, and the output
stream is flushed before it is closed. -/
theorem reheader_file_released (files : Files) (ftype : Int) (conf : tbx_conf_t)
    (h : (reheader_file files ftype conf).status = .returned 0) :
    handles_released (reheader_file files ftype conf).events := by
  by_cases hg : Int.land ftype IS_TXT ≠ 0 ∨ ftype = 0
  · rcases reheader_file_cases files ftype conf hg with ⟨_, hr⟩ | hr | hr | hr |
      ⟨frames, text, fp, skip_until, _, _, _, _, hr⟩
    · rw [hr] at h
      exact absurd h (by decide)
    · rw [hr] at h
      exact absurd h (by decide)
    · rw [hr] at h
      exact absurd h (by decide)
    · rw [hr] at h
      exact absurd h (by decide)
    · rw [hr]
      refine ⟨fun _ => by simp, fun _ => by simp, fun _ => ?_⟩
      exact ⟨[Event.open_input, Event.open_header, Event.open_output]
          ++ (header_writes (text.length + 1) text).map Event.write
          ++ [Event.close_header]
          ++ (if fp.block_length - skip_until > 0
              then [Event.write (block_rest fp skip_until)] else [])
          ++ [Event.flush, Event.raw_copy fp.blocks],
        [Event.close_input], by simp, by simp⟩
  · simp only [reheader_file, if_neg hg] at h
    exact absurd h (by decide)

/-- C14 (the code at a file without a readable first frame): `bgzf_open`
succeeds, the first `bgzf_read_block` finds no frame (or a frame it cannot
decompress, or an empty one), and `reheader_file` returns `-1` having opened the
input stream and not closed it. -/
theorem reheader_file_first_frame_unreadable (memory : Nat → Char) (header : Option (List Char))
    (conf : tbx_conf_t) :
    reheader_file ⟨some [], memory, header⟩ 0 conf = ⟨.returned (-1), [.open_input]⟩
    ∧ reheader_file ⟨some [none], memory, header⟩ 0 conf = ⟨.returned (-1), [.open_input]⟩
    ∧ reheader_file ⟨some [some []], memory, header⟩ 0 conf = ⟨.returned (-1), [.open_input]⟩
    ∧ ¬ handles_released [.open_input] := by
  refine ⟨?_, ?_, ?_, ?_⟩
  · simp [reheader_file, bgzf_read_block, Int.land]
  · simp [reheader_file, bgzf_read_block, Int.land]
  · simp [reheader_file, bgzf_read_block, Int.land]
  · simp [handles_released]

/-! ### `file_type`: the comparisons and the probe -/

theorem suffix_chain_eq (c1 c2 c3 c4 c5 c6 c7 : Bool) (p : FileType) :
    (if c1 then (⟨.returned IS_GFF, false⟩ : FileType)
      else if c2 then ⟨.returned IS_BED, false⟩
      else if c3 then ⟨.returned IS_SAM, false⟩
      else if c4 then ⟨.returned IS_VCF, false⟩
      else if c5 then ⟨.returned IS_BCF, false⟩
      else if c6 then ⟨.returned IS_BAM, false⟩
      else if c7 then ⟨.returned IS_CRAM, false⟩
      else p)
    = match (if c1 then some IS_GFF else if c2 then some IS_BED else if c3 then some IS_SAM
        else if c4 then some IS_VCF else if c5 then some IS_BCF else if c6 then some IS_BAM
        else if c7 then some IS_CRAM else none) with
      | some flag => ⟨.returned flag, false⟩
      | none => p := by
  cases c1 <;> cases c2 <;> cases c3 <;> cases c4 <;> cases c5 <;> cases c6 <;> cases c7 <;> rfl

/-- The function `file_type` is the first of the seven comparisons that
succeeds, and the probe of the content when none does. -/
theorem file_type_eq (before : Char) (fname : List Char) (probe : Probe) :
    file_type before fname probe
      = match first_match before fname suffix_checks with
        | some flag => ⟨.returned flag, false⟩
        | none => probe_type probe :=
  suffix_chain_eq
    (fname.length ≥ 7 && strcasecmp_eq (tail_from before fname 7) ".gff.gz".toList)
    (fname.length ≥ 7 && strcasecmp_eq (tail_from before fname 7) ".bed.gz".toList)
    (fname.length ≥ 7 && strcasecmp_eq (tail_from before fname 7) ".sam.gz".toList)
    (fname.length ≥ 7 && strcasecmp_eq (tail_from before fname 7) ".vcf.gz".toList)
    (fname.length ≥ 4 && strcasecmp_eq (tail_from before fname 4) ".bcf".toList)
    (fname.length ≥ 4 && strcasecmp_eq (tail_from before fname 4) ".bam".toList)
    (fname.length ≥ 4 && strcasecmp_eq (tail_from before fname 5) ".cram".toList)
    (probe_type probe)

theorem file_type_probed (before : Char) (fname : List Char) (probe : Probe)
    (h : (file_type before fname probe).probed = true) :
    file_type before fname probe = probe_type probe := by
  rw [file_type_eq] at h ⊢
  cases hm : first_match before fname suffix_checks with
  | none => rfl
  | some flag =>
    rw [hm] at h
    exact absurd h (by simp)

theorem ends_with_nocase_of_tail (before : Char) (fname : List Char) (k : Nat) (suffix : String)
    (hk : k ≤ fname.length)
    (h : strcasecmp_eq (tail_from before fname k) suffix.toList = true)
    (hlow : suffix.toList.map Char.toLower = suffix.toList) :
    ends_with_nocase fname suffix := by
  refine ⟨fname.take (fname.length - k), fname.drop (fname.length - k),
    (List.take_append_drop _ _).symm, ?_⟩
  simp only [strcasecmp_eq, tail_from, if_pos hk, beq_iff_eq] at h
  rw [h, hlow]

/-- A comparison succeeds only on a name that ends in the suffix compared, or,
for the last one, on a name of four characters: there the comparison for
`.cram` starts one byte in front of the name. -/
theorem first_match_some (before : Char) (fname : List Char) (flag : Int)
    (h : first_match before fname suffix_checks = some flag) :
    (∃ suffix, (suffix, flag) ∈ suffix_table ∧ ends_with_nocase fname suffix)
    ∨ (fname.length = 4 ∧ flag = IS_CRAM) := by
  have hfm : first_match before fname suffix_checks
      = if fname.length ≥ 7 && strcasecmp_eq (tail_from before fname 7) ".gff.gz".toList
          then some IS_GFF
        else if fname.length ≥ 7 && strcasecmp_eq (tail_from before fname 7) ".bed.gz".toList
          then some IS_BED
        else if fname.length ≥ 7 && strcasecmp_eq (tail_from before fname 7) ".sam.gz".toList
          then some IS_SAM
        else if fname.length ≥ 7 && strcasecmp_eq (tail_from before fname 7) ".vcf.gz".toList
          then some IS_VCF
        else if fname.length ≥ 4 && strcasecmp_eq (tail_from before fname 4) ".bcf".toList
          then some IS_BCF
        else if fname.length ≥ 4 && strcasecmp_eq (tail_from before fname 4) ".bam".toList
          then some IS_BAM
        else if fname.length ≥ 4 && strcasecmp_eq (tail_from before fname 5) ".cram".toList
          then some IS_CRAM
        else none := rfl
  rw [hfm] at h
  split_ifs at h with h1 h2 h3 h4 h5 h6 h7
  all_goals simp only [Option.some.injEq, reduceCtorEq] at h
  all_goals try subst h
  · simp only [Bool.and_eq_true, decide_eq_true_eq] at h1
    exact Or.inl ⟨".gff.gz", by decide, ends_with_nocase_of_tail before fname 7 _ h1.1 h1.2 (by decide)⟩
  · simp only [Bool.and_eq_true, decide_eq_true_eq] at h2
    exact Or.inl ⟨".bed.gz", by decide, ends_with_nocase_of_tail before fname 7 _ h2.1 h2.2 (by decide)⟩
  · simp only [Bool.and_eq_true, decide_eq_true_eq] at h3
    exact Or.inl ⟨".sam.gz", by decide, ends_with_nocase_of_tail before fname 7 _ h3.1 h3.2 (by decide)⟩
  · simp only [Bool.and_eq_true, decide_eq_true_eq] at h4
    exact Or.inl ⟨".vcf.gz", by decide, ends_with_nocase_of_tail before fname 7 _ h4.1 h4.2 (by decide)⟩
  · simp only [Bool.and_eq_true, decide_eq_true_eq] at h5
    exact Or.inl ⟨".bcf", by decide, ends_with_nocase_of_tail before fname 4 _ h5.1 h5.2 (by decide)⟩
  · simp only [Bool.and_eq_true, decide_eq_true_eq] at h6
    exact Or.inl ⟨".bam", by decide, ends_with_nocase_of_tail before fname 4 _ h6.1 h6.2 (by decide)⟩
  · simp only [Bool.and_eq_true, decide_eq_true_eq] at h7
    by_cases hl : 5 ≤ fname.length
    · exact Or.inl ⟨".cram", by decide, ends_with_nocase_of_tail before fname 5 _ hl h7.2 (by decide)⟩
    · exact Or.inr ⟨by omega, rfl⟩

/-- For a name that ends in none of the seven suffixes and does not have
exactly four characters, `file_type` answers from the probe of the content:
`IS_BCF`, `IS_BAM`, `IS_CRAM`, `IS_VCF` for the formats bcf, bam, cram, vcf and 0
for every other format. -/
theorem file_type_no_suffix (before : Char) (fname : List Char) (probe : Probe)
    (hno : no_known_suffix fname) (hlen : fname.length ≠ 4) :
    file_type before fname probe = probe_type probe := by
  rw [file_type_eq]
  cases hm : first_match before fname suffix_checks with
  | none => rfl
  | some flag =>
    rcases first_match_some before fname flag hm with ⟨suffix, hmem, hend⟩ | ⟨h4, _⟩
    · exact absurd hend (hno suffix flag hmem)
    · exact absurd h4 hlen

theorem ends_with_nocase_length (fname : List Char) (suffix : String)
    (h : ends_with_nocase fname suffix) : suffix.toList.length ≤ fname.length := by
  obtain ⟨pre, suf, rfl, hs⟩ := h
  rw [← hs]
  simp

theorem ends_with_nocase_same_length (fname : List Char) (suffix : String)
    (h : ends_with_nocase fname suffix) (hlen : fname.length = suffix.toList.length) :
    fname.map Char.toLower = suffix.toList := by
  obtain ⟨pre, suf, rfl, hs⟩ := h
  have hsl : suf.length = suffix.toList.length := by rw [← hs, List.length_map]
  have hpre : pre = [] := by
    apply List.length_eq_zero.mp
    simp only [List.length_append] at hlen
    omega
  subst hpre
  simpa using hs

theorem no_known_suffix_cram : no_known_suffix "cram".toList := by
  unfold no_known_suffix
  intro suffix flag hmem hend
  have hlen := ends_with_nocase_length _ _ hend
  simp only [suffix_table, List.mem_cons, Prod.mk.injEq, List.mem_singleton, List.not_mem_nil,
    or_false] at hmem
  rcases hmem with ⟨rfl, _⟩ | ⟨rfl, _⟩ | ⟨rfl, _⟩ | ⟨rfl, _⟩ | ⟨rfl, _⟩ | ⟨rfl, _⟩ | ⟨rfl, _⟩
  · exact absurd hlen (by decide)
  · exact absurd hlen (by decide)
  · exact absurd hlen (by decide)
  · exact absurd hlen (by decide)
  · exact absurd (ends_with_nocase_same_length _ _ hend (by decide)) (by decide)
  · exact absurd (ends_with_nocase_same_length _ _ hend (by decide)) (by decide)
  · exact absurd hlen (by decide)

/-- C16 (the code at a name of four characters): the name `cram` ends in none of
the seven suffixes, and for names of another length `file_type` answers from the
probe; but with a `.` in the byte in front of the name the comparison for
`.cram`, which starts at `fname + l - 5` under the guard `l >= 4`, succeeds, and
`file_type` returns `IS_CRAM` without a probe for a file whose content is VCF. -/
theorem file_type_four_char_name :
    no_known_suffix "cram".toList
    ∧ file_type '.' "cram".toList (.opened .vcf) = ⟨.returned IS_CRAM, false⟩
    ∧ file_type 'x' "cram".toList (.opened .vcf) = ⟨.returned IS_VCF, true⟩ :=
  ⟨no_known_suffix_cram, by decide, by decide⟩

theorem compare_offsets_nonneg (before : Char) (fname : List Char) :
    ∀ checks : List (Nat × Nat × String × Int),
      (∀ c ∈ checks, c.1 ≤ fname.length → c.2.1 ≤ fname.length) →
      ∀ o ∈ compare_offsets before fname checks, 0 ≤ o := by
  intro checks
  induction checks with
  | nil => intro _ o ho; simp [compare_offsets] at ho
  | cons c rest ih =>
    intro hc o ho
    obtain ⟨m, k, suffix, flag⟩ := c
    have ih2 := ih (fun c hcm => hc c (List.mem_cons_of_mem _ hcm))
    simp only [compare_offsets] at ho
    split_ifs at ho with hm hcmp
    · simp only [List.mem_singleton] at ho
      have := hc (m, k, suffix, flag) (List.mem_cons_self _ _) hm
      simp only at this
      omega
    · simp only [List.mem_cons] at ho
      rcases ho with ho | ho
      · have := hc (m, k, suffix, flag) (List.mem_cons_self _ _) hm
        simp only at this
        omega
      · exact ih2 o ho
    · exact ih2 o ho

/-- For a name that does not have exactly four characters every comparison
`file_type` performs starts inside the name. -/
theorem file_type_offsets_inside (before : Char) (fname : List Char) (hlen : fname.length ≠ 4) :
    ∀ o ∈ compare_offsets before fname suffix_checks, 0 ≤ o := by
  apply compare_offsets_nonneg
  intro c hc hm
  simp only [suffix_checks, List.mem_cons, List.mem_singleton, List.not_mem_nil, or_false] at hc
  rcases hc with rfl | rfl | rfl | rfl | rfl | rfl | rfl <;> simp only at hm ⊢ <;> omega

/-- C20 (the code at a name of four characters): for the name `data` the guards
`l >= 7` fail, the comparisons for `.bcf` and `.bam` start at offset 0, and the
comparison for `.cram` is performed under the guard `l >= 4` and starts at
`fname + l - 5`, offset `-1`: one byte in front of the first character of the
name, whatever that byte is. -/
theorem file_type_compares_before_name (before : Char) :
    compare_offsets before "data".toList suffix_checks = [0, 0, -1] := by
  by_cases h : strcasecmp_eq (tail_from before "data".toList 5) ".cram".toList = true
  · simp only [compare_offsets, suffix_checks, h]
    rfl
  · simp only [compare_offsets, suffix_checks, h]
    rfl

/-! ### `query_chroms` and the branches of `query_regions` -/

/-- C19 (the code at a CRAM file): when `file_type` returns `IS_CRAM`,
`query_chroms` takes none of its branches: it prints no sequence name, raises no
error and returns 0. -/
theorem query_chroms_cram (w : World)
    (bcf_index_seqnames : hts_idx_t → bcf_hdr_t → Option (List String)) (before : Char)
    (fname : List Char) (probe : Probe) (download : Int)
    (h : (file_type before fname probe).status = .returned IS_CRAM) :
    query_chroms w bcf_index_seqnames before fname probe download = ⟨[], .returned 0⟩ := by
  simp only [query_chroms, h]
  rfl

/-- The sequence names of `reads.cram` are asked for: nothing is listed and 0 is
returned. -/
theorem query_chroms_cram_witness :
    (file_type 'x' "reads.cram".toList .failed).status = .returned IS_CRAM
    ∧ query_chroms (demo_world .cram) (fun _ _ => some ["chr1"]) 'x' "reads.cram".toList .failed 0
      = ⟨[], .returned 0⟩ :=
  ⟨by decide,
   query_chroms_cram (demo_world .cram) (fun _ _ => some ["chr1"]) 'x' "reads.cram".toList
     .failed 0 (by decide)⟩

theorem query_branch_text (format : htsExactFormat) (h : query_branch format = .text) :
    format ≠ .bcf ∧ is_text_branch format = true := by
  cases format <;> simp [query_branch, is_text_branch] at h ⊢

theorem query_branch_binary (format : htsExactFormat) (h : query_branch format = .binary_variant) :
    format = .bcf := by
  cases format <;> simp [query_branch, is_text_branch] at h ⊢

theorem query_branch_usage (format : htsExactFormat) (h : query_branch format = .usage_error) :
    format = .bam := by
  cases format <;> simp [query_branch, is_text_branch] at h ⊢

theorem query_branch_none (format : htsExactFormat) (h : query_branch format = .none_taken) :
    format ≠ .bcf ∧ is_text_branch format = false ∧ format ≠ .bam := by
  cases format <;> simp [query_branch, is_text_branch] at h ⊢

theorem tbx_regions_loop_congr (w w2 : World) (tbx : tbx_t) (reg_idx : Option regidx_t)
    (seq : List String) (regs : List String)
    (h : w.parseRegionSpecifier = w2.parseRegionSpecifier) :
    tbx_regions_loop w tbx reg_idx seq regs = tbx_regions_loop w2 tbx reg_idx seq regs := by
  induction regs with
  | nil => rfl
  | cons reg regs ih => simp only [tbx_regions_loop, tbx_itr_querys, h, ih]

theorem bcf_regions_loop_congr (w w2 : World) (idx : hts_idx_t) (hdr : bcf_hdr_t)
    (reg_idx : Option regidx_t) (regs : List String)
    (h : w.parseRegionSpecifier = w2.parseRegionSpecifier) :
    bcf_regions_loop w idx hdr reg_idx regs = bcf_regions_loop w2 idx hdr reg_idx regs := by
  induction regs with
  | nil => rfl
  | cons reg regs ih => simp only [bcf_regions_loop, bcf_itr_querys, h, ih]

/-- What `query_regions` does in each branch of `query_branch`: in the text
branch the run is the run on a VCF file, in the binary-variant branch the run on
a BCF file; the usage error is raised once the target filter is built; in no
branch the input is closed and 0 returned. -/
theorem query_regions_branch (w : World) (args : args_t) (regs : List String) (download : Int)
    (format : htsExactFormat) (hopen : w.hts_open = some format) :
    (query_branch format = .text →
      query_regions w args regs download
        = query_regions { w with hts_open := some .vcf } args regs download)
    ∧ (query_branch format = .binary_variant →
      query_regions w args regs download
        = query_regions { w with hts_open := some .bcf } args regs download)
    ∧ (query_branch format = .usage_error → load_targets w args ≠ none →
      query_regions w args regs download
        = ⟨[], .exited "Please use \"samtools view\" for querying BAM files."⟩)
    ∧ (query_branch format = .none_taken → load_targets w args ≠ none →
      query_regions w args regs download = query_finish w []) := by
  have hw : w = { w with hts_open := some format } := by
    cases w
    simp only at hopen
    simp [hopen]
  refine ⟨fun h => ?_, fun h => ?_, fun h ht => ?_, fun h ht => ?_⟩
  · obtain ⟨hb, htx⟩ := query_branch_text format h
    have hv : htsExactFormat.vcf ≠ .bcf := by decide
    have htv : is_text_branch .vcf = true := by decide
    have hl : ∀ tbx reg_idx seq, tbx_regions_loop { w with hts_open := some .vcf } tbx reg_idx seq
        regs = tbx_regions_loop w tbx reg_idx seq regs :=
      fun tbx reg_idx seq => tbx_regions_loop_congr _ _ tbx reg_idx seq regs rfl
    simp only [query_regions, hopen, load_targets, print_header_lines, query_finish, if_neg hb,
      htx, if_neg hv, htv, if_true, hl]
  · have hb := query_branch_binary format h
    subst hb
    rw [← hw]
  · obtain ⟨reg_idx, hti⟩ := Option.ne_none_iff_exists'.mp ht
    have hb := query_branch_usage format h
    subst hb
    simp [query_regions, hopen, hti, is_text_branch]
  · obtain ⟨reg_idx, hti⟩ := Option.ne_none_iff_exists'.mp ht
    obtain ⟨hb, htx, hbam⟩ := query_branch_none format h
    simp [query_regions, hopen, hti, hb, htx, hbam]

/-- C15 as stated fails: a file named `calls.bcf` whose content is VCF gets
`IS_BCF` from `file_type`, which designates the binary-variant branch, while
`query_regions`, which looks at the probed format only, takes the text branch:
it loads the text index and writes the lines of the records. -/
theorem query_regions_branch_counterexample :
    file_type 'x' "calls.bcf".toList (.opened .vcf) = ⟨.returned IS_BCF, false⟩
    ∧ designated_branch IS_BCF = some .binary_variant
    ∧ query_branch .vcf = .text
    ∧ query_regions (demo_world .vcf) (demo_args none) ["chr1:15-16"] 0
        = ⟨[.line "chr1\t11\t20"], .returned 0⟩ := by
  decide

/-- C15, amended: `query_regions` takes the branch of the format probed from the
content, whatever the name: for vcf, sam, bed, text and unknown content the text
branch (the run is the run on a VCF file), for bcf the binary-variant branch,
for bam the usage error.  When the result of `file_type` comes from the probe
(no suffix comparison succeeds), this is the branch that result designates. -/
theorem query_regions_branch_probed (w : World) (args : args_t) (regs : List String)
    (download : Int) (before : Char) (fname : List Char) (format : htsExactFormat)
    (hopen : w.hts_open = some format)
    (hformat : format ∈ [htsExactFormat.vcf, .sam, .bed, .text_format, .unknown_format, .bcf,
      .bam])
    (hprobed : (file_type before fname (.opened format)).probed = true) :
    (∃ ftype, file_type_flag (file_type before fname (.opened format)) = some ftype
      ∧ designated_branch ftype = some (query_branch format))
    ∧ query_branch format
      = (if format = .bcf then Branch.binary_variant
         else if format = .bam then Branch.usage_error else Branch.text)
    ∧ (query_branch format = .text →
      query_regions w args regs download
        = query_regions { w with hts_open := some .vcf } args regs download)
    ∧ (query_branch format = .binary_variant →
      query_regions w args regs download
        = query_regions { w with hts_open := some .bcf } args regs download)
    ∧ (query_branch format = .usage_error → load_targets w args ≠ none →
      query_regions w args regs download
        = ⟨[], .exited "Please use \"samtools view\" for querying BAM files."⟩) := by
  have hb := query_regions_branch w args regs download format hopen
  refine ⟨?_, ?_, hb.1, hb.2.1, hb.2.2.1⟩
  · rw [file_type_probed before fname _ hprobed]
    simp only [List.mem_cons, List.mem_singleton, List.not_mem_nil, or_false] at hformat
    rcases hformat with rfl | rfl | rfl | rfl | rfl | rfl | rfl <;> decide
  · simp only [List.mem_cons, List.mem_singleton, List.not_mem_nil, or_false] at hformat
    rcases hformat with rfl | rfl | rfl | rfl | rfl | rfl | rfl <;> decide

/-- A file named `calls.txt` whose content is detected as plain text: `file_type`
probes the content and returns 0, which designates the text branch, and
`query_regions` runs as on a VCF file. -/
theorem query_regions_branch_probed_witness :
    (file_type 'x' "calls.txt".toList (.opened .text_format)).probed = true
    ∧ query_branch .text_format = .text
    ∧ query_regions (demo_world .text_format) (demo_args none) ["chr1:15-16"] 0
        = ⟨[.line "chr1\t11\t20"], .returned 0⟩ :=
  have h := query_regions_branch_probed (demo_world .text_format) (demo_args none)
    ["chr1:15-16"] 0 'x' "calls.txt".toList .text_format rfl (by decide) (by decide)
  ⟨by decide, by decide, (h.2.2.1 (by decide)).trans (by decide)⟩

/-! ### `query_regions`: the two flags -/

theorem hts_pos_wrap_succ (x : Int) (h0 : 0 ≤ x) (h1 : x < 9223372036854775807) :
    hts_pos_wrap (x + 1) = x + 1 := by
  unfold hts_pos_wrap
  omega

theorem file_regions_eq (idx : regidx_t)
    (hrange : ∀ r ∈ idx, 0 ≤ r.beg ∧ r.beg < 9223372036854775807
      ∧ 0 ≤ r.fin ∧ r.fin < 9223372036854775807) :
    file_regions idx
      = (regidx_seq_names idx).flatMap fun seq =>
          (regitr_overlap idx seq 0 HTS_POS_MAX).map fun r =>
            region_text r.seq (r.beg + 1) (r.fin + 1) := by
  unfold file_regions
  congr 1
  funext seq
  apply List.map_congr_left
  intro r hr
  simp only [regitr_overlap, List.mem_filter, Bool.and_eq_true, beq_iff_eq,
    decide_eq_true_eq] at hr
  obtain ⟨hmem, ⟨hseq, _⟩, _⟩ := hr
  obtain ⟨hb0, hb1, hf0, hf1⟩ := hrange r hmem
  rw [hts_pos_wrap_succ _ hb0 hb1, hts_pos_wrap_succ _ hf0 hf1, hseq]

/-- C13: every interval `(seq, beg, end)` that `parse_regions` takes from the
regions file (0-based, end inclusive, both below the largest 64-bit value)
becomes the specifier `seq:(beg+1)-(end+1)` in decimal, the intervals taken
sequence by sequence and followed by the regions of the command line; read as
1-based inclusive, the two numbers give the half-open 0-based interval
`[beg, end+1)`. -/
theorem parse_regions_specifier (regidx_init : String → Option regidx_t) (name : String)
    (argv : List String) (idx : regidx_t) (hidx : regidx_init name = some idx)
    (hrange : ∀ r ∈ idx, 0 ≤ r.beg ∧ r.beg < 9223372036854775807
      ∧ 0 ≤ r.fin ∧ r.fin < 9223372036854775807) :
    (∃ nregs, parse_regions regidx_init (some name) argv
      = .regions
          (((regidx_seq_names idx).flatMap fun seq =>
              (regitr_overlap idx seq 0 HTS_POS_MAX).map fun r =>
                region_text r.seq (r.beg + 1) (r.fin + 1))
            ++ (if ((regidx_seq_names idx).flatMap fun seq =>
                  (regitr_overlap idx seq 0 HTS_POS_MAX).map fun r =>
                    region_text r.seq (r.beg + 1) (r.fin + 1)) = [] ∧ argv = []
                then ["."] else argv))
          nregs)
    ∧ ∀ r ∈ idx, one_based_to_half_open (r.beg + 1) (r.fin + 1) = (r.beg, r.fin + 1) := by
  refine ⟨?_, fun r _ => by simp [one_based_to_half_open]⟩
  rw [← file_regions_eq idx hrange]
  simp only [parse_regions, hidx]
  by_cases hnil : file_regions idx = []
  · by_cases ha : argv = []
    · exact ⟨1, by simp [hnil, ha]⟩
    · exact ⟨argv.length + regidx_nregs idx, by simp [hnil, ha]⟩
  · refine ⟨argv.length + regidx_nregs idx, ?_⟩
    have hl : ¬ (file_regions idx).length = 0 := fun h => hnil (List.length_eq_zero.mp h)
    simp [hnil, hl]

/-- A regions file with the intervals `chr1 [10,19]` and `chr1 [100,109]`
(0-based, end inclusive) and the command-line region `chr2`. -/
theorem parse_regions_specifier_witness :
    (∀ r ∈ ([⟨"chr1", 10, 19⟩, ⟨"chr1", 100, 109⟩] : regidx_t),
      0 ≤ r.beg ∧ r.beg < 9223372036854775807 ∧ 0 ≤ r.fin ∧ r.fin < 9223372036854775807)
    ∧ parse_regions (fun _ => some [⟨"chr1", 10, 19⟩, ⟨"chr1", 100, 109⟩]) (some "r.bed") ["chr2"]
      = .regions ["chr1:11-20", "chr1:101-110", "chr2"] 3
    ∧ one_based_to_half_open 11 20 = (10, 20) :=
  have hr : ∀ r ∈ ([⟨"chr1", 10, 19⟩, ⟨"chr1", 100, 109⟩] : regidx_t),
      0 ≤ r.beg ∧ r.beg < 9223372036854775807 ∧ 0 ≤ r.fin ∧ r.fin < 9223372036854775807 := by
    decide
  have h := parse_regions_specifier (fun _ => some [⟨"chr1", 10, 19⟩, ⟨"chr1", 100, 109⟩])
    "r.bed" ["chr2"] [⟨"chr1", 10, 19⟩, ⟨"chr1", 100, 109⟩] rfl hr
  ⟨hr, by decide, h.2 ⟨"chr1", 10, 19⟩ (by decide)⟩

/-! ### `reheader_file`: the frames read -/

theorem block_rest_drop (fp : BGZF) (s : Nat) :
    block_rest fp s = (block_rest fp 0).drop s := by
  induction s with
  | zero => rfl
  | succ s ih =>
    by_cases h : s < fp.block_length
    · have hc := block_rest_cons fp s h
      rw [← List.tail_drop, ← ih, hc]
      rfl
    · rw [block_rest_nil fp (s + 1) (by omega)]
      symm
      apply List.drop_eq_nil_iff.mpr
      simp only [block_rest, List.length_map, List.length_range]
      omega

theorem loaded_read (frames : List Frame) (fp : BGZF) (pre : List Frame)
    (hsplit : frames = pre ++ fp.blocks) (hpre : ∀ f ∈ pre, ∃ x, f = some x ∧ x ≠ [])
    (hok : ¬ ((bgzf_read_block fp).1 ≠ 0 ∨ (bgzf_read_block fp).2.block_length = 0)) :
    loaded frames (bgzf_read_block fp).2 := by
  obtain ⟨blocks, buf, n⟩ := fp
  cases blocks with
  | nil => simp [bgzf_read_block] at hok
  | cons f rest =>
    cases f with
    | none => simp [bgzf_read_block] at hok
    | some l =>
      refine ⟨pre, l, hsplit, block_rest_read rest buf n l, rfl, ?_, hpre⟩
      intro hl
      apply hok
      right
      simp [bgzf_read_block, hl]

theorem loaded_next_block (frames : List Frame) (fp : BGZF) (t : Nat) (fp2 : BGZF) (s2 : Nat)
    (h : loaded frames fp) (hn : next_block fp t = some (fp2, s2)) :
    loaded frames fp2 ∧ s2 < fp2.block_length := by
  unfold next_block at hn
  by_cases ht : t ≥ fp.block_length
  · rw [if_pos ht] at hn
    by_cases hok : (bgzf_read_block fp).1 ≠ 0 ∨ (bgzf_read_block fp).2.block_length = 0
    · simp only [if_pos hok] at hn
      cases hn
    · simp only [if_neg hok, Option.some.injEq, Prod.mk.injEq] at hn
      obtain ⟨hfp, hs⟩ := hn
      subst hfp hs
      obtain ⟨pre, l, hsplit, _, _, hl, hpre⟩ := h
      refine ⟨loaded_read frames fp (pre ++ [some l]) (by simp [hsplit]) ?_ hok, ?_⟩
      · intro f hf
        rcases List.mem_append.mp hf with hf | hf
        · exact hpre f hf
        · simp only [List.mem_singleton] at hf
          exact ⟨l, hf, hl⟩
      · have : (bgzf_read_block fp).2.block_length ≠ 0 := fun h0 => hok (Or.inr h0)
        omega
  · rw [if_neg ht] at hn
    simp only [Option.some.injEq, Prod.mk.injEq] at hn
    obtain ⟨hfp, hs⟩ := hn
    subst hfp hs
    exact ⟨h, by omega⟩

theorem loaded_skip_loop (meta_char : Int) (frames : List Frame) :
    ∀ (fuel : Nat) (fp : BGZF) (s : Nat) (fp2 : BGZF) (s2 : Nat), loaded frames fp →
      skip_loop meta_char fuel fp s = .found fp2 s2 → loaded frames fp2 ∧ s2 < fp2.block_length := by
  intro fuel
  induction fuel with
  | zero =>
    intro fp s fp2 s2 _ h
    simp [skip_loop] at h
  | succ fuel ih =>
    intro fp s fp2 s2 hl h
    unfold skip_loop at h
    by_cases hnl : fp.uncompressed_block s = '\n'
    · rw [if_pos hnl] at h
      cases hn1 : next_block fp (s + 1) with
      | none =>
        rw [hn1] at h
        simp at h
      | some p =>
        obtain ⟨fp1, s1⟩ := p
        rw [hn1] at h
        simp only at h
        have h1 := loaded_next_block frames fp (s + 1) fp1 s1 hl hn1
        by_cases hm : plain_char (fp1.uncompressed_block s1) ≠ meta_char
        · rw [if_pos hm] at h
          simp only [Scan.found.injEq] at h
          obtain ⟨hfp, hs⟩ := h
          subst hfp hs
          exact h1
        · rw [if_neg hm] at h
          cases hn2 : next_block fp1 (s1 + 1) with
          | none =>
            rw [hn2] at h
            simp at h
          | some q =>
            obtain ⟨fp3, s3⟩ := q
            rw [hn2] at h
            simp only at h
            exact ih fp3 s3 fp2 s2 (loaded_next_block frames fp1 (s1 + 1) fp3 s3 h1.1 hn2).1 h
    · rw [if_neg hnl] at h
      cases hn2 : next_block fp (s + 1) with
      | none =>
        rw [hn2] at h
        simp at h
      | some q =>
        obtain ⟨fp3, s3⟩ := q
        rw [hn2] at h
        simp only at h
        exact ih fp3 s3 fp2 s2 (loaded_next_block frames fp (s + 1) fp3 s3 hl hn2).1 h

/-- Where the search for the data block stops, the stream stands in the file
with the frames read so far behind it, and the position lies inside the payload
of the loaded frame. -/
theorem loaded_skip_header (meta_char : Int) (frames : List Frame) (memory : Nat → Char)
    (fp : BGZF) (s : Nat)
    (hfirst : ¬ ((bgzf_read_block ⟨frames, memory, 0⟩).1 ≠ 0
      ∨ (bgzf_read_block ⟨frames, memory, 0⟩).2.block_length = 0))
    (hscan : skip_header meta_char (bgzf_read_block ⟨frames, memory, 0⟩).2 = .found fp s) :
    loaded frames fp ∧ s < fp.block_length := by
  have h0 : loaded frames (bgzf_read_block ⟨frames, memory, 0⟩).2 :=
    loaded_read frames ⟨frames, memory, 0⟩ [] rfl (fun f hf => absurd hf (List.not_mem_nil f))
      hfirst
  unfold skip_header at hscan
  by_cases hm : plain_char ((bgzf_read_block ⟨frames, memory, 0⟩).2.uncompressed_block 0) = meta_char
  · rw [if_pos hm] at hscan
    exact loaded_skip_loop meta_char frames _ _ 1 fp s h0 hscan
  · rw [if_neg hm] at hscan
    simp only [Scan.found.injEq] at hscan
    obtain ⟨hfp, hs⟩ := hscan
    subst hfp hs
    have : (bgzf_read_block ⟨frames, memory, 0⟩).2.block_length ≠ 0 :=
      fun h => hfirst (Or.inr h)
    exact ⟨h0, by omega⟩

/-- C12: in every run of `reheader_file` that returns 0, the frames decompressed
are the frames the search for the data block reads, the first frame through the
frame `l` in which it stops at an offset `s` inside the payload, each of them
decompressed to a non-empty payload; nothing is read after that: the bytes of
`l` from `s` on are written from the block buffer, and the frames after `l`,
all of them and only them, reach the output through the raw copy. -/
theorem reheader_file_frames_read (files : Files) (ftype : Int) (conf : tbx_conf_t)
    (frames : List Frame) (hftype : Int.land ftype IS_TXT ≠ 0 ∨ ftype = 0)
    (hin : files.input = some frames)
    (hret : (reheader_file files ftype conf).status = .returned 0) :
    ∃ text fp s pre l, files.header = some text
      ∧ skip_header conf.meta_char (bgzf_read_block ⟨frames, files.memory, 0⟩).2 = .found fp s
      ∧ frames = pre ++ some l :: fp.blocks
      ∧ (∀ f ∈ pre, ∃ x, f = some x ∧ x ≠ [])
      ∧ frames_read frames fp = pre.length + 1
      ∧ s < l.length
      ∧ (reheader_file files ftype conf).events
        = [.open_input, .open_header, .open_output]
          ++ (header_writes (text.length + 1) text).map .write
          ++ [.close_header, .write (l.drop s), .flush, .raw_copy fp.blocks,
              .close_output, .close_input] := by
  rcases reheader_file_cases files ftype conf hftype with ⟨_, h⟩ | h | h | h |
    ⟨frames2, text, fp, s, hin2, hhdr, hfirst, hscan, h⟩
  · rw [h] at hret
    simp at hret
  · rw [h] at hret
    simp at hret
  · rw [h] at hret
    simp at hret
  · rw [h] at hret
    simp at hret
  · rw [hin] at hin2
    cases hin2
    obtain ⟨⟨pre, l, hsplit, hrest, hlen, _, hpre⟩, hs⟩ :=
      loaded_skip_header conf.meta_char frames files.memory fp s hfirst hscan
    refine ⟨text, fp, s, pre, l, hhdr, hscan, hsplit, hpre, ?_, by omega, ?_⟩
    · have hl := congrArg List.length hsplit
      simp only [List.length_append, List.length_cons] at hl
      unfold frames_read
      omega
    · rw [h]
      have hpos : fp.block_length - s > 0 := by omega
      simp only [if_pos hpos, block_rest_drop fp s, hrest, List.append_assoc, List.cons_append,
        List.nil_append]

/-- A file of three frames, `#a` and a newline, `#b`, a newline and `x`, and
`yz`: two frames are read, the scan stops at offset 3 of the second, whose last
byte is written from the block buffer, and the third frame is copied raw. -/
theorem reheader_file_frames_read_witness :
    (∃ text fp s pre l,
      some "#new\n".toList = some text
      ∧ skip_header (plain_char '#') (bgzf_read_block
          ⟨[some "#a\n".toList, some "#b\nx".toList, some "yz".toList], fun _ => ' ', 0⟩).2
        = .found fp s
      ∧ [some "#a\n".toList, some "#b\nx".toList, some "yz".toList] = pre ++ some l :: fp.blocks
      ∧ (∀ f ∈ pre, ∃ x, f = some x ∧ x ≠ [])
      ∧ frames_read [some "#a\n".toList, some "#b\nx".toList, some "yz".toList] fp
        = pre.length + 1
      ∧ s < l.length
      ∧ (reheader_file
          ⟨some [some "#a\n".toList, some "#b\nx".toList, some "yz".toList], fun _ => ' ',
            some "#new\n".toList⟩ 0 ⟨plain_char '#'⟩).events
        = [.open_input, .open_header, .open_output]
          ++ (header_writes (text.length + 1) text).map .write
          ++ [.close_header, .write (l.drop s), .flush, .raw_copy fp.blocks,
              .close_output, .close_input])
    ∧ reheader_file
        ⟨some [some "#a\n".toList, some "#b\nx".toList, some "yz".toList], fun _ => ' ',
          some "#new\n".toList⟩ 0 ⟨plain_char '#'⟩
      = ⟨.returned 0, [.open_input, .open_header, .open_output, .write "#new\n".toList,
          .close_header, .write "x".toList, .flush, .raw_copy [some "yz".toList],
          .close_output, .close_input]⟩ :=
  ⟨reheader_file_frames_read
    ⟨some [some "#a\n".toList, some "#b\nx".toList, some "yz".toList], fun _ => ' ',
      some "#new\n".toList⟩ 0 ⟨plain_char '#'⟩ [some "#a\n".toList, some "#b\nx".toList, some "yz".toList]
    (by decide) rfl (by decide), by decide⟩

/-! ### `reheader_file`: which frames are decompressed -/

/-- The search for the data block on a file made of a header and a body: it
stops with the body, all of it and nothing else, ahead of the position. -/
theorem skip_header_boundary (meta_char : Int) (hmeta : meta_char ≠ plain_char '\n')
    (H1 : List (List Char)) (B : List Char) (f0 : List Char) (rest : List (List Char))
    (memory : Nat → Char)
    (hH1 : ∀ l ∈ H1, is_header_line meta_char l)
    (hB : B ≠ []) (hB0 : B.head?.map plain_char ≠ some meta_char)
    (hsplit : (f0 :: rest).flatten = H1.flatten ++ B) (hne : ∀ f ∈ f0 :: rest, f ≠ [])
    (hfirst : H1 ≠ [] → 2 ≤ f0.length) :
    ∃ fp s, skip_header meta_char (bgzf_read_block ⟨(f0 :: rest).map some, memory, 0⟩).2
        = .found fp s
      ∧ remaining fp s = B := by
  have hf0 : f0 ≠ [] := hne f0 (List.mem_cons_self _ _)
  have hlen0 : f0.length ≠ 0 := fun h => hf0 (List.length_eq_zero.mp h)
  have hblocks : ∀ f ∈ (bgzf_read_block ⟨(f0 :: rest).map some, memory, 0⟩).2.blocks,
      ∃ l, f = some l ∧ l ≠ [] := by
    intro f hf
    simp only [List.map_cons, bgzf_read_block, List.mem_map] at hf
    obtain ⟨l, hl, rfl⟩ := hf
    exact ⟨l, rfl, hne l (List.mem_cons_of_mem _ hl)⟩
  have hblen : (bgzf_read_block ⟨(f0 :: rest).map some, memory, 0⟩).2.block_length
      = f0.length := by
    simp [bgzf_read_block]
  have hrem0 : remaining (bgzf_read_block ⟨(f0 :: rest).map some, memory, 0⟩).2 0
      = H1.flatten ++ B := by
    rw [← hsplit]
    simp only [remaining, List.map_cons, block_rest_read, List.flatten_cons]
    congr 1
    simp only [bgzf_read_block]
    exact flatMap_map_some rest
  have hin0 : in_payload (bgzf_read_block ⟨(f0 :: rest).map some, memory, 0⟩).2 0 :=
    ⟨by rw [hblen]; omega, hblocks⟩
  obtain ⟨rest0, hcons0, _⟩ := next_block_step _ 0 hin0
  rw [hrem0] at hcons0
  cases H1 with
  | nil =>
    simp only [List.flatten_nil, List.nil_append] at hcons0
    refine ⟨_, 0, ?_, by rw [hrem0]; rfl⟩
    have hb : plain_char
        ((bgzf_read_block ⟨(f0 :: rest).map some, memory, 0⟩).2.uncompressed_block 0)
        ≠ meta_char := by
      intro hb
      rw [hcons0] at hB0
      simp only [List.head?_cons, Option.map_some'] at hB0
      exact hB0 (congrArg some hb)
    simp only [skip_header, hb, if_false]
  | cons l H =>
    obtain ⟨body, hl, hbody, hhead⟩ := hH1 l (List.mem_cons_self _ _)
    cases body with
    | nil =>
      rw [hl] at hhead
      simp only [List.nil_append, List.head?_cons, Option.map_some', Option.some.injEq] at hhead
      exact absurd hhead.symm hmeta
    | cons c t2 =>
      rw [hl] at hhead
      simp only [List.cons_append, List.head?_cons, Option.map_some', Option.some.injEq] at hhead
      rw [hl] at hcons0
      simp only [List.flatten_cons, List.cons_append, List.append_assoc,
        List.singleton_append, List.cons.injEq] at hcons0
      obtain ⟨hc0, hrest0⟩ := hcons0
      have h2 : 2 ≤ f0.length := hfirst (by simp)
      have hin1 : in_payload (bgzf_read_block ⟨(f0 :: rest).map some, memory, 0⟩).2 1 :=
        ⟨by rw [hblen]; omega, hblocks⟩
      have hrem1 : remaining (bgzf_read_block ⟨(f0 :: rest).map some, memory, 0⟩).2 1
          = t2 ++ '\n' :: (H.flatten ++ B) := by
        have hr := hrem0
        simp only [remaining] at hr ⊢
        rw [block_rest_cons _ 0 hin0.1, hl] at hr
        simp only [List.flatten_cons, List.cons_append, List.append_assoc,
          List.singleton_append, List.cons.injEq] at hr
        exact hr.2
      obtain ⟨fp, s, hloop, _, hremB⟩ := skip_loop_header meta_char hmeta B hB hB0
        (scan_fuel (bgzf_read_block ⟨(f0 :: rest).map some, memory, 0⟩).2) H t2 _ 1
        (fun l hl => hH1 l (List.mem_cons_of_mem _ hl))
        (fun hmem => hbody (List.mem_cons_of_mem _ hmem)) hin1 hrem1
        (remaining_length_lt_fuel _ 1)
      refine ⟨fp, s, ?_, hremB⟩
      simp only [skip_header, ← hc0, hhead, if_true, hloop]

theorem confirm_filename_forced (n : Nat) (hn : n + 1 ≤ 2147483647)
    (line : Option (List Char)) :
    confirm_filename ((n : Int) + 1) line = ⟨1, (n : Int), false⟩ := by
  have h : ((n : Int) + 1) ≠ 0 := by omega
  have hw : int_wrap ((n : Int) + 1 - 1) = (n : Int) := by
    unfold int_wrap
    omega
  simp only [confirm_filename, if_pos h, hw]

theorem confirm_filename_zero (line : Option (List Char)) :
    confirm_filename 0 line = ⟨0, 0, false⟩ := by
  simp [confirm_filename, isatty]

theorem confirm_calls_zero (lines : List (Option (List Char))) :
    confirm_calls lines 0 = (List.replicate lines.length ⟨0, 0, false⟩, 0) := by
  induction lines with
  | nil => rfl
  | cons line rest ih =>
    simp only [confirm_calls, confirm_filename_zero, ih, List.length_cons, List.replicate_succ]

/-- C26: from a force count `n` with `0 <= n <= INT_MAX`, `k` successive calls
of `confirm_filename` (whatever standard input holds at each) return 1 for the
first `min n k` calls and 0 for all later ones, leave the count at `n - k`, or
at 0 when `k` exceeds `n`, and print no question; with the count at 0 a call
returns 0 and leaves the count at 0. -/
theorem confirm_filename_count (n : Nat) (hn : n ≤ 2147483647)
    (lines : List (Option (List Char))) :
    ((confirm_calls lines (n : Int)).1.map fun c => c.result)
        = List.replicate (min n lines.length) 1 ++ List.replicate (lines.length - n) 0
    ∧ (confirm_calls lines (n : Int)).2 = ((n - lines.length : Nat) : Int)
    ∧ (∀ c ∈ (confirm_calls lines (n : Int)).1, c.prompted = false)
    ∧ ∀ line, confirm_filename 0 line = ⟨0, 0, false⟩ := by
  refine ⟨?_, ?_, ?_, confirm_filename_zero⟩
  · induction lines generalizing n with
    | nil => simp [confirm_calls]
    | cons line rest ih =>
      cases n with
      | zero =>
        have h := confirm_calls_zero (line :: rest)
        simp only [Nat.cast_zero, h, List.map_replicate, Nat.zero_min, List.replicate_zero,
          List.nil_append, Nat.sub_zero]
      | succ m =>
        have hc := confirm_filename_forced m hn line
        simp only [Nat.cast_succ] at hc ⊢
        simp only [confirm_calls, hc, List.map_cons, ih m (by omega), List.length_cons,
          Nat.succ_sub_succ, Nat.succ_min_succ, List.replicate_succ, List.cons_append]
  · induction lines generalizing n with
    | nil => simp [confirm_calls]
    | cons line rest ih =>
      cases n with
      | zero =>
        have h := confirm_calls_zero (line :: rest)
        simp only [Nat.cast_zero, h, Nat.zero_sub]
      | succ m =>
        have hc := confirm_filename_forced m hn line
        simp only [Nat.cast_succ] at hc ⊢
        simp only [confirm_calls, hc, ih m (by omega), List.length_cons, Nat.succ_sub_succ]
  · induction lines generalizing n with
    | nil => simp [confirm_calls]
    | cons line rest ih =>
      cases n with
      | zero =>
        have h := confirm_calls_zero (line :: rest)
        intro c hcm
        simp only [Nat.cast_zero, h] at hcm
        rw [List.eq_of_mem_replicate hcm]
      | succ m =>
        have hc := confirm_filename_forced m hn line
        simp only [Nat.cast_succ] at hc ⊢
        intro c hcm
        simp only [confirm_calls, hc, List.mem_cons] at hcm
        rcases hcm with rfl | hcm
        · rfl
        · exact ih m (by omega) c hcm

/-- Five calls from the count 2, with `y` waiting on standard input at each. -/
theorem confirm_filename_count_witness :
    (2 : Nat) ≤ 2147483647
    ∧ ((confirm_calls (List.replicate 5 (some "y\n".toList)) 2).1.map fun c => c.result)
        = [1, 1, 0, 0, 0]
    ∧ (confirm_calls (List.replicate 5 (some "y\n".toList)) 2).2 = 0 :=
  have h := confirm_filename_count 2 (by decide) (List.replicate 5 (some "y\n".toList))
  ⟨by decide, h.1, h.2.1⟩

/-! ### `reheader_file`: the bytes the scan reads -/

theorem next_block_inside (fp : BGZF) (t : Nat) (fp2 : BGZF) (s2 : Nat)
    (hn : next_block fp t = some (fp2, s2)) : s2 < fp2.block_length := by
  unfold next_block at hn
  by_cases ht : t ≥ fp.block_length
  · rw [if_pos ht] at hn
    by_cases hok : (bgzf_read_block fp).1 ≠ 0 ∨ (bgzf_read_block fp).2.block_length = 0
    · simp only [if_pos hok] at hn
      cases hn
    · simp only [if_neg hok, Option.some.injEq, Prod.mk.injEq] at hn
      obtain ⟨hfp, hs⟩ := hn
      subst hfp hs
      have : (bgzf_read_block fp).2.block_length ≠ 0 := fun h0 => hok (Or.inr h0)
      omega
  · rw [if_neg ht] at hn
    simp only [Option.some.injEq, Prod.mk.injEq] at hn
    obtain ⟨hfp, hs⟩ := hn
    subst hfp hs
    omega

theorem skip_loop_reads_inside (meta_char : Int) :
    ∀ (fuel : Nat) (fp : BGZF) (s : Nat), s < fp.block_length →
      ∀ r ∈ skip_loop_reads meta_char fuel fp s, r.1 < r.2 := by
  intro fuel
  induction fuel with
  | zero =>
    intro fp s _ r hr
    simp [skip_loop_reads] at hr
  | succ fuel ih =>
    intro fp s hs r hr
    unfold skip_loop_reads at hr
    rcases List.mem_cons.mp hr with rfl | hr
    · exact hs
    · by_cases hnl : fp.uncompressed_block s = '\n'
      · rw [if_pos hnl] at hr
        cases hn1 : next_block fp (s + 1) with
        | none =>
          rw [hn1] at hr
          simp at hr
        | some p =>
          obtain ⟨fp1, s1⟩ := p
          rw [hn1] at hr
          simp only at hr
          have h1 := next_block_inside fp (s + 1) fp1 s1 hn1
          rcases List.mem_cons.mp hr with rfl | hr
          · exact h1
          · by_cases hm : plain_char (fp1.uncompressed_block s1) ≠ meta_char
            · rw [if_pos hm] at hr
              simp at hr
            · rw [if_neg hm] at hr
              cases hn2 : next_block fp1 (s1 + 1) with
              | none =>
                rw [hn2] at hr
                simp at hr
              | some q =>
                obtain ⟨fp3, s3⟩ := q
                rw [hn2] at hr
                simp only at hr
                exact ih fp3 s3 (next_block_inside fp1 (s1 + 1) fp3 s3 hn2) r hr
      · rw [if_neg hnl] at hr
        cases hn2 : next_block fp (s + 1) with
        | none =>
          rw [hn2] at hr
          simp at hr
        | some q =>
          obtain ⟨fp3, s3⟩ := q
          rw [hn2] at hr
          simp only at hr
          exact ih fp3 s3 (next_block_inside fp (s + 1) fp3 s3 hn2) r hr

/-- When the first frame holds at least two bytes, or holds one that is not the
meta character, every byte the search for the data block reads lies inside the
payload of the frame loaded at that moment. -/
theorem skip_header_reads_inside (meta_char : Int) (fp : BGZF) (hlen : 0 < fp.block_length)
    (hfirst : 2 ≤ fp.block_length ∨ plain_char (fp.uncompressed_block 0) ≠ meta_char) :
    ∀ r ∈ skip_header_reads meta_char fp, r.1 < r.2 := by
  intro r hr
  unfold skip_header_reads at hr
  rcases List.mem_cons.mp hr with rfl | hr
  · exact hlen
  · by_cases hm : plain_char (fp.uncompressed_block 0) = meta_char
    · rw [if_pos hm] at hr
      have h2 : 1 < fp.block_length := by
        rcases hfirst with h | h
        · omega
        · exact absurd hm h
      exact skip_loop_reads_inside meta_char _ fp 1 h2 r hr
    · rw [if_neg hm] at hr
      simp at hr

/-- C21 (the code at a first frame of one byte): in the file of the non-empty
frames `#` and a newline, `b`, a newline, with meta character `#`, the scan
reads offset 0 of the first frame and then offset 1 of the block buffer while
the frame loaded holds one byte only: the second read lies past the end of the
payload. -/
theorem skip_header_reads_past_payload :
    skip_header_reads (plain_char '#') (bgzf_read_block
        (bgzf_open [some "#".toList, some "\nb\n".toList] (fun _ => 'x'))).2
      = [(0, 1), (1, 1), (0, 3), (1, 3)]
    ∧ ∃ r ∈ skip_header_reads (plain_char '#') (bgzf_read_block
        (bgzf_open [some "#".toList, some "\nb\n".toList] (fun _ => 'x'))).2, r.2 ≤ r.1 := by
  have h : skip_header_reads (plain_char '#') (bgzf_read_block
        (bgzf_open [some "#".toList, some "\nb\n".toList] (fun _ => 'x'))).2
      = [(0, 1), (1, 1), (0, 3), (1, 3)] := by decide
  refine ⟨h, (1, 1), ?_, Nat.le_refl 1⟩
  rw [h]
  decide

/-! ### `reheader_file`: the new header and files without a body -/

theorem header_writes_one_page (fuel : Nat) (text : List Char)
    (hlen : text.length = page_size - 1) :
    header_writes (fuel + 2) text = [text] := by
  have hpos : (List.take (page_size - 1) text).length > 0 := by
    rw [List.length_take, hlen]
    decide
  have hfull : ¬ ((List.take (page_size - 1) text).length < page_size - 1
      ∧ (List.take (page_size - 1) text).getLast? ≠ some '\n') := by
    intro h
    have := h.1
    rw [List.length_take, hlen] at this
    simp at this
  have htake : List.take (page_size - 1) text = text := List.take_of_length_le (by omega)
  have hdrop : List.drop (page_size - 1) text = [] := List.drop_eq_nil_iff.mpr (by omega)
  have hnil : header_writes (fuel + 1) [] = [] := by
    simp [header_writes]
  rw [header_writes]
  simp only [hpos, hfull, if_true, if_false, hdrop, hnil]
  rw [htake]

/-- C22 (the code at a header text that fills the read buffer exactly): when
the new header text holds `page_size - 1` = 32767 bytes and does not end with a
newline, the one `fread` is not a short read, no newline is appended, the next
`fread` reads nothing, and the header is written as it is: in the output the
first byte of the body follows the last byte of the header text directly. -/
theorem reheader_file_header_fills_buffer (files : Files) (ftype : Int) (conf : tbx_conf_t)
    (frames : List Frame) (text : List Char) (fp : BGZF) (skip_until : Nat)
    (hftype : Int.land ftype IS_TXT ≠ 0 ∨ ftype = 0)
    (hin : files.input = some frames) (hhdr : files.header = some text)
    (hfirst : ¬ ((bgzf_read_block ⟨frames, files.memory, 0⟩).1 ≠ 0
      ∨ (bgzf_read_block ⟨frames, files.memory, 0⟩).2.block_length = 0))
    (hscan : skip_header conf.meta_char (bgzf_read_block ⟨frames, files.memory, 0⟩).2
      = .found fp skip_until)
    (hlen : text.length = page_size - 1) (hlast : text.getLast? ≠ some '\n') :
    (reheader_file files ftype conf).status = .returned 0
    ∧ header_writes (text.length + 1) text = [text]
    ∧ output_content (reheader_file files ftype conf).events = text ++ remaining fp skip_until
    ∧ (header_writes (text.length + 1) text).flatten.getLast? ≠ some '\n' := by
  have hw : header_writes (text.length + 1) text = [text] := by
    have h := header_writes_one_page (text.length - 1) text hlen
    have hl : text.length - 1 + 2 = text.length + 1 := by
      rw [hlen]
      decide
    rw [hl] at h
    exact h
  have hres := reheader_file_found files ftype conf frames text fp skip_until hftype hin hhdr
    hfirst hscan
  rw [hw] at hres
  simp only [List.flatten_cons, List.flatten_nil, List.append_nil] at hres
  refine ⟨hres.1, hw, hres.2, ?_⟩
  rw [hw]
  simpa using hlast

/-- A new header of 32767 bytes `x` before the body `b` and a newline. -/
theorem reheader_file_header_fills_buffer_witness :
    (List.replicate 32767 'x').length = page_size - 1
    ∧ (List.replicate 32767 'x').getLast? ≠ some '\n'
    ∧ output_content (reheader_file ⟨some [some "b\n".toList], fun _ => ' ',
        some (List.replicate 32767 'x')⟩ 0 ⟨plain_char '#'⟩).events
      = List.replicate 32767 'x' ++ "b\n".toList :=
  have hlen : (List.replicate 32767 'x').length = page_size - 1 := by
    rw [List.length_replicate]
    rfl
  have hlast : (List.replicate 32767 'x').getLast? ≠ some '\n' := by
    rw [List.getLast?_replicate]
    decide
  have h := reheader_file_header_fills_buffer
    ⟨some [some "b\n".toList], fun _ => ' ', some (List.replicate 32767 'x')⟩ 0 ⟨plain_char '#'⟩
    [some "b\n".toList] (List.replicate 32767 'x')
    (bgzf_read_block ⟨[some "b\n".toList], fun _ => ' ', 0⟩).2 0
    (by decide) rfl rfl (by decide) rfl hlen hlast
  ⟨hlen, hlast, h.2.2.1.trans (by
    congr 1)⟩

theorem reheader_file_no_body (files : Files) (ftype : Int) (conf : tbx_conf_t)
    (f0 : List Char) (rest : List (List Char))
    (hftype : Int.land ftype IS_TXT ≠ 0 ∨ ftype = 0)
    (hmeta : conf.meta_char ≠ plain_char '\n')
    (hne : ∀ f ∈ f0 :: rest, f ≠ [])
    (hfirst : 2 ≤ f0.length ∨ f0.head?.map plain_char ≠ some conf.meta_char)
    (hin : files.input = some ((f0 :: rest).map some))
    (hbody : body_offset conf.meta_char true (f0 :: rest).flatten = none) :
    reheader_file files ftype conf = ⟨.exited "FIXME: No body in the file", [.open_input]⟩ := by
  have hf0 : f0 ≠ [] := hne f0 (List.mem_cons_self _ _)
  have hlen0 : f0.length ≠ 0 := fun h => hf0 (List.length_eq_zero.mp h)
  have hread : ¬ ((bgzf_read_block ⟨(f0 :: rest).map some, files.memory, 0⟩).1 ≠ 0
      ∨ (bgzf_read_block ⟨(f0 :: rest).map some, files.memory, 0⟩).2.block_length = 0) := by
    simp [bgzf_read_block, hlen0]
  have hscan := (skip_header_spec conf.meta_char hmeta f0 rest files.memory hne hfirst).2 hbody
  simp only [bgzf_open] at hscan
  simp only [reheader_file, if_pos hftype, hin, if_neg hread, hscan]

/-- C25 (the code at a first frame of one byte): the content `#` and a newline
has no body line, its only line begins with the meta character `#`.  Split into
the frames `#` and a newline, with a newline left at offset 1 of the block
buffer, the scan stops on the newline that ends the header line, and
`reheader_file` opens the output, writes the new header and that newline, and
returns 0. -/
theorem reheader_file_no_body_line_written :
    body_offset (plain_char '#') true "#\n".toList = none
    ∧ reheader_file ⟨some [some "#".toList, some "\n".toList], fun _ => '\n',
        some "#new\n".toList⟩ 0 ⟨plain_char '#'⟩
      = ⟨.returned 0, [.open_input, .open_header, .open_output, .write "#new\n".toList,
          .close_header, .write "\n".toList, .flush, .raw_copy [], .close_output,
          .close_input]⟩ := by
  decide

/-! ### `parse_regions`: order and count -/

theorem eraseDups_loop_mem (x : String) :
    ∀ (as bs : List String), x ∈ List.eraseDups.loop as bs ↔ x ∈ as ∨ x ∈ bs := by
  intro as
  induction as with
  | nil =>
    intro bs
    simp [List.eraseDups.loop]
  | cons a as ih =>
    intro bs
    unfold List.eraseDups.loop
    cases h : bs.elem a with
    | true =>
      have ha : a ∈ bs := List.elem_iff.mp h
      simp only [ih bs, List.mem_cons]
      constructor
      · rintro (h1 | h1)
        · exact Or.inl (Or.inr h1)
        · exact Or.inr h1
      · rintro ((h1 | h1) | h1)
        · exact Or.inr (h1 ▸ ha)
        · exact Or.inl h1
        · exact Or.inr h1
    | false =>
      simp only [ih (a :: bs), List.mem_cons]
      constructor
      · rintro (h1 | h1 | h1)
        · exact Or.inl (Or.inr h1)
        · exact Or.inl (Or.inl h1)
        · exact Or.inr h1
      · rintro ((h1 | h1) | h1)
        · exact Or.inr (Or.inl h1)
        · exact Or.inl h1
        · exact Or.inr (Or.inr h1)

theorem eraseDups_loop_nodup :
    ∀ (as bs : List String), bs.Nodup → (List.eraseDups.loop as bs).Nodup := by
  intro as
  induction as with
  | nil =>
    intro bs hbs
    simp only [List.eraseDups.loop]
    exact List.nodup_reverse.mpr hbs
  | cons a as ih =>
    intro bs hbs
    unfold List.eraseDups.loop
    cases h : bs.elem a with
    | true => exact ih bs hbs
    | false =>
      have ha : a ∉ bs := fun hmem => by
        have := List.elem_iff.mpr hmem
        rw [h] at this
        cases this
      exact ih (a :: bs) (List.nodup_cons.mpr ⟨ha, hbs⟩)

/-- The names `regidx_seq_names` gives are the sequence names of the intervals,
each once. -/
theorem regidx_seq_names_spec (idx : regidx_t) :
    (regidx_seq_names idx).Nodup
    ∧ ∀ s, s ∈ regidx_seq_names idx ↔ ∃ r ∈ idx, r.seq = s := by
  constructor
  · exact eraseDups_loop_nodup _ [] List.nodup_nil
  · intro s
    simp only [regidx_seq_names, List.eraseDups, eraseDups_loop_mem, List.mem_map,
      List.not_mem_nil, or_false]

theorem flatMap_by_seq_length (g : String → reg_t → String) :
    ∀ (L : List String), L.Nodup → ∀ (xs : regidx_t), (∀ r ∈ xs, r.seq ∈ L) →
      (L.flatMap fun seq => (xs.filter fun r => r.seq == seq).map (g seq)).length
        = xs.length := by
  intro L
  induction L with
  | nil =>
    intro _ xs hcover
    cases xs with
    | nil => rfl
    | cons r rs => exact absurd (hcover r (List.mem_cons_self _ _)) (List.not_mem_nil _)
  | cons s L ih =>
    intro hL xs hcover
    obtain ⟨hs, hL2⟩ := List.nodup_cons.mp hL
    have hrest : (L.flatMap fun seq => (xs.filter fun r => r.seq == seq).map (g seq))
        = L.flatMap fun seq =>
            ((xs.filter fun r => !(r.seq == s)).filter fun r => r.seq == seq).map (g seq) := by
      apply List.flatMap_congr
      intro seq hseq
      congr 1
      rw [List.filter_filter]
      apply List.filter_congr
      intro r _
      by_cases hr : r.seq = seq
      · subst hr
        have hne : ¬ r.seq = s := fun h => hs (h ▸ hseq)
        simp [hne]
      · simp [hr]
    have hcover2 : ∀ r ∈ xs.filter (fun r => !(r.seq == s)), r.seq ∈ L := by
      intro r hr
      obtain ⟨hmem, hne⟩ := List.mem_filter.mp hr
      have hne2 : r.seq ≠ s := by simpa using hne
      rcases List.mem_cons.mp (hcover r hmem) with h | h
      · exact absurd h hne2
      · exact h
    rw [List.flatMap_cons, List.length_append, hrest, ih hL2 _ hcover2, List.length_map]
    exact (List.length_eq_length_filter_add (fun r : reg_t => r.seq == s)).symm

theorem regitr_overlap_all (idx : regidx_t) (seq : String)
    (hrange : ∀ r ∈ idx, 0 ≤ r.fin ∧ r.beg ≤ HTS_POS_MAX) :
    regitr_overlap idx seq 0 HTS_POS_MAX = idx.filter fun r => r.seq == seq := by
  unfold regitr_overlap
  apply List.filter_congr
  intro r hr
  obtain ⟨h1, h2⟩ := hrange r hr
  rw [decide_eq_true h2, decide_eq_true h1, Bool.and_true, Bool.and_true]

/-- C23: for a regions file whose intervals all lie in the range the iterator is
asked for, the entries `parse_regions` fills are the regions of the file, taken
sequence by sequence (each sequence once) and within a sequence in the order of
the index, every interval once, followed by the regions of the command line in
the order given, and the count it reports is the number of these entries; when
the file holds no interval and no region is given on the command line, the
result is the one region `.` with the count 1. -/
theorem parse_regions_order (regidx_init : String → Option regidx_t) (name : String)
    (argv : List String) (idx : regidx_t) (hidx : regidx_init name = some idx)
    (hrange : ∀ r ∈ idx, 0 ≤ r.fin ∧ r.beg ≤ HTS_POS_MAX) :
    file_regions idx
        = ((regidx_seq_names idx).flatMap fun seq =>
            (idx.filter fun r => r.seq == seq).map fun r =>
              region_text seq (hts_pos_wrap (r.beg + 1)) (hts_pos_wrap (r.fin + 1)))
    ∧ (file_regions idx).length = idx.length
    ∧ parse_regions regidx_init (some name) argv
        = (if idx = [] ∧ argv = [] then .regions ["."] 1
           else .regions (file_regions idx ++ argv) (file_regions idx ++ argv).length) := by
  have hfile : file_regions idx
      = ((regidx_seq_names idx).flatMap fun seq =>
          (idx.filter fun r => r.seq == seq).map fun r =>
            region_text seq (hts_pos_wrap (r.beg + 1)) (hts_pos_wrap (r.fin + 1))) := by
    unfold file_regions
    apply List.flatMap_congr
    intro seq _
    rw [regitr_overlap_all idx seq hrange]
  have hlen : (file_regions idx).length = idx.length := by
    rw [hfile]
    exact flatMap_by_seq_length
      (fun seq r => region_text seq (hts_pos_wrap (r.beg + 1)) (hts_pos_wrap (r.fin + 1)))
      (regidx_seq_names idx) (regidx_seq_names_spec idx).1 idx
      (fun r hr => ((regidx_seq_names_spec idx).2 r.seq).mpr ⟨r, hr, rfl⟩)
  refine ⟨hfile, hlen, ?_⟩
  simp only [parse_regions, hidx, regidx_nregs]
  by_cases hnil : idx = []
  · subst hnil
    have hf : file_regions [] = [] := rfl
    by_cases ha : argv = []
    · subst ha
      simp [hf]
    · have hal : ¬ argv.length = 0 := fun h => ha (List.length_eq_zero.mp h)
      simp [ha, hf, hal]
  · have hl : ¬ (file_regions idx).length = 0 := by
      rw [hlen]
      exact fun h => hnil (List.length_eq_zero.mp h)
    have hcount : argv.length + idx.length = (file_regions idx ++ argv).length := by
      rw [List.length_append, hlen]
      omega
    have hcond : ¬ (idx = [] ∧ argv = []) := fun h => hnil h.1
    rw [if_neg hl, if_neg hcond, hcount]

/-- A regions file with intervals on `chr1`, `chr2` and `chr1` again, and the
command-line region `chrX`; and an empty regions file without command-line
regions. -/
theorem parse_regions_order_witness :
    (∀ r ∈ ([⟨"chr1", 10, 19⟩, ⟨"chr2", 0, 4⟩, ⟨"chr1", 100, 109⟩] : regidx_t),
      0 ≤ r.fin ∧ r.beg ≤ HTS_POS_MAX)
    ∧ parse_regions (fun _ => some [⟨"chr1", 10, 19⟩, ⟨"chr2", 0, 4⟩, ⟨"chr1", 100, 109⟩])
        (some "r.bed") ["chrX"]
      = .regions ["chr1:11-20", "chr1:101-110", "chr2:1-5", "chrX"] 4
    ∧ parse_regions (fun _ => some []) (some "r.bed") [] = .regions ["."] 1 :=
  have hr : ∀ r ∈ ([⟨"chr1", 10, 19⟩, ⟨"chr2", 0, 4⟩, ⟨"chr1", 100, 109⟩] : regidx_t),
      0 ≤ r.fin ∧ r.beg ≤ HTS_POS_MAX := by
    decide
  ⟨hr,
   (parse_regions_order (fun _ => some [⟨"chr1", 10, 19⟩, ⟨"chr2", 0, 4⟩, ⟨"chr1", 100, 109⟩])
      "r.bed" ["chrX"] [⟨"chr1", 10, 19⟩, ⟨"chr2", 0, 4⟩, ⟨"chr1", 100, 109⟩] rfl hr).2.2.trans
      (by decide),
   (parse_regions_order (fun _ => some []) "r.bed" [] [] rfl
      (fun r hr => absurd hr (List.not_mem_nil r))).2.2.trans (by decide)⟩

/-! ### `query_regions` and `reheader_file`: where the header ends -/

theorem lines_from_line (t rest : List Char) (ht : '\n' ∉ t) :
    ∀ cur : List Char,
      lines_from cur (t ++ '\n' :: rest) = (cur.reverse ++ t) :: lines_from [] rest := by
  induction t with
  | nil =>
    intro cur
    simp [lines_from]
  | cons c t ih =>
    intro cur
    have hc : c ≠ '\n' := fun h => ht (h ▸ List.mem_cons_self _ _)
    have ht2 : '\n' ∉ t := fun h => ht (List.mem_cons_of_mem _ h)
    simp only [List.cons_append, lines_from, if_neg hc, List.append_eq, ih ht2 (c :: cur),
      List.reverse_cons, List.append_assoc, List.singleton_append, List.nil_append]

theorem lines_from_first (cs : List Char) :
    ∀ cur : List Char, cur ≠ [] → ∃ t rest, lines_from cur cs = (cur.reverse ++ t) :: rest := by
  induction cs with
  | nil =>
    intro cur hcur
    exact ⟨[], [], by simp [lines_from, hcur]⟩
  | cons c cs ih =>
    intro cur hcur
    by_cases hc : c = '\n'
    · exact ⟨[], lines_from [] cs, by simp [lines_from, hc]⟩
    · obtain ⟨t, rest, h⟩ := ih (c :: cur) (List.cons_ne_nil _ _)
      exact ⟨c :: t, rest, by simp [lines_from, hc, h]⟩

theorem text_lines_header (meta_char : Int) (X : List Char) :
    ∀ H : List (List Char), (∀ l ∈ H, is_header_line meta_char l) →
      text_lines (H.flatten ++ X) = H.map List.dropLast ++ text_lines X := by
  intro H
  induction H with
  | nil =>
    intro _
    rfl
  | cons l H ih =>
    intro hH
    obtain ⟨body, hl, hbody, _⟩ := hH l (List.mem_cons_self _ _)
    have hrest := ih (fun l hl => hH l (List.mem_cons_of_mem _ hl))
    unfold text_lines at hrest ⊢
    rw [hl, List.flatten_cons, List.append_assoc, List.append_assoc, List.singleton_append,
      lines_from_line body _ hbody [], hrest]
    simp

theorem text_lines_body (meta_char : Int) (B : List Char) (hB : B ≠ [])
    (hB0 : B.head?.map plain_char ≠ some meta_char) :
    ∃ b rest, text_lines B = b :: rest ∧ (b.length = 0 ∨ b.head?.map plain_char ≠ some meta_char) := by
  cases B with
  | nil => exact absurd rfl hB
  | cons c cs =>
    by_cases hc : c = '\n'
    · exact ⟨[], lines_from [] cs, by simp [text_lines, lines_from, hc], Or.inl rfl⟩
    · obtain ⟨t, rest, h⟩ := lines_from_first cs [c] (List.cons_ne_nil _ _)
      refine ⟨c :: t, rest, ?_, Or.inr ?_⟩
      · simp only [text_lines, lines_from, if_neg hc, h]
        rfl
      · simpa using hB0

theorem header_loop_break (meta_char : Int) (last : Int) (b : List Char)
    (rest : List (List Char)) (hb : b.length = 0 ∨ b.head?.map plain_char ≠ some meta_char) :
    ∀ H : List (List Char), (∀ l ∈ H, l.head?.map plain_char = some meta_char) →
      header_loop meta_char last (H ++ b :: rest)
        = (H.map Emitted.header_line, (b.length : Int)) := by
  intro H
  induction H with
  | nil =>
    intro _
    simp only [List.nil_append, header_loop, if_pos hb, List.map_nil]
  | cons l H ih =>
    intro hH
    have hl := hH l (List.mem_cons_self _ _)
    have hne : ¬ (l.length = 0 ∨ l.head?.map plain_char ≠ some meta_char) := by
      intro h
      rcases h with h | h
      · rw [List.length_eq_zero.mp h] at hl
        cases hl
      · exact h hl
    simp only [List.cons_append, header_loop, if_neg hne, List.append_eq,
      ih (fun l hl => hH l (List.mem_cons_of_mem _ hl)), List.map_cons]

/-- What `query_regions` writes in the text branch when the index loads and the
header loop meets no failure: what the header loop writes, then the records of
the scanned regions when `header_only` is clear. -/
theorem query_regions_text_stdout (w : World) (args : args_t) (regs : List String)
    (download : Int) (format : htsExactFormat) (reg_idx : Option regidx_t) (tbx : tbx_t)
    (seq : List String)
    (hopen : w.hts_open = some format) (htext : is_text_branch format = true)
    (htargets : load_targets w args = some reg_idx)
    (hidx : w.tbx_index_load3 (index_flags download) = some tbx)
    (hhead : ¬ (print_header_lines w args tbx).2 < -1)
    (hnames : args.header_only = 0 → filter_seqnames tbx reg_idx = some seq) :
    (query_regions w args regs download).stdout
      = (print_header_lines w args tbx).1
        ++ (if args.header_only = 0
          then (regions_scanned (fun reg => read_fails (tbx_itr_querys w tbx reg)) regs).flatMap
            (tbx_region_out w tbx reg_idx seq)
          else []) := by
  by_cases hbody : args.header_only = 0
  · have hs : TextScan w args download tbx reg_idx seq :=
      ⟨⟨format, hopen, htext⟩, htargets, hidx, hhead, hbody, hnames hbody⟩
    rw [query_regions_text w args download tbx reg_idx seq hs regs, stdout_exit_or_finish,
      tbx_regions_loop_fst, if_pos hbody]
  · have hbcf : format ≠ .bcf := by
      intro hb
      rw [hb] at htext
      exact absurd htext (by decide)
    simp only [query_regions, hopen, htargets, hidx, hhead, hbody, hbcf, htext, if_false, if_true,
      query_finish_stdout, List.append_nil]

/-- C24 as stated fails: with the newline as meta character and the content of
an empty line, the line `a` and the line `b`, `query_regions` prints no header
line (the first line is empty, which ends its loop), while `reheader_file`
splits the file behind the line `a`: it replaces the first two lines. -/
theorem header_boundary_newline_meta_counterexample :
    (query_regions
        { demo_world .vcf with
          getline := (text_lines "\na\nb\n".toList, -1)
          tbx_index_load3 := fun _ => some { demo_tbx with conf := ⟨plain_char '\n'⟩ } }
        ⟨none, none, 1, 1, 0⟩ [] 0).stdout = []
    ∧ text_lines "\na\nb\n".toList = ["".toList, "a".toList, "b".toList]
    ∧ output_content (reheader_file ⟨some [some "\na\nb\n".toList], fun _ => ' ',
        some "#new\n".toList⟩ 0 ⟨plain_char '\n'⟩).events = "#new\nb\n".toList := by
  decide

/-- C24, amended: for a text file type, a meta character other than newline, a
file made of zero or more header lines that each begin with the meta character
and a non-empty body whose first byte is not the meta character, split into
non-empty frames whose first frame holds at least two bytes when the header is
not empty: there is one offset `p` of the content such that `reheader_file`
writes the new header followed by the content from `p` on, and `query_regions`
with `print_header` set, in the text branch with the index loaded, writes as
header exactly the lines of the content before `p`, and after them the records
when `header_only` is clear. -/
theorem header_boundary_agrees (w : World) (args : args_t) (regs : List String)
    (download : Int) (format : htsExactFormat) (reg_idx : Option regidx_t) (tbx : tbx_t)
    (seq : List String) (files : Files) (ftype : Int) (conf : tbx_conf_t)
    (H1 : List (List Char)) (B H2 : List Char) (frames : List (List Char))
    (hopen : w.hts_open = some format) (htext : is_text_branch format = true)
    (htargets : load_targets w args = some reg_idx)
    (hidx : w.tbx_index_load3 (index_flags download) = some tbx)
    (hnames : args.header_only = 0 → filter_seqnames tbx reg_idx = some seq)
    (hprint : args.print_header ≠ 0)
    (hconf : tbx.conf = conf)
    (hlines : w.getline.1 = text_lines frames.flatten)
    (hftype : Int.land ftype IS_TXT ≠ 0 ∨ ftype = 0)
    (hmeta : conf.meta_char ≠ plain_char '\n')
    (hH1 : ∀ l ∈ H1, is_header_line conf.meta_char l)
    (hB : B ≠ []) (hB0 : B.head?.map plain_char ≠ some conf.meta_char)
    (hsplit : frames.flatten = H1.flatten ++ B) (hne : ∀ f ∈ frames, f ≠ [])
    (hfirst : H1 ≠ [] → ∀ f ∈ frames.head?, 2 ≤ f.length)
    (hin : files.input = some (frames.map some)) (hhdr : files.header = some H2) :
    ∃ p, output_content (reheader_file files ftype conf).events
        = (header_writes (H2.length + 1) H2).flatten ++ frames.flatten.drop p
      ∧ (query_regions w args regs download).stdout
        = (text_lines (frames.flatten.take p)).map Emitted.header_line
          ++ (if args.header_only = 0
            then (regions_scanned (fun reg => read_fails (tbx_itr_querys w tbx reg)) regs).flatMap
              (tbx_region_out w tbx reg_idx seq)
            else []) := by
  refine ⟨H1.flatten.length, ?_, ?_⟩
  · cases frames with
    | nil =>
      simp only [List.flatten_nil] at hsplit
      have := List.append_eq_nil.mp hsplit.symm
      exact absurd this.2 hB
    | cons f0 rest =>
      have hf0 : f0 ≠ [] := hne f0 (List.mem_cons_self _ _)
      have hlen0 : f0.length ≠ 0 := fun h => hf0 (List.length_eq_zero.mp h)
      have hread : ¬ ((bgzf_read_block ⟨(f0 :: rest).map some, files.memory, 0⟩).1 ≠ 0
          ∨ (bgzf_read_block ⟨(f0 :: rest).map some, files.memory, 0⟩).2.block_length = 0) := by
        simp [bgzf_read_block, hlen0]
      obtain ⟨fp, s, hscan, hremB⟩ := skip_header_boundary conf.meta_char hmeta H1 B f0 rest
        files.memory hH1 hB hB0 hsplit hne (fun h => hfirst h f0 (by simp))
      have hres := reheader_file_found files ftype conf _ H2 fp s hftype hin hhdr hread hscan
      rw [hres.2, hremB, hsplit, List.drop_left]
  · have hlines2 : w.getline.1 = H1.map List.dropLast ++ text_lines B := by
      rw [hlines, hsplit]
      exact text_lines_header conf.meta_char B H1 hH1
    obtain ⟨b, rest, hbl, hb⟩ := text_lines_body conf.meta_char B hB hB0
    have hheads : ∀ l ∈ H1.map List.dropLast, l.head?.map plain_char = some conf.meta_char := by
      intro l hl
      obtain ⟨l0, hl0, rfl⟩ := List.mem_map.mp hl
      obtain ⟨body, hbody, _, hhead⟩ := hH1 l0 hl0
      rw [hbody] at hhead ⊢
      rw [List.dropLast_concat]
      cases body with
      | nil =>
        simp only [List.nil_append, List.head?_cons, Option.map_some', Option.some.injEq] at hhead
        exact absurd hhead.symm hmeta
      | cons c t => simpa using hhead
    have hloop : print_header_lines w args tbx
        = ((H1.map List.dropLast).map Emitted.header_line, (b.length : Int)) := by
      unfold print_header_lines
      rw [if_pos hprint, hlines2, hbl, hconf]
      exact header_loop_break conf.meta_char _ b rest hb _ hheads
    have hhead : ¬ (print_header_lines w args tbx).2 < -1 := by
      rw [hloop]
      simp only
      omega
    have htake : text_lines (frames.flatten.take H1.flatten.length) = H1.map List.dropLast := by
      rw [hsplit, List.take_left]
      have h := text_lines_header conf.meta_char [] H1 hH1
      rw [List.append_nil] at h
      rw [h]
      simp [text_lines, lines_from]
    rw [query_regions_text_stdout w args regs download format reg_idx tbx seq hopen htext htargets
      hidx hhead hnames, hloop, htake]

/-- The file `demo_text`, with meta character `#`: the boundary is offset 6. -/
theorem header_boundary_agrees_witness :
    (∃ p, output_content (reheader_file demo_files 0 ⟨plain_char '#'⟩).events
        = (header_writes ("#new\n".toList.length + 1) "#new\n".toList).flatten
          ++ demo_text.flatten.drop p
      ∧ (query_regions demo_world_text demo_args_header ["chr1:15-16"] 0).stdout
        = (text_lines (demo_text.flatten.take p)).map Emitted.header_line
          ++ (if demo_args_header.header_only = 0
            then (regions_scanned
                (fun reg => read_fails (tbx_itr_querys demo_world_text demo_tbx reg))
                ["chr1:15-16"]).flatMap
              (tbx_region_out demo_world_text demo_tbx none [])
            else []))
    ∧ output_content (reheader_file demo_files 0 ⟨plain_char '#'⟩).events = "#new\nxyz\n".toList
    ∧ (query_regions demo_world_text demo_args_header ["chr1:15-16"] 0).stdout
      = [.header_line "#a".toList, .header_line "#b".toList, .line "chr1\t11\t20"] :=
  ⟨header_boundary_agrees demo_world_text demo_args_header ["chr1:15-16"] 0 .vcf none demo_tbx []
    demo_files 0 ⟨plain_char '#'⟩ ["#a\n".toList, "#b\n".toList] "xyz\n".toList "#new\n".toList demo_text
    rfl rfl rfl rfl (fun _ => rfl) (by decide) rfl rfl (by decide) (by decide)
    (by
      intro l hl
      simp only [List.mem_cons, List.mem_singleton, List.not_mem_nil, or_false] at hl
      rcases hl with rfl | rfl
      · exact ⟨"#a".toList, by decide, by decide, by decide⟩
      · exact ⟨"#b".toList, by decide, by decide, by decide⟩)
    (by decide) (by decide) (by decide) (by decide) (by decide) rfl rfl,
   by decide, by decide⟩

/-! ### `fastpos_table.c`: the table `lzma_fastpos` -/

theorem halvings_eq_log2 : ∀ (fuel n : Nat), n < 2 ^ fuel → halvings fuel n = Nat.log2 n := by
  intro fuel
  induction fuel with
  | zero =>
    intro n hn
    have h0 : n = 0 := by simpa using hn
    subst h0
    rw [Nat.log2]
    simp [halvings]
  | succ fuel ih =>
    intro n hn
    rw [Nat.log2]
    by_cases h2 : n < 2
    · have hge : ¬ n ≥ 2 := by omega
      simp only [halvings, if_pos h2, if_neg hge]
    · have hge : n ≥ 2 := by omega
      have hhalf : n / 2 < 2 ^ fuel := by
        rw [Nat.pow_succ] at hn
        omega
      simp only [halvings, if_neg h2, if_pos hge, ih (n / 2) hhalf]

theorem table_matches_eq (f : Nat → Nat) :
    ∀ (i : Nat) (l : List Nat) (n : Nat), table_matches f i l = true → l.length = n →
      l = (List.range' i n).map f := by
  intro i l
  induction l generalizing i with
  | nil =>
    intro n _ hn
    simp only [List.length_nil] at hn
    subst hn
    rfl
  | cons x xs ih =>
    intro n h hn
    simp only [table_matches, Bool.and_eq_true, beq_iff_eq] at h
    simp only [List.length_cons] at hn
    subst hn
    rw [List.range'_succ, List.map_cons, ← ih (i + 1) xs.length h.2 rfl, h.1]

theorem lzma_fastpos_0_eq :
    lzma_fastpos_0 = (List.range' 0 512).map fastpos_by_halving :=
  table_matches_eq fastpos_by_halving 0 lzma_fastpos_0 512 (by decide!) (by decide!)

theorem lzma_fastpos_1_eq :
    lzma_fastpos_1 = (List.range' 512 512).map fastpos_by_halving :=
  table_matches_eq fastpos_by_halving 512 lzma_fastpos_1 512 (by decide!) (by decide!)

theorem lzma_fastpos_2_eq :
    lzma_fastpos_2 = (List.range' 1024 512).map fastpos_by_halving :=
  table_matches_eq fastpos_by_halving 1024 lzma_fastpos_2 512 (by decide!) (by decide!)

theorem lzma_fastpos_3_eq :
    lzma_fastpos_3 = (List.range' 1536 512).map fastpos_by_halving :=
  table_matches_eq fastpos_by_halving 1536 lzma_fastpos_3 512 (by decide!) (by decide!)

theorem lzma_fastpos_4_eq :
    lzma_fastpos_4 = (List.range' 2048 512).map fastpos_by_halving :=
  table_matches_eq fastpos_by_halving 2048 lzma_fastpos_4 512 (by decide!) (by decide!)

theorem lzma_fastpos_5_eq :
    lzma_fastpos_5 = (List.range' 2560 512).map fastpos_by_halving :=
  table_matches_eq fastpos_by_halving 2560 lzma_fastpos_5 512 (by decide!) (by decide!)

theorem lzma_fastpos_6_eq :
    lzma_fastpos_6 = (List.range' 3072 512).map fastpos_by_halving :=
  table_matches_eq fastpos_by_halving 3072 lzma_fastpos_6 512 (by decide!) (by decide!)

theorem lzma_fastpos_7_eq :
    lzma_fastpos_7 = (List.range' 3584 512).map fastpos_by_halving :=
  table_matches_eq fastpos_by_halving 3584 lzma_fastpos_7 512 (by decide!) (by decide!)

theorem lzma_fastpos_8_eq :
    lzma_fastpos_8 = (List.range' 4096 512).map fastpos_by_halving :=
  table_matches_eq fastpos_by_halving 4096 lzma_fastpos_8 512 (by decide!) (by decide!)

theorem lzma_fastpos_9_eq :
    lzma_fastpos_9 = (List.range' 4608 512).map fastpos_by_halving :=
  table_matches_eq fastpos_by_halving 4608 lzma_fastpos_9 512 (by decide!) (by decide!)

theorem lzma_fastpos_10_eq :
    lzma_fastpos_10 = (List.range' 5120 512).map fastpos_by_halving :=
  table_matches_eq fastpos_by_halving 5120 lzma_fastpos_10 512 (by decide!) (by decide!)

theorem lzma_fastpos_11_eq :
    lzma_fastpos_11 = (List.range' 5632 512).map fastpos_by_halving :=
  table_matches_eq fastpos_by_halving 5632 lzma_fastpos_11 512 (by decide!) (by decide!)

theorem lzma_fastpos_12_eq :
    lzma_fastpos_12 = (List.range' 6144 512).map fastpos_by_halving :=
  table_matches_eq fastpos_by_halving 6144 lzma_fastpos_12 512 (by decide!) (by decide!)

theorem lzma_fastpos_13_eq :
    lzma_fastpos_13 = (List.range' 6656 512).map fastpos_by_halving :=
  table_matches_eq fastpos_by_halving 6656 lzma_fastpos_13 512 (by decide!) (by decide!)

theorem lzma_fastpos_14_eq :
    lzma_fastpos_14 = (List.range' 7168 512).map fastpos_by_halving :=
  table_matches_eq fastpos_by_halving 7168 lzma_fastpos_14 512 (by decide!) (by decide!)

theorem lzma_fastpos_15_eq :
    lzma_fastpos_15 = (List.range' 7680 512).map fastpos_by_halving :=
  table_matches_eq fastpos_by_halving 7680 lzma_fastpos_15 512 (by decide!) (by decide!)

theorem map_range_append (f : Nat → Nat) (s m t n : Nat) (h : t = s + m) :
    (List.range' s m).map f ++ (List.range' t n).map f = (List.range' s (m + n)).map f := by
  subst h
  rw [← List.map_append, List.range'_append_1, Nat.add_comm]

theorem lzma_fastpos_eq : lzma_fastpos = (List.range' 0 8192).map fastpos_by_halving := by
  unfold lzma_fastpos
  rw [lzma_fastpos_0_eq, lzma_fastpos_1_eq, lzma_fastpos_2_eq, lzma_fastpos_3_eq, lzma_fastpos_4_eq, lzma_fastpos_5_eq, lzma_fastpos_6_eq, lzma_fastpos_7_eq, lzma_fastpos_8_eq, lzma_fastpos_9_eq, lzma_fastpos_10_eq, lzma_fastpos_11_eq, lzma_fastpos_12_eq, lzma_fastpos_13_eq, lzma_fastpos_14_eq, lzma_fastpos_15_eq]
  rw [map_range_append fastpos_by_halving 0 512 512 512 rfl,
    map_range_append fastpos_by_halving 0 1024 1024 512 rfl,
    map_range_append fastpos_by_halving 0 1536 1536 512 rfl,
    map_range_append fastpos_by_halving 0 2048 2048 512 rfl,
    map_range_append fastpos_by_halving 0 2560 2560 512 rfl,
    map_range_append fastpos_by_halving 0 3072 3072 512 rfl,
    map_range_append fastpos_by_halving 0 3584 3584 512 rfl,
    map_range_append fastpos_by_halving 0 4096 4096 512 rfl,
    map_range_append fastpos_by_halving 0 4608 4608 512 rfl,
    map_range_append fastpos_by_halving 0 5120 5120 512 rfl,
    map_range_append fastpos_by_halving 0 5632 5632 512 rfl,
    map_range_append fastpos_by_halving 0 6144 6144 512 rfl,
    map_range_append fastpos_by_halving 0 6656 6656 512 rfl,
    map_range_append fastpos_by_halving 0 7168 7168 512 rfl,
    map_range_append fastpos_by_halving 0 7680 7680 512 rfl]

theorem lzma_fastpos_get (i : Nat) (hi : i < 8192) :
    lzma_fastpos[i]? = some (fastpos_by_halving i) := by
  rw [lzma_fastpos_eq, List.getElem?_map, List.getElem?_range' 0 1 hi]
  simp

theorem fastpos_by_halving_eq (i : Nat) (h2 : 2 ≤ i) (hi : i < 8192) :
    fastpos_by_halving i = fastpos_closed_form i := by
  have hl := halvings_eq_log2 13 i (by omega)
  have hlt : ¬ i < 2 := by omega
  simp only [fastpos_by_halving, if_neg hlt, hl, fastpos_closed_form]

theorem fastpos_closed_form_mono (i j : Nat) (h2 : 2 ≤ i) (hij : i ≤ j) :
    fastpos_closed_form i ≤ fastpos_closed_form j := by
  have hi0 : i ≠ 0 := by omega
  have hj0 : j ≠ 0 := by omega
  have hki : 1 ≤ Nat.log2 i := (Nat.le_log2 hi0).mpr (by omega)
  have hkj : 1 ≤ Nat.log2 j := (Nat.le_log2 hj0).mpr (by omega)
  have hkm : Nat.log2 i ≤ Nat.log2 j :=
    (Nat.le_log2 hj0).mpr (Nat.le_trans (Nat.log2_self_le hi0) hij)
  have hbi : (i / 2 ^ (Nat.log2 i - 1)) % 2 ≤ 1 := by omega
  unfold fastpos_closed_form
  rcases Nat.lt_or_eq_of_le hkm with hlt | heq
  · omega
  · rw [← heq]
    have hd : 0 < 2 ^ (Nat.log2 i - 1) := Nat.two_pow_pos _
    have hpow : 2 ^ Nat.log2 i = 2 * 2 ^ (Nat.log2 i - 1) := by
      have : Nat.log2 i = (Nat.log2 i - 1) + 1 := by omega
      rw [this, Nat.pow_succ, Nat.add_sub_cancel]
      omega
    have hlo : 2 ^ Nat.log2 i ≤ i := Nat.log2_self_le hi0
    have hhi : j < 2 ^ (Nat.log2 j + 1) := Nat.lt_log2_self
    rw [← heq, Nat.pow_succ, hpow] at hhi
    rw [hpow] at hlo
    have ha : 2 ≤ i / 2 ^ (Nat.log2 i - 1) := (Nat.le_div_iff_mul_le hd).mpr hlo
    have hb : j / 2 ^ (Nat.log2 i - 1) < 4 := (Nat.div_lt_iff_lt_mul hd).mpr (by omega)
    have hab : i / 2 ^ (Nat.log2 i - 1) ≤ j / 2 ^ (Nat.log2 i - 1) := Nat.div_le_div_right hij
    omega

theorem fastpos_by_halving_mono (i j : Nat) (hij : i ≤ j) (hj : j < 8192) :
    fastpos_by_halving i ≤ fastpos_by_halving j := by
  by_cases h2 : 2 ≤ i
  · rw [fastpos_by_halving_eq i h2 (by omega), fastpos_by_halving_eq j (by omega) hj]
    exact fastpos_closed_form_mono i j h2 hij
  · by_cases hj2 : 2 ≤ j
    · have hfi : fastpos_by_halving i = i := by
        simp only [fastpos_by_halving, if_pos (show i < 2 by omega)]
      have hfj : 2 ≤ fastpos_closed_form j := by
        have hkj : 1 ≤ Nat.log2 j := (Nat.le_log2 (by omega)).mpr (by omega)
        unfold fastpos_closed_form
        omega
      rw [hfi, fastpos_by_halving_eq j hj2 hj]
      omega
    · simp only [fastpos_by_halving, if_pos (show i < 2 by omega), if_pos (show j < 2 by omega)]
      exact hij

/-- C27: the table `lzma_fastpos` has 8192 entries, the entries 0 and 1 are 0
and 1, and for every index `i` from 2 to 8191 the entry is
`2 * floor(log2 i) + b`, with `b` the bit of `i` just below its highest set
bit; the table is non-decreasing, no entry exceeds 25 and the last entry is
25. -/
theorem lzma_fastpos_closed_form :
    lzma_fastpos.length = 8192
    ∧ lzma_fastpos[0]? = some 0 ∧ lzma_fastpos[1]? = some 1
    ∧ (∀ i, 2 ≤ i → i < 8192 → lzma_fastpos[i]? = some (fastpos_closed_form i))
    ∧ (∀ i j, i ≤ j → j < 8192 → lzma_fastpos.getD i 0 ≤ lzma_fastpos.getD j 0)
    ∧ (∀ x ∈ lzma_fastpos, x ≤ 25) ∧ lzma_fastpos[8191]? = some 25 := by
  have hlen : lzma_fastpos.length = 8192 := by
    rw [lzma_fastpos_eq, List.length_map, List.length_range']
  have hform : ∀ i, 2 ≤ i → i < 8192 → lzma_fastpos[i]? = some (fastpos_closed_form i) := by
    intro i h2 hi
    rw [lzma_fastpos_get i hi, fastpos_by_halving_eq i h2 hi]
  have hmono : ∀ i j, i ≤ j → j < 8192 → lzma_fastpos.getD i 0 ≤ lzma_fastpos.getD j 0 := by
    intro i j hij hj
    have hi : i < 8192 := by omega
    have gi := lzma_fastpos_get i hi
    have gj := lzma_fastpos_get j hj
    rw [List.getD_eq_getElem?_getD, List.getD_eq_getElem?_getD, gi, gj]
    exact fastpos_by_halving_mono i j hij hj
  have hlast : lzma_fastpos[8191]? = some 25 := by
    rw [lzma_fastpos_get 8191 (by omega)]
    rfl
  refine ⟨hlen, ?_, ?_, hform, hmono, ?_, hlast⟩
  · rw [lzma_fastpos_get 0 (by omega)]
    rfl
  · rw [lzma_fastpos_get 1 (by omega)]
    rfl
  · intro x hx
    obtain ⟨i, hi, hget⟩ := List.getElem_of_mem hx
    have h1 := hmono i 8191 (by omega) (by omega)
    rw [List.getD_eq_getElem _ _ hi, hget] at h1
    have h2 : lzma_fastpos.getD 8191 0 = 25 := by
      rw [List.getD_eq_getElem?_getD, hlast]
      rfl
    omega

/-- The entry at the index 5000, and the entries at 2 and 5000 in order. -/
theorem lzma_fastpos_closed_form_witness :
    lzma_fastpos[5000]? = some (fastpos_closed_form 5000)
    ∧ lzma_fastpos.getD 2 0 ≤ lzma_fastpos.getD 5000 0 :=
  ⟨lzma_fastpos_closed_form.2.2.2.1 5000 (by decide) (by decide),
   lzma_fastpos_closed_form.2.2.2.2.1 2 5000 (by decide) (by decide)⟩

end Tabix
